import Mathlib

/-!
# Verification of `vtkThreadedCallbackQueue`

A shallow embedding of `Parallel/Core/vtkThreadedCallbackQueue.cxx`:
a concurrent task queue with dependency-aware futures.  The embedding has
two layers:

* a *functional* layer that translates the individual operations
  (`PopFrontNullptr`, `TryInvoke`, the past-due batch reinsertion of
  `SignalDependentSharedFutures`, and `SetNumberOfThreads`) as pure
  functions over explicit state;
* a *transition-system* layer that models the lock-protected critical
  sections of the queue as atomic steps of a small-step semantics, used
  for the temporal properties (dependency ordering, status monotonicity,
  worker demotion).

Operations of the class that live in the header (`Push`, `PushDependent`,
`Wait`, the `RUNNING → DONE` transition performed by the invoker itself)
are modelled from the specification, and are marked as such.
-/

namespace VTKQueue

/-- The status enum of a shared future state:
`ON_HOLD`, `ENQUEUED`, `RUNNING`, `DONE`. -/
inductive Status where
  | onHold
  | enqueued
  | running
  | done
deriving DecidableEq, Repr

/-- Numeric rank of a status along the intended progression
ON_HOLD → ENQUEUED → RUNNING → DONE. -/
def Status.rank : Status → Nat
  | .onHold => 0
  | .enqueued => 1
  | .running => 2
  | .done => 3

/-! ## Functional layer

Direct translations of the individual routines of
`vtkThreadedCallbackQueue.cxx`, operating on explicit values for the fields
they touch.  The invoker queue is a list of slots, a slot being `none` for a
moved-from ("tombstone") entry, `some inv` otherwise; the front of the queue
is the head of the list. -/

/-- The fields of `InvokerFutureSharedStateBase` used by `TryInvoke` and by
the reinsertion loop of `SignalDependentSharedFutures`: the `Status` field
and the `InvokerIndex` field (a signed 64-bit `vtkIdType`). -/
structure SharedFutureState where
  status : Status
  invokerIndex : Int
deriving DecidableEq, Repr

/-- `InvokerBase`: the runnable wrapper around one payload.  It carries its
shared future state and the `IsHighPriority` flag. -/
structure Invoker where
  sharedState : SharedFutureState
  isHighPriority : Bool
deriving DecidableEq, Repr

/-- `vtkThreadedCallbackQueue::PopFrontNullptr` (lines 204–210): pop the
front of the queue while the queue is non-empty and its front is a null
(moved-from) slot. -/
def popFrontNullptr : List (Option α) → List (Option α)
  | [] => []
  | none :: rest => popFrontNullptr rest
  | some x :: rest => some x :: rest

/-- The invoker index stored in slot `j` of the queue, when that slot holds
an invoker. -/
def idxAt (q : List (Option Invoker)) (j : Nat) : Option Int :=
  ((q.get? j).bind id).map fun inv => inv.sharedState.invokerIndex

/-- `vtkThreadedCallbackQueue::TryInvoke` (lines 299–338).  `Invoke` is
modelled up to the start of the payload: it sets the target's status to
RUNNING (line 216); the payload itself is opaque here.  Returns the `bool`
result of the source together with the updated target state and queue.

Unreachable branches of the source are mapped to the abort path and marked:
the source dereferences the queue front unconditionally, but `PopFrontNullptr`
keeps the front non-null whenever the queue is non-empty; the source indexes
`InvokerQueue[index]` without a bounds check, which is undefined out of
range — the theorems below carry the in-range hypotheses. -/
def tryInvoke (state : SharedFutureState) (q : List (Option Invoker)) :
    Bool × SharedFutureState × List (Option Invoker) :=
  if state.status ≠ Status.enqueued then (false, state, q)
  else
    match q with
    | [] => (false, state, q)
    | none :: _ => (false, state, q)
    | some front :: rest =>
      let index : Int := state.invokerIndex - front.sharedState.invokerIndex
      if index = 0 then
        (true, { state with status := Status.running }, popFrontNullptr rest)
      else if index < 0 then (false, state, q)
      else
        match (q.get? index.toNat).bind id with
        | none => (false, state, q)
        | some _ =>
          (true, { state with status := Status.running }, q.set index.toNat none)

/-- The addressing invariant of §4.3: every non-null slot `j` of the queue
holds the invoker whose index is `f + j`, `f` being the front's index (the
queue behaves like an index-addressable deque). -/
abbrev queueConsecutive (q : List (Option Invoker)) (f : Int) : Prop :=
  ∀ j, j < q.length → idxAt q j = none ∨ idxAt q j = some (f + (j : Int))

/-- `2 ^ 64`, the modulus of `std::size_t` arithmetic. -/
def two64 : Nat := 2 ^ 64

/-- Conversion of a signed 64-bit value to `std::size_t` (reduction
mod `2 ^ 64`). -/
def toUInt64 (i : Int) : Nat := (i % (two64 : Int)).toNat

/-- Conversion of a `std::size_t` value to the signed 64-bit `vtkIdType`
(two's complement). -/
def toInt64 (n : Nat) : Int :=
  if n % two64 < 2 ^ 63 then (n % two64 : Int) else (n % two64 : Int) - (two64 : Int)

/-- The reinsertion loop of `SignalDependentSharedFutures` (lines 279–290):
for each collected invoker, decrement the running `std::size_t` index
(with wraparound), store it into the invoker's `InvokerIndex`, set the
status to ENQUEUED, and push the invoker to the front of the queue. -/
def pastDueLoop (invokers : List Invoker) (index : Nat)
    (q : List (Option Invoker)) : List (Option Invoker) :=
  match invokers with
  | [] => q
  | inv :: rest =>
    let index1 := (index + two64 - 1) % two64
    let inv1 : Invoker :=
      { inv with sharedState :=
          { status := Status.enqueued, invokerIndex := toInt64 index1 } }
    pastDueLoop rest index1 (some inv1 :: q)

/-- The batch-reinsertion phase of `SignalDependentSharedFutures`
(lines 270–296): when the collected list is non-empty, the starting index is
the collected count if the queue is empty, else the front invoker's index
read into a `std::size_t`; the loop of `pastDueLoop` then runs.  The second
component is the number of `notify_one` calls (lines 292–295), one per
collected invoker.  The source dereferences the queue front when non-empty;
the null-front branch is unreachable (front invariant) and left untouched. -/
def enqueuePastDue (invokers : List Invoker) (q : List (Option Invoker)) :
    List (Option Invoker) × Nat :=
  if invokers.isEmpty then (q, invokers.length)
  else
    let start : Nat :=
      match q with
      | [] => invokers.length
      | none :: _ => 0
      | some front :: _ => toUInt64 front.sharedState.invokerIndex
    (pastDueLoop invokers start q, invokers.length)

/-- The outcome the reinsertion loop is expected to produce: the `k`-th
collected invoker is assigned index `f - (k + 1)` — counting down from the
front index `f` — with status ENQUEUED. -/
def assignPastDue (invokers : List Invoker) (f : Int) : List Invoker :=
  match invokers with
  | [] => []
  | inv :: rest =>
    { inv with sharedState :=
        { status := Status.enqueued, invokerIndex := f - 1 } } ::
      assignPastDue rest (f - 1)

/-! ### `SetNumberOfThreads` -/

/-- Thread identities (`std::thread::id`), abstracted as naturals. -/
abbrev ThreadId := Nat

/-- The controller state touched by `SetNumberOfThreads`: the `Threads`
vector of thread handles (as a list of thread ids), the `ThreadIdToIndex`
map (an association list from thread id to the value of that worker's atomic
index), the `NumberOfThreads` target, and the `Destroying` flag.  The
invoker queue is carried untouched. -/
structure CtrlState where
  threads : List ThreadId
  threadIdToIndex : List (ThreadId × Int)
  numberOfThreads : Int
  destroying : Bool
  invokerQueue : List (Option Invoker)
deriving DecidableEq, Repr

/-- Overwrite the atomic index value associated with thread `id`. -/
def setIdx (m : List (ThreadId × Int)) (id : ThreadId) (v : Int) :
    List (ThreadId × Int) :=
  m.map fun p => if p.1 = id then (p.1, v) else p

/-- `std::swap` of two slots of the `Threads` vector. -/
def swapSlots (l : List α) (i j : Nat) : List α :=
  match l.get? i, l.get? j with
  | some a, some b => (l.set i b).set j a
  | _, _ => l

/-- `vtkThreadedCallbackQueue::SetNumberOfThreads` (the body of the control
lambda, lines 132–193) together with `Sync` (lines 197–201).  `callerId` is
the id of the thread running the control; spawned threads draw their ids
from `fresh`.  Returns the new state, the list of spawned ids, and the list
of joined ids (`Sync(start)` joins `Threads[start..]`); `none` models the
`std::out_of_range` thrown by `ThreadIdToIndex.at` when the caller of a
shrink is not a registered worker.  On growth, each new thread's index is
the size of `Threads` at its spawn (lines 151–153), i.e. consecutive values
from the old size. -/
def setNumberOfThreads (callerId : ThreadId) (fresh : List ThreadId) (n : Int)
    (st : CtrlState) : Option (CtrlState × List ThreadId × List ThreadId) :=
  let size : Int := st.threads.length
  if st.destroying then some (st, [], [])
  else if size = n then some (st, [], [])
  else if size < n then
    let newIds := fresh.take (n - size).toNat
    let newEntries := newIds.enum.map fun p => (p.2, size + (p.1 : Int))
    some ({ st with
      numberOfThreads := n
      threads := st.threads ++ newIds
      threadIdToIndex := st.threadIdToIndex ++ newEntries }, newIds, [])
  else
    match st.threadIdToIndex.lookup callerId with
    | none => none
    | some callerIdx =>
      if callerIdx ≠ 0 ∧ n ≤ callerIdx then
        match st.threads.get? 0 with
        | none => none
        | some t0 =>
          match st.threadIdToIndex.lookup t0 with
          | none => none
          | some t0Idx =>
            let threads1 := swapSlots st.threads callerIdx.toNat 0
            let map1 := setIdx (setIdx st.threadIdToIndex t0 callerIdx)
              callerId t0Idx
            some ({ st with
              numberOfThreads := n
              threads := threads1.take n.toNat
              threadIdToIndex := map1 }, [], threads1.drop n.toNat)
      else
        some ({ st with
          numberOfThreads := n
          threads := st.threads.take n.toNat }, [], st.threads.drop n.toNat)

/-! ## Transition-system layer

The lock-protected critical sections of the queue, modelled as atomic steps
of a small-step semantics over a global state.  Used for the temporal
claims (dependency ordering, status monotonicity, worker demotion, the
reinsertion assertion).

The ready queue is abstracted to its list of non-null task ids (the
functional layer above proves the tombstone bookkeeping exact); the front of
the abstract queue coincides with the front slot of the concrete deque
because `PopFrontNullptr` keeps the front slot non-null.  Invoker indexes
are likewise handled in the functional layer and omitted here.

Operations that live in the class header rather than in
`vtkThreadedCallbackQueue.cxx` are modelled from the spec and marked
`Modelled from the spec` below. -/

/-- Task (shared-future-state) identities. -/
abbrev TaskId := Nat

/-- Per-task record: the fields of one shared future state, together with
two ghost fields used by the invariants.  `counter` is
`NumberOfPriorSharedFuturesRemaining`, `dependents` is
`DependentSharedFutures`, `highPriority` is the `IsHighPriority` flag of the
associated invoker.  Ghost: `priors` records every prior future passed at
submission; `pending` records the priors that have not yet signalled this
task (each signal erases one occurrence). -/
structure Task where
  status : Status
  counter : Int
  dependents : List TaskId
  highPriority : Bool
  priors : List TaskId
  pending : List TaskId
deriving DecidableEq, Repr

/-- One in-flight activation of `SignalDependentSharedFutures` for a
completed task `owner`: the dependents not yet iterated, and the invokers
collected so far for batch reinsertion (`invokersToLaunch`). -/
structure Frame where
  owner : TaskId
  remaining : List TaskId
  collected : List TaskId
deriving DecidableEq, Repr

/-- The control state of one thread (worker or `Wait` caller):
idle, executing the payload of a task (with the stack of signalling
activations it will return to — inline high-priority execution recurses),
inside `SignalDependentSharedFutures`, or exited. -/
inductive Phase where
  | idle
  | running (t : TaskId) (stack : List Frame)
  | signaling (stack : List Frame)
  | exited
deriving DecidableEq, Repr

/-- One thread: whether it is a pool worker (a `ThreadWorker`), the value of
its atomic `ThreadIndex`, whether its id is registered in `ThreadIdToIndex`,
and its control phase.  `Wait` callers are modelled as non-worker actors. -/
structure Actor where
  isWorker : Bool
  idx : Int
  registered : Bool
  phase : Phase
deriving DecidableEq, Repr

/-- The global state: the task table (a task's id is its position), the
ready queue (front first), the keys of the `InvokersOnHold` store, the
threads, the `NumberOfThreads` target, and the `Destroying` flag. -/
structure Sys where
  tasks : List Task
  queue : List TaskId
  onHold : List TaskId
  actors : List Actor
  numberOfThreads : Int
  destroying : Bool
deriving DecidableEq, Repr

/-- Update position `i` of a list in place. -/
def updAt (l : List α) (i : Nat) (f : α → α) : List α :=
  match l.get? i with
  | some x => l.set i (f x)
  | none => l

/-- The status of task `t`, when `t` exists. -/
def taskStatus (s : Sys) (t : TaskId) : Option Status :=
  (s.tasks.get? t).map Task.status

/-- The ghost pending-priors list of task `t` (empty when `t` does not
exist). -/
def taskPending (s : Sys) (t : TaskId) : List TaskId :=
  ((s.tasks.get? t).map Task.pending).getD []

/-- The dependents list of task `t` (empty when `t` does not exist). -/
def taskDependents (s : Sys) (t : TaskId) : List TaskId :=
  ((s.tasks.get? t).map Task.dependents).getD []

/-- The ghost priors list of task `t` (empty when `t` does not exist). -/
def taskPriors (s : Sys) (t : TaskId) : List TaskId :=
  ((s.tasks.get? t).map Task.priors).getD []

/-- The `IsHighPriority` flag of task `t`'s invoker, when `t` exists. -/
def taskHigh (s : Sys) (t : TaskId) : Option Bool :=
  (s.tasks.get? t).map Task.highPriority

/-- Register a freshly submitted task `n` in the dependents list of each of
its not-yet-DONE priors. -/
def registerPriors (ts : List Task) (n : TaskId) (nd : List TaskId) :
    List Task :=
  nd.foldl (fun acc p =>
    updAt acc p fun tk => { tk with dependents := tk.dependents ++ [n] }) ts

/-- The atomic actions.  `w` names an actor, `t` a task. -/
inductive Act where
  | push
  | pushDependent (priors : List TaskId)
  | claim (w : Nat)
  | finishPayload (w : Nat)
  | signalStep (w : Nat)
  | signalFinish (w : Nat)
  | tryClaim (w : Nat) (t : TaskId)
  | markHighPriority (t : TaskId)
  | workerExit (w : Nat)
  | setTarget (n : Int)
  | spawnWorker (i : Int)
  | destroy
deriving DecidableEq, Repr

/-- The step function: `none` when the action is not enabled.

* `push` — Modelled from the spec (§4.1 `Push`): a task with no priors is
  created ENQUEUED and appended to the back of the ready queue.
* `pushDependent priors` — Modelled from the spec (§4.1 `PushDependent`):
  the counter is the number of priors not already DONE; the new task is
  registered in the dependents list of each such prior; with no unmet
  dependency it behaves like `push`, otherwise it is ON_HOLD and goes into
  the on-hold store.  The per-prior locking protocol is collapsed into one
  atomic step.
* `claim w` — `ThreadWorker::Pop` (lines 55–83), successful path: requires
  an in-service worker (`ThreadIndex < NumberOfThreads`, the `Continue`
  check of line 99) and a non-empty queue; pops the front and runs
  `Invoke` up to the start of the payload (status to RUNNING, line 216).
* `finishPayload w` — the payload ends: the invoker sets the status to DONE
  (Modelled from the spec, §4.2: completion is `RUNNING → DONE`) and enters
  `SignalDependentSharedFutures` with the task's dependents (line 235).
* `signalStep w` — one iteration of the dependents loop (lines 235–268):
  decrement the dependent's counter; if its status is ON_HOLD and the
  counter hit zero, remove its invoker from the on-hold store, then either
  invoke it inline when `IsHighPriority` (lines 258–262) or collect it
  (line 265).  A missing on-hold entry would be dereferenced blindly by the
  source (line 252); the step is disabled instead (unreachable).
* `signalFinish w` — the batch reinsertion (lines 270–296): every collected
  invoker is pushed to the front of the queue with status ENQUEUED, and the
  signalling activation returns (to the enclosing one, if any).
* `tryClaim w t` — `TryInvoke` (lines 299–338), successful path: the target
  must be ENQUEUED and present in the queue; its slot is removed (the
  functional `tryInvoke` above proves the positional removal takes exactly
  the target's slot) and it runs on the calling actor.
* `markHighPriority t` — Modelled from the spec (§4.5 `Wait`): an ON_HOLD
  target is marked high-priority.
* `workerExit w` — `ThreadWorker::Pop` returning false and
  `ThreadWorker::operator()` (lines 40–47): enabled exactly when the worker
  proceeds past the wait with `Continue()` false, i.e. its index is out of
  bounds, or the queue is being destroyed and is empty; the worker then
  erases its id from `ThreadIdToIndex` and terminates.
* `setTarget n` / `spawnWorker i` — the `NumberOfThreads` update and the
  thread spawning of `SetNumberOfThreads` (lines 147–160, 186); the
  join/swap bookkeeping is covered by the functional `setNumberOfThreads`.
* `destroy` — the destructor sets `Destroying` (lines 115–127). -/
def step (s : Sys) (a : Act) : Option Sys :=
  match a with
  | .push =>
    some { s with
      tasks := s.tasks ++ [⟨Status.enqueued, 0, [], false, [], []⟩]
      queue := s.queue ++ [s.tasks.length] }
  | .pushDependent priors =>
    if priors.all (· < s.tasks.length) then
      let n := s.tasks.length
      let nd := priors.filter fun p => taskStatus s p ≠ some Status.done
      if nd.isEmpty then
        some { s with
          tasks := s.tasks ++ [⟨Status.enqueued, 0, [], false, priors, []⟩]
          queue := s.queue ++ [n] }
      else
        some { s with
          tasks := registerPriors
            (s.tasks ++ [⟨Status.onHold, (nd.length : Int), [], false, priors, nd⟩])
            n nd
          onHold := s.onHold ++ [n] }
    else none
  | .claim w =>
    match s.actors.get? w with
    | some ac =>
      if ac.isWorker ∧ ac.phase = Phase.idle ∧ ac.idx < s.numberOfThreads then
        match s.queue with
        | t :: rest =>
          some { s with
            queue := rest
            tasks := updAt s.tasks t fun tk => { tk with status := Status.running }
            actors := updAt s.actors w fun a2 => { a2 with phase := Phase.running t [] } }
        | [] => none
      else none
    | none => none
  | .finishPayload w =>
    match s.actors.get? w with
    | some ac =>
      match ac.phase with
      | Phase.running t stk =>
        some { s with
          tasks := updAt s.tasks t fun tk => { tk with status := Status.done }
          actors := updAt s.actors w fun a2 =>
            { a2 with phase := Phase.signaling (⟨t, taskDependents s t, []⟩ :: stk) } }
      | _ => none
    | none => none
  | .signalStep w =>
    match s.actors.get? w with
    | some ac =>
      match ac.phase with
      | Phase.signaling (⟨p, d :: rest, col⟩ :: stk) =>
        match s.tasks.get? d with
        | some dt =>
          if dt.status = Status.onHold ∧ dt.counter - 1 = 0 then
            if d ∈ s.onHold then
              if dt.highPriority then
                some { s with
                  tasks := s.tasks.set d { dt with
                    status := Status.running
                    counter := dt.counter - 1
                    pending := dt.pending.erase p }
                  onHold := s.onHold.erase d
                  actors := updAt s.actors w fun a2 =>
                    { a2 with phase := Phase.running d (⟨p, rest, col⟩ :: stk) } }
              else
                some { s with
                  tasks := s.tasks.set d { dt with
                    counter := dt.counter - 1
                    pending := dt.pending.erase p }
                  onHold := s.onHold.erase d
                  actors := updAt s.actors w fun a2 =>
                    { a2 with phase := Phase.signaling (⟨p, rest, col ++ [d]⟩ :: stk) } }
            else none
          else
            some { s with
              tasks := s.tasks.set d { dt with
                counter := dt.counter - 1
                pending := dt.pending.erase p }
              actors := updAt s.actors w fun a2 =>
                { a2 with phase := Phase.signaling (⟨p, rest, col⟩ :: stk) } }
        | none => none
      | _ => none
    | none => none
  | .signalFinish w =>
    match s.actors.get? w with
    | some ac =>
      match ac.phase with
      | Phase.signaling (⟨_, [], col⟩ :: stk) =>
        some { s with
          tasks := col.foldl (fun acc c =>
            updAt acc c fun tk => { tk with status := Status.enqueued }) s.tasks
          queue := col.foldl (fun acc c => c :: acc) s.queue
          actors := updAt s.actors w fun a2 =>
            { a2 with phase := if stk.isEmpty then Phase.idle else Phase.signaling stk } }
      | _ => none
    | none => none
  | .tryClaim w t =>
    match s.actors.get? w with
    | some ac =>
      if ac.phase = Phase.idle ∧ taskStatus s t = some Status.enqueued ∧ t ∈ s.queue then
        some { s with
          queue := s.queue.erase t
          tasks := updAt s.tasks t fun tk => { tk with status := Status.running }
          actors := updAt s.actors w fun a2 => { a2 with phase := Phase.running t [] } }
      else none
    | none => none
  | .markHighPriority t =>
    match s.tasks.get? t with
    | some tk =>
      if tk.status = Status.onHold then
        some { s with tasks := s.tasks.set t { tk with highPriority := true } }
      else none
    | none => none
  | .workerExit w =>
    match s.actors.get? w with
    | some ac =>
      if ac.isWorker ∧ ac.phase = Phase.idle ∧
          (s.numberOfThreads ≤ ac.idx ∨ (s.destroying ∧ s.queue = [])) then
        some { s with
          actors := updAt s.actors w fun a2 =>
            { a2 with phase := Phase.exited, registered := false } }
      else none
    | none => none
  | .setTarget n =>
    if s.destroying then none else some { s with numberOfThreads := n }
  | .spawnWorker i =>
    if s.destroying then none
    else some { s with actors := s.actors ++ [⟨true, i, true, Phase.idle⟩] }
  | .destroy => some { s with destroying := true }

/-- Run a sequence of actions. -/
def run (s : Sys) (acts : List Act) : Option Sys :=
  match acts with
  | [] => some s
  | a :: rest =>
    match step s a with
    | some s1 => run s1 rest
    | none => none

/-- The state after construction: no tasks, one worker (the constructor
calls `SetNumberOfThreads(1)`, line 111). -/
def init : Sys := ⟨[], [], [], [⟨true, 0, true, Phase.idle⟩], 1, false⟩

/-! ### Invariants -/

/-- The signalling activations held by one actor. -/
def actorFrames (ac : Actor) : List Frame :=
  match ac.phase with
  | Phase.running _ stk => stk
  | Phase.signaling stk => stk
  | _ => []

/-- All in-flight signalling activations. -/
def allFrames (s : Sys) : List Frame :=
  s.actors.flatMap actorFrames

/-- The task executed by one actor, if any. -/
def runningOf (ac : Actor) : List TaskId :=
  match ac.phase with
  | Phase.running t _ => [t]
  | _ => []

/-- The tasks currently being executed by some actor. -/
def runningTasks (s : Sys) : List TaskId :=
  s.actors.flatMap runningOf

/-- All invokers collected for batch reinsertion. -/
def collectedTasks (s : Sys) : List TaskId :=
  (allFrames s).flatMap Frame.collected

/-- Number of containers currently owning the invoker of task `t`: queue
slots, on-hold entries, actor execution frames, collected buffers.  The
source moves invokers between these containers; ownership is exclusive. -/
def occCount (s : Sys) (t : TaskId) : Nat :=
  s.queue.count t + s.onHold.count t + (runningTasks s).count t +
    (collectedTasks s).count t

/-- The global invariant tying statuses, counters and container membership
together. -/
structure Inv (s : Sys) : Prop where
  queueStatus : ∀ t ∈ s.queue, taskStatus s t = some Status.enqueued
  queuePending : ∀ t ∈ s.queue, taskPending s t = []
  holdStatus : ∀ t ∈ s.onHold, taskStatus s t = some Status.onHold
  runStatus : ∀ t ∈ runningTasks s, taskStatus s t = some Status.running
  collectedStatus : ∀ c ∈ collectedTasks s, taskStatus s c = some Status.onHold
  collectedPending : ∀ c ∈ collectedTasks s, taskPending s c = []
  ownerDone : ∀ f ∈ allFrames s, taskStatus s f.owner = some Status.done
  ownersNodup : ((allFrames s).map Frame.owner).Nodup
  remainingPending : ∀ f ∈ allFrames s, ∀ t,
    f.remaining.count t ≤ (taskPending s t).count f.owner
  dependentsPending : ∀ p, taskStatus s p ≠ some Status.done → ∀ t,
    (taskDependents s p).count t ≤ (taskPending s t).count p
  counterPending : ∀ tk ∈ s.tasks, tk.counter = (tk.pending.length : Int)
  priorsDone : ∀ tk ∈ s.tasks, ∀ p ∈ tk.priors,
    p ∈ tk.pending ∨ taskStatus s p = some Status.done
  statusPending : ∀ tk ∈ s.tasks, tk.status ≠ Status.onHold → tk.pending = []
  occUnique : ∀ t, occCount s t ≤ 1

/-! ## Helper lemmas -/

theorem get?_decomp {α : Type} {l : List α} {i : Nat} {x : α}
    (h : l.get? i = some x) : l = l.take i ++ x :: l.drop (i + 1) := by
  rcases List.get?_eq_some.mp h with ⟨h1, hx⟩
  conv_lhs => rw [← List.take_append_drop i l]
  rw [List.drop_eq_getElem_cons h1]
  congr 1
  simp only [List.get_eq_getElem] at hx
  rw [hx]

theorem updAt_length {α : Type} (l : List α) (i : Nat) (f : α → α) :
    (updAt l i f).length = l.length := by
  unfold updAt
  cases h : l.get? i <;> simp

theorem updAt_get?_self {α : Type} {l : List α} {i : Nat} {x : α} (f : α → α)
    (h : l.get? i = some x) : (updAt l i f).get? i = some (f x) := by
  unfold updAt
  rw [h]
  have h1 := (List.get?_eq_some.mp h).1
  simp [List.get?_eq_getElem?, List.getElem?_set_self, h1]

theorem updAt_get?_ne {α : Type} {l : List α} {i j : Nat} (f : α → α)
    (h : i ≠ j) : (updAt l i f).get? j = l.get? j := by
  unfold updAt
  cases hx : l.get? i
  · rfl
  · simp [List.get?_eq_getElem?, List.getElem?_set_ne h]

theorem popFrontNullptr_spec {α : Type} (q : List (Option α)) :
    popFrontNullptr q = [] ∨ ∃ v r, popFrontNullptr q = some v :: r := by
  induction q with
  | nil => exact Or.inl rfl
  | cons x rest ih =>
    cases x with
    | none => simpa [popFrontNullptr] using ih
    | some v => exact Or.inr ⟨v, rest, rfl⟩

/-! ## Claims C5 and C10 : `TryInvoke` -/

/-- Claim C5: `TryInvoke` removes a targeted ENQUEUED invoker from the ready
queue by computing its position as the target's `invokerIndex` minus the
front's `invokerIndex` and taking exactly that slot, leaving a tombstone
when the slot is not the front; when the removed slot is the front, the
front is popped and leading tombstones are stripped, so after a front
removal the queue is either empty or has a non-null front. -/
theorem C5_tryInvoke_positional_removal
    (state : SharedFutureState) (front tgt : Invoker)
    (rest : List (Option Invoker)) (k : Nat) (q : List (Option Invoker))
    (hq : q = some front :: rest)
    (hst : state.status = Status.enqueued)
    (htgt : q.get? k = some (some tgt))
    (hidx : tgt.sharedState.invokerIndex = state.invokerIndex)
    (hwf : queueConsecutive q front.sharedState.invokerIndex) :
    tryInvoke state q =
      (true, { state with status := Status.running },
        if k = 0 then popFrontNullptr rest else q.set k none) ∧
    (popFrontNullptr rest = [] ∨ ∃ v r, popFrontNullptr rest = some v :: r) ∧
    (k ≠ 0 → (q.set k none).get? k = some none ∧
      (q.set k none).length = q.length ∧
      ∀ j, j ≠ k → (q.set k none).get? j = q.get? j) := by
  have hk : k < q.length := (List.get?_eq_some.mp htgt).1
  have hfk : tgt.sharedState.invokerIndex =
      front.sharedState.invokerIndex + (k : Int) := by
    rcases hwf k hk with h | h
    · rw [idxAt, htgt] at h
      simp at h
    · rw [idxAt, htgt] at h
      simpa using h
  have hdiff : state.invokerIndex - front.sharedState.invokerIndex = (k : Int) := by
    rw [← hidx, hfk]; ring
  refine ⟨?_, popFrontNullptr_spec rest, ?_⟩
  · by_cases hk0 : k = 0
    · subst hk0 hq
      simp only [Nat.cast_zero] at hdiff
      simp [tryInvoke, hst, hdiff]
    · have hknz : ¬ ((k : Int) = 0) := by exact_mod_cast hk0
      have hknn : ¬ ((k : Int) < 0) := not_lt.mpr (Int.natCast_nonneg k)
      subst hq
      simp only [tryInvoke, hst, ne_eq, not_true_eq_false, if_false, hdiff,
        if_neg hknz, if_neg hknn, Int.toNat_natCast, htgt, Option.some_bind,
        id_eq, if_neg hk0]
  · intro hk0
    have h1 : (q.set k none).get? k = some none := by
      simp [List.get?_eq_getElem?, List.getElem?_set_self, hk]
    exact ⟨h1, by simp, fun j hj => by
      simp [List.get?_eq_getElem?, List.getElem?_set_ne (fun h => hj h.symm)]⟩

/-- Claim C5 witness: a concrete queue with front index 5 and a target at
offset 2. -/
theorem C5_witness :
    tryInvoke ⟨Status.enqueued, 7⟩
        [some ⟨⟨Status.enqueued, 5⟩, false⟩, some ⟨⟨Status.enqueued, 6⟩, false⟩,
          some ⟨⟨Status.enqueued, 7⟩, false⟩] =
      (true, ⟨Status.running, 7⟩,
        [some ⟨⟨Status.enqueued, 5⟩, false⟩, some ⟨⟨Status.enqueued, 6⟩, false⟩,
          none]) := by
  have h := C5_tryInvoke_positional_removal ⟨Status.enqueued, 7⟩
    ⟨⟨Status.enqueued, 5⟩, false⟩ ⟨⟨Status.enqueued, 7⟩, false⟩
    [some ⟨⟨Status.enqueued, 6⟩, false⟩, some ⟨⟨Status.enqueued, 7⟩, false⟩] 2
    _ rfl rfl (by decide) (by decide) (by decide)
  exact h.1.trans (by decide)

/-- Claim C10: `TryInvoke` invokes nothing and returns false when the target
is not ENQUEUED or the ready queue is empty, leaving the target state and
the queue unchanged (as it does on every false return); it returns true only
when it actually removed the target's invoker from the queue and executed it
(status to RUNNING). -/
theorem C10_tryInvoke_abort (state : SharedFutureState)
    (q : List (Option Invoker)) (f : Int)
    (hwf : queueConsecutive q f)
    (hfront : q = [] ∨ idxAt q 0 = some f) :
    ((state.status ≠ Status.enqueued ∨ q = []) →
      tryInvoke state q = (false, state, q)) ∧
    ((tryInvoke state q).1 = false → tryInvoke state q = (false, state, q)) ∧
    ((tryInvoke state q).1 = true →
      state.status = Status.enqueued ∧ q ≠ [] ∧
      (tryInvoke state q).2.1 = { state with status := Status.running } ∧
      ∃ k inv, q.get? k = some (some inv) ∧
        inv.sharedState.invokerIndex = state.invokerIndex ∧
        (tryInvoke state q).2.2 =
          (if k = 0 then popFrontNullptr q.tail else q.set k none)) := by
  by_cases hst : state.status = Status.enqueued
  · cases q with
    | nil =>
      refine ⟨fun _ => by simp [tryInvoke], fun _ => by simp [tryInvoke], ?_⟩
      intro h
      simp [tryInvoke] at h
    | cons hd rest =>
      cases hd with
      | none =>
        rcases hfront with h | h
        · exact absurd h (by simp)
        · rw [idxAt] at h
          simp at h
      | some front =>
        have hf : front.sharedState.invokerIndex = f := by
          rcases hfront with h | h
          · exact absurd h (by simp)
          · rw [idxAt] at h
            simpa using h
        by_cases hd0 : state.invokerIndex - front.sharedState.invokerIndex = 0
        · have htr : tryInvoke state (some front :: rest) =
              (true, { state with status := Status.running },
                popFrontNullptr rest) := by
            simp [tryInvoke, hst, hd0]
          refine ⟨?_, ?_, ?_⟩
          · rintro (h | h)
            · exact absurd hst h
            · exact absurd h (by simp)
          · rw [htr]
            intro h
            simp at h
          · intro _
            refine ⟨hst, by simp, by rw [htr], 0, front, rfl, by omega, ?_⟩
            rw [htr]
            simp
        · by_cases hdneg : state.invokerIndex - front.sharedState.invokerIndex < 0
          · have htr : tryInvoke state (some front :: rest) =
                (false, state, some front :: rest) := by
              simp [tryInvoke, hst, hd0, hdneg]
            refine ⟨fun _ => htr, fun _ => htr, ?_⟩
            rw [htr]
            intro h
            simp at h
          · cases hslot : (((some front :: rest).get?
                (state.invokerIndex - front.sharedState.invokerIndex).toNat).bind id) with
            | none =>
              have htr : tryInvoke state (some front :: rest) =
                  (false, state, some front :: rest) := by
                simp only [tryInvoke, hst, ne_eq, not_true_eq_false, if_false,
                  if_neg hd0, if_neg hdneg]
                rw [hslot]
              refine ⟨fun _ => htr, fun _ => htr, ?_⟩
              rw [htr]
              intro h
              simp at h
            | some inv =>
              set k : Nat :=
                (state.invokerIndex - front.sharedState.invokerIndex).toNat with hkdef
              have hget : (some front :: rest).get? k = some (some inv) := by
                cases hg : (some front :: rest).get? k with
                | none => rw [hg] at hslot; simp at hslot
                | some o =>
                  rw [hg] at hslot
                  simp only [Option.some_bind, id_eq] at hslot
                  rw [hslot]
              have hkpos : (0 : Int) <
                  state.invokerIndex - front.sharedState.invokerIndex := by
                omega
              have hkc : (k : Int) =
                  state.invokerIndex - front.sharedState.invokerIndex := by
                rw [hkdef]
                exact Int.toNat_of_nonneg (le_of_lt hkpos)
              have hk0 : k ≠ 0 := by
                intro h
                rw [h] at hkc
                simp at hkc
                omega
              have hklen : k < (some front :: rest).length :=
                (List.get?_eq_some.mp hget).1
              have hinvidx : inv.sharedState.invokerIndex = state.invokerIndex := by
                rcases hwf k hklen with h | h
                · rw [idxAt, hget] at h
                  simp at h
                · rw [idxAt, hget] at h
                  simp only [Option.some_bind, id_eq, Option.map_some'] at h
                  have : inv.sharedState.invokerIndex = f + (k : Int) :=
                    Option.some.inj h
                  omega
              have htr : tryInvoke state (some front :: rest) =
                  (true, { state with status := Status.running },
                    (some front :: rest).set k none) := by
                simp only [tryInvoke, hst, ne_eq, not_true_eq_false, if_false,
                  if_neg hd0, if_neg hdneg, ← hkdef]
                rw [hslot]
              refine ⟨?_, ?_, ?_⟩
              · rintro (h | h)
                · exact absurd hst h
                · exact absurd h (by simp)
              · rw [htr]
                intro h
                simp at h
              · intro _
                refine ⟨hst, by simp, by rw [htr], k, inv, hget, hinvidx, ?_⟩
                rw [htr]
                simp [if_neg hk0]
  · have htr : tryInvoke state q = (false, state, q) := by
      simp [tryInvoke, hst]
    refine ⟨fun _ => htr, fun _ => htr, ?_⟩
    rw [htr]
    intro h
    simp at h

/-- Claim C10 witness: a non-ENQUEUED target (already RUNNING) aborts with
nothing changed. -/
theorem C10_witness :
    tryInvoke ⟨Status.running, 3⟩ [some ⟨⟨Status.enqueued, 3⟩, false⟩] =
      (false, ⟨Status.running, 3⟩, [some ⟨⟨Status.enqueued, 3⟩, false⟩]) :=
  (C10_tryInvoke_abort ⟨Status.running, 3⟩
    [some ⟨⟨Status.enqueued, 3⟩, false⟩] 3 (by decide) (by decide)).1
    (Or.inl (by decide))

/-! ## Claim C3 : past-due batch reinsertion -/

theorem toUInt64_sub_one (x : Int) :
    (toUInt64 x + two64 - 1) % two64 = toUInt64 (x - 1) := by
  unfold toUInt64 two64
  omega

theorem toInt64_toUInt64 (y : Int) (hlo : -(2 ^ 63) ≤ y) (hhi : y < 2 ^ 63) :
    toInt64 (toUInt64 y) = y := by
  unfold toInt64 toUInt64 two64
  split <;> omega

theorem pastDueLoop_spec (invokers : List Invoker) (x : Int)
    (q : List (Option Invoker))
    (hlo : -(2 ^ 63) ≤ x - invokers.length) (hhi : x < 2 ^ 63) :
    pastDueLoop invokers (toUInt64 x) q =
      ((assignPastDue invokers x).reverse.map some) ++ q := by
  induction invokers generalizing x q with
  | nil => simp [pastDueLoop, assignPastDue]
  | cons inv rest ih =>
    have hlen : ((inv :: rest : List Invoker).length : Int) =
        (rest.length : Int) + 1 := by simp
    have h1 : -(2 ^ 63) ≤ x - 1 := by
      have := hlo
      rw [hlen] at this
      have hr : (0 : Int) ≤ (rest.length : Int) := Int.natCast_nonneg _
      omega
    rw [pastDueLoop]
    rw [toUInt64_sub_one x]
    rw [ih (x - 1) _ (by rw [hlen] at hlo; push_cast; omega) (by omega)]
    rw [assignPastDue]
    rw [toInt64_toUInt64 (x - 1) h1 (by omega)]
    simp

theorem assignPastDue_mem {invokers : List Invoker} {f : Int} {inv1 : Invoker}
    (hmem : inv1 ∈ assignPastDue invokers f) :
    inv1.sharedState.status = Status.enqueued ∧
      f - invokers.length ≤ inv1.sharedState.invokerIndex ∧
      inv1.sharedState.invokerIndex < f := by
  induction invokers generalizing f with
  | nil => simp [assignPastDue] at hmem
  | cons inv rest ih =>
    rw [assignPastDue] at hmem
    rcases List.mem_cons.mp hmem with h | h
    · subst h
      refine ⟨rfl, ?_, show f - 1 < f by omega⟩
      show f - ((inv :: rest : List Invoker).length : Int) ≤ f - 1
      have hr : (0 : Int) ≤ (rest.length : Int) := Int.natCast_nonneg _
      simp only [List.length_cons]
      push_cast
      omega
    · rcases ih h with ⟨h1, h2, h3⟩
      refine ⟨h1, ?_, by omega⟩
      simp only [List.length_cons]
      push_cast
      omega

/-- Claim C3: after the dependents iteration, every collected invoker is
assigned a fresh `invokerIndex` strictly counting down from the current
front's index (hence smaller than every index already in the queue), is
pushed to the front of the ready queue with status ENQUEUED (the `k`-th
collected invoker ends up with index `f - (k + 1)`), and exactly one
condition-variable wakeup is issued per inserted invoker.  The index
arithmetic runs in `std::size_t`; the stated equality holds as long as the
front index stays within the signed 64-bit range after the decrements. -/
theorem C3_pastdue_reinsertion (invokers : List Invoker)
    (front : Invoker) (rest : List (Option Invoker))
    (q : List (Option Invoker))
    (hq : q = some front :: rest)
    (hinv : invokers ≠ [])
    (hlo : -(2 ^ 63) ≤ front.sharedState.invokerIndex - invokers.length)
    (hhi : front.sharedState.invokerIndex < 2 ^ 63)
    (hwf : queueConsecutive q front.sharedState.invokerIndex) :
    (enqueuePastDue invokers q).1 =
      ((assignPastDue invokers front.sharedState.invokerIndex).reverse.map
        some) ++ q ∧
    (enqueuePastDue invokers q).2 = invokers.length ∧
    (∀ inv1 ∈ assignPastDue invokers front.sharedState.invokerIndex,
      inv1.sharedState.status = Status.enqueued ∧
      inv1.sharedState.invokerIndex < front.sharedState.invokerIndex) ∧
    (∀ j, j < q.length →
      ∀ inv1 ∈ assignPastDue invokers front.sharedState.invokerIndex,
      idxAt q j = none ∨ ∃ old, idxAt q j = some old ∧
        inv1.sharedState.invokerIndex < old) := by
  have hne : invokers.isEmpty = false := by
    cases invokers
    · exact absurd rfl hinv
    · rfl
  refine ⟨?_, ?_, ?_, ?_⟩
  · subst hq
    rw [enqueuePastDue, hne]
    simp only [Bool.false_eq_true, if_false]
    exact pastDueLoop_spec invokers front.sharedState.invokerIndex _ hlo hhi
  · rw [enqueuePastDue.eq_def]
    split <;> rfl
  · intro inv1 hmem
    rcases assignPastDue_mem hmem with ⟨h1, _, h3⟩
    exact ⟨h1, h3⟩
  · intro j hj inv1 hmem
    rcases assignPastDue_mem hmem with ⟨_, _, h3⟩
    rcases hwf j hj with h | h
    · exact Or.inl h
    · refine Or.inr ⟨front.sharedState.invokerIndex + (j : Int), h, ?_⟩
      have : (0 : Int) ≤ (j : Int) := Int.natCast_nonneg _
      omega

/-- Claim C3 witness: front index 10, two collected invokers — they receive
indexes 9 and 8 and land at the front in that order (8 first), both
ENQUEUED, with two wakeups. -/
theorem C3_witness :
    enqueuePastDue
        [⟨⟨Status.onHold, 0⟩, false⟩, ⟨⟨Status.onHold, 0⟩, true⟩]
        [some ⟨⟨Status.enqueued, 10⟩, false⟩] =
      ([some ⟨⟨Status.enqueued, 8⟩, true⟩, some ⟨⟨Status.enqueued, 9⟩, false⟩,
        some ⟨⟨Status.enqueued, 10⟩, false⟩], 2) := by
  have h := C3_pastdue_reinsertion
    [⟨⟨Status.onHold, 0⟩, false⟩, ⟨⟨Status.onHold, 0⟩, true⟩]
    ⟨⟨Status.enqueued, 10⟩, false⟩ []
    [some ⟨⟨Status.enqueued, 10⟩, false⟩] rfl (by decide) (by decide)
    (by decide) (by decide)
  have h2 : (enqueuePastDue
      [⟨⟨Status.onHold, 0⟩, false⟩, ⟨⟨Status.onHold, 0⟩, true⟩]
      [some ⟨⟨Status.enqueued, 10⟩, false⟩]).1 =
      [some ⟨⟨Status.enqueued, 8⟩, true⟩, some ⟨⟨Status.enqueued, 9⟩, false⟩,
        some ⟨⟨Status.enqueued, 10⟩, false⟩] := h.1.trans (by decide)
  have h3 := h.2.1
  exact Prod.ext h2 (h3.trans (by decide))

/-! ## Claims C6 and C8 : `SetNumberOfThreads` -/

theorem lookup_setIdx_self (m : List (ThreadId × Int)) (id : ThreadId)
    (v w : Int) (h : m.lookup id = some w) :
    (setIdx m id v).lookup id = some v := by
  induction m with
  | nil => simp [List.lookup] at h
  | cons p rest ih =>
    obtain ⟨k, b⟩ := p
    by_cases hk : k = id
    · rw [setIdx]
      simp only [List.map_cons, if_pos hk]
      rw [List.lookup]
      simp [hk]
    · have hbeq : (id == k) = false := by
        simp only [beq_eq_false_iff_ne, ne_eq]
        exact fun he => hk he.symm
      rw [List.lookup, hbeq] at h
      rw [setIdx] at ih ⊢
      simp only [List.map_cons, if_neg hk]
      rw [List.lookup, hbeq]
      exact ih h

theorem lookup_setIdx_ne (m : List (ThreadId × Int)) (id id' : ThreadId)
    (v : Int) (h : id' ≠ id) :
    (setIdx m id v).lookup id' = m.lookup id' := by
  induction m with
  | nil => rfl
  | cons p rest ih =>
    obtain ⟨k, b⟩ := p
    by_cases hk : k = id
    · have hbeq : (id' == id) = false := by
        simp only [beq_eq_false_iff_ne, ne_eq]
        exact h
      rw [setIdx]
      simp only [List.map_cons, if_pos hk]
      rw [List.lookup, List.lookup]
      simp only [hk, hbeq]
      exact ih
    · rw [setIdx]
      simp only [List.map_cons, if_neg hk]
      rw [List.lookup, List.lookup]
      cases hbeq : (id' == k)
      · exact ih
      · rfl

theorem swapSlots_spec {α : Type} (l : List α) (c : Nat) (a b : α)
    (hc : l.get? c = some a) (h0 : l.get? 0 = some b) (hne : c ≠ 0) :
    (swapSlots l c 0).get? 0 = some a ∧
    (swapSlots l c 0).get? c = some b ∧
    (∀ j, j ≠ 0 → j ≠ c → (swapSlots l c 0).get? j = l.get? j) ∧
    (swapSlots l c 0).length = l.length := by
  have hclen : c < l.length := (List.get?_eq_some.mp hc).1
  have h0len : 0 < l.length := (List.get?_eq_some.mp h0).1
  rw [swapSlots, hc, h0]
  refine ⟨?_, ?_, ?_, by simp⟩
  · simp [List.get?_eq_getElem?, List.getElem?_set_self, h0len]
  · rw [List.get?_eq_getElem?, List.getElem?_set_ne (fun h => hne h.symm),
      ← List.get?_eq_getElem?]
    simp [List.get?_eq_getElem?, List.getElem?_set_self, hclen]
  · intro j hj0 hjc
    rw [List.get?_eq_getElem?, List.getElem?_set_ne (fun h => hj0 h.symm),
      List.getElem?_set_ne (fun h => hjc h.symm), ← List.get?_eq_getElem?]

/-- Claim C8: a `SetNumberOfThreads` request processed after `Destroying`
has been set is a no-op: it returns without spawning or joining any thread
and without modifying the controller state, the thread-handle collection,
the `NumberOfThreads` target, or the queue. -/
theorem C8_resize_during_destruction (callerId : ThreadId)
    (fresh : List ThreadId) (n : Int) (st : CtrlState)
    (h : st.destroying = true) :
    setNumberOfThreads callerId fresh n st = some (st, [], []) := by
  rw [setNumberOfThreads.eq_def, h]
  simp

/-- Claim C8 witness: a destroying controller with one thread; the request
`n = 3` changes nothing, spawns nothing, joins nothing. -/
theorem C8_witness :
    setNumberOfThreads 5 [6, 7] 3 ⟨[4], [(4, 0)], 1, true, []⟩ =
      some (⟨[4], [(4, 0)], 1, true, []⟩, [], []) :=
  C8_resize_during_destruction 5 [6, 7] 3 ⟨[4], [(4, 0)], 1, true, []⟩ rfl

/-- Claim C6 (amended: for shrink targets `n ≥ 1`): when
`SetNumberOfThreads(n)` shrinks the pool and the calling thread is a worker
whose index `c` is ≥ n, the call swaps that worker's identity with worker 0
— exchanging both the thread-handle slots and the two atomic index values —
so the calling thread survives as worker 0; it then joins exactly the
threads in the post-swap slots from `n` on (each carrying an index ≥ n after
the exchange), shrinks the thread-handle collection to size `n`, and returns
without ever joining the calling thread against itself.  For `n = 0` the
swap does not save the caller (see the counterexample). -/
theorem C6_shrink_swap (callerId t0 : ThreadId) (fresh : List ThreadId)
    (n : Int) (c : Nat) (st : CtrlState)
    (hdes : st.destroying = false)
    (hmap : ∀ i, i < st.threads.length →
      (st.threads.get? i).bind (fun tid => st.threadIdToIndex.lookup tid) =
        some (i : Int))
    (hc : st.threads.get? c = some callerId)
    (ht0 : st.threads.get? 0 = some t0)
    (hn1 : 1 ≤ n)
    (hcn : n ≤ (c : Int))
    (hshrink : n < (st.threads.length : Int)) :
    ∃ st' joined,
      setNumberOfThreads callerId fresh n st = some (st', [], joined) ∧
      st'.threads.get? 0 = some callerId ∧
      st'.threads.length = n.toNat ∧
      st'.numberOfThreads = n ∧
      st'.invokerQueue = st.invokerQueue ∧
      st'.threadIdToIndex.lookup callerId = some 0 ∧
      st'.threadIdToIndex.lookup t0 = some (c : Int) ∧
      callerId ∉ joined ∧
      joined.length = st.threads.length - n.toNat ∧
      (∀ j, j < joined.length →
        (joined.get? j).bind (fun tid => st'.threadIdToIndex.lookup tid) =
          some (n + (j : Int))) := by
  have hclen : c < st.threads.length := (List.get?_eq_some.mp hc).1
  have h0len : 0 < st.threads.length := (List.get?_eq_some.mp ht0).1
  have hlookc : st.threadIdToIndex.lookup callerId = some (c : Int) := by
    have h := hmap c hclen
    rw [hc] at h
    simpa using h
  have hlook0 : st.threadIdToIndex.lookup t0 = some 0 := by
    have h := hmap 0 h0len
    rw [ht0] at h
    simpa using h
  have hc0 : c ≠ 0 := by
    intro h
    rw [h] at hcn
    simp at hcn
    omega
  have hct0 : callerId ≠ t0 := by
    intro he
    rw [he, hlook0] at hlookc
    have : (c : Int) = 0 := (Option.some.inj hlookc).symm
    omega
  have hntn : ((n.toNat : Nat) : Int) = n := Int.toNat_of_nonneg (by omega)
  have huniqc : ∀ pos, st.threads.get? pos = some callerId → pos = c := by
    intro pos hpos
    have hplen : pos < st.threads.length := (List.get?_eq_some.mp hpos).1
    have h := hmap pos hplen
    rw [hpos] at h
    simp only [Option.some_bind, hlookc] at h
    have : (c : Int) = (pos : Int) := Option.some.inj h
    omega
  have huniq0 : ∀ pos, st.threads.get? pos = some t0 → pos = 0 := by
    intro pos hpos
    have hplen : pos < st.threads.length := (List.get?_eq_some.mp hpos).1
    have h := hmap pos hplen
    rw [hpos] at h
    simp only [Option.some_bind, hlook0] at h
    have : (0 : Int) = (pos : Int) := Option.some.inj h
    omega
  obtain ⟨hsw0, hswc, hswo, hswl⟩ := swapSlots_spec st.threads c callerId t0 hc ht0 hc0
  have hguard : ((c : Int) ≠ 0 ∧ n ≤ (c : Int)) := by
    constructor
    · intro h
      have : c = 0 := by omega
      exact hc0 this
    · exact hcn
  have hres : setNumberOfThreads callerId fresh n st =
      some ({ st with
        numberOfThreads := n
        threads := (swapSlots st.threads c 0).take n.toNat
        threadIdToIndex := setIdx (setIdx st.threadIdToIndex t0 (c : Int))
          callerId 0 }, [],
        (swapSlots st.threads c 0).drop n.toNat) := by
    rw [setNumberOfThreads.eq_def, hdes]
    have h1 : ¬ ((st.threads.length : Int) = n) := by omega
    have h2 : ¬ ((st.threads.length : Int) < n) := by omega
    simp only [Bool.false_eq_true, if_false, if_neg h1, if_neg h2, hlookc,
      if_pos hguard, ht0, hlook0, Int.toNat_natCast]
  have hlk1 : (setIdx (setIdx st.threadIdToIndex t0 (c : Int))
      callerId 0).lookup callerId = some 0 := by
    apply lookup_setIdx_self
    rw [lookup_setIdx_ne _ _ _ _ hct0]
    exact hlookc
  have hlk2 : (setIdx (setIdx st.threadIdToIndex t0 (c : Int))
      callerId 0).lookup t0 = some (c : Int) := by
    rw [lookup_setIdx_ne _ _ _ _ (fun he => hct0 he.symm)]
    exact lookup_setIdx_self _ _ _ _ hlook0
  have hlk3 : ∀ tid, tid ≠ callerId → tid ≠ t0 →
      (setIdx (setIdx st.threadIdToIndex t0 (c : Int))
        callerId 0).lookup tid = st.threadIdToIndex.lookup tid := by
    intro tid h1 h2
    rw [lookup_setIdx_ne _ _ _ _ h1, lookup_setIdx_ne _ _ _ _ h2]
  have hntlen : n.toNat < st.threads.length := by omega
  refine ⟨_, _, hres, ?_, ?_, rfl, rfl, hlk1, hlk2, ?_, ?_, ?_⟩
  · rw [List.get?_take (by omega : 0 < n.toNat)]
    exact hsw0
  · simp only [List.length_take, hswl]
    omega
  · intro hmem
    obtain ⟨j, hj⟩ := List.mem_iff_get?.mp hmem
    rw [List.get?_drop] at hj
    have hpos0 : n.toNat + j ≠ 0 := by omega
    by_cases hpc : n.toNat + j = c
    · rw [hpc, hswc] at hj
      exact hct0 (Option.some.inj hj).symm
    · rw [hswo _ hpos0 hpc] at hj
      exact hpc (huniqc _ hj)
  · simp [hswl]
  · intro j hj
    have hjlen : n.toNat + j < st.threads.length := by
      simp only [List.length_drop, hswl] at hj
      omega
    rw [List.get?_drop]
    have hpos0 : n.toNat + j ≠ 0 := by omega
    by_cases hpc : n.toNat + j = c
    · rw [hpc, hswc]
      simp only [Option.some_bind, hlk2]
      congr 1
      omega
    · rw [hswo _ hpos0 hpc]
      cases hslot : st.threads.get? (n.toNat + j) with
      | none =>
        rw [List.get?_eq_none] at hslot
        omega
      | some tid =>
        have htid1 : tid ≠ callerId := by
          intro he
          rw [he] at hslot
          exact hpc (huniqc _ hslot)
        have htid2 : tid ≠ t0 := by
          intro he
          rw [he] at hslot
          exact hpos0 (huniq0 _ hslot)
        simp only [Option.some_bind]
        rw [hlk3 tid htid1 htid2]
        have h := hmap _ hjlen
        rw [hslot] at h
        simp only [Option.some_bind] at h
        rw [h]
        congr 1
        push_cast
        omega

/-- Claim C6 counterexample: a shrink to `n = 0` requested by worker 1 of a
two-worker pool.  The swap happens (the caller moves to slot 0), but
`Sync(0)` then joins every slot — including slot 0, which now holds the
caller: the call joins the calling thread against itself.  The joined list
is `[11, 10]` and the caller `11` is in it. -/
theorem C6_counterexample :
    setNumberOfThreads 11 [] 0 ⟨[10, 11], [(10, 0), (11, 1)], 2, false, []⟩ =
      some (⟨[], [(10, 1), (11, 0)], 0, false, []⟩, [], [11, 10]) ∧
    11 ∈ [11, 10] := by
  constructor
  · rfl
  · decide

/-- Claim C6 witness: the spec's own scenario — four workers, worker 3
requests a shrink to one thread.  The caller survives as worker 0, the
collection shrinks to size 1, the joined threads are exactly the post-swap
slots 1–3 with indexes 1, 2, 3, and the caller is not among them. -/
theorem C6_witness :
    ∃ st' joined,
      setNumberOfThreads 23 [] 1
        ⟨[20, 21, 22, 23], [(20, 0), (21, 1), (22, 2), (23, 3)], 4,
          false, []⟩ = some (st', [], joined) ∧
      st'.threads.get? 0 = some 23 ∧
      st'.threads.length = 1 ∧
      st'.numberOfThreads = 1 ∧
      st'.invokerQueue = [] ∧
      st'.threadIdToIndex.lookup 23 = some 0 ∧
      st'.threadIdToIndex.lookup 20 = some 3 ∧
      23 ∉ joined ∧
      joined.length = 3 ∧
      (∀ j, j < joined.length →
        (joined.get? j).bind (fun tid => st'.threadIdToIndex.lookup tid) =
          some (1 + (j : Int))) :=
  C6_shrink_swap 23 20 [] 1 3
    ⟨[20, 21, 22, 23], [(20, 0), (21, 1), (22, 2), (23, 3)], 4, false, []⟩
    rfl (by decide) (by decide) (by decide) (by decide) (by decide) (by decide)

/-! ## Transition-system infrastructure -/

theorem get?_set_self' {α : Type} {l : List α} {i : Nat} {x : α} (y : α)
    (h : l.get? i = some x) : (l.set i y).get? i = some y := by
  have h1 := (List.get?_eq_some.mp h).1
  simp [List.get?_eq_getElem?, List.getElem?_set_self, h1]

theorem get?_set_ne' {α : Type} {l : List α} {i j : Nat} (y : α)
    (h : i ≠ j) : (l.set i y).get? j = l.get? j := by
  simp [List.get?_eq_getElem?, List.getElem?_set_ne h]

theorem updAt_decomp {α : Type} {l : List α} {w : Nat} {ac : α}
    (h : l.get? w = some ac) (f : α → α) :
    l = l.take w ++ ac :: l.drop (w + 1) ∧
    updAt l w f = l.take w ++ f ac :: l.drop (w + 1) := by
  have h1 := (List.get?_eq_some.mp h).1
  refine ⟨get?_decomp h, ?_⟩
  rw [updAt, h]
  exact List.set_eq_take_cons_drop (f ac) h1

theorem updAt_get?_self_total {α : Type} (l : List α) (i : Nat) (f : α → α) :
    (updAt l i f).get? i = (l.get? i).map f := by
  unfold updAt
  cases h : l.get? i with
  | none => rw [h]; rfl
  | some x => rw [get?_set_self' (f x) h]; rfl

theorem bind_decomp {α β : Type} {l : List α} {w : Nat} {ac : α}
    (g : α → List β) (h : l.get? w = some ac) (f : α → α) :
    l.flatMap g = (l.take w).flatMap g ++ (g ac ++ (l.drop (w + 1)).flatMap g) ∧
    (updAt l w f).flatMap g =
      (l.take w).flatMap g ++ (g (f ac) ++ (l.drop (w + 1)).flatMap g) := by
  obtain ⟨h1, h2⟩ := updAt_decomp h f
  constructor
  · conv_lhs => rw [h1]
    rw [List.flatMap_append, List.flatMap_cons]
  · rw [h2, List.flatMap_append, List.flatMap_cons]

theorem foldl_cons_rev {α : Type} (col q : List α) :
    col.foldl (fun acc c => c :: acc) q = col.reverse ++ q := by
  induction col generalizing q with
  | nil => rfl
  | cons c rest ih =>
    rw [List.foldl_cons, ih, List.reverse_cons, List.append_assoc]
    rfl

theorem registerPriors_get? (n : TaskId) (nd : List TaskId) (T : List Task)
    (q : TaskId) :
    (registerPriors T n nd).get? q = (T.get? q).map fun tk =>
      { tk with dependents := tk.dependents ++ List.replicate (nd.count q) n } := by
  induction nd generalizing T with
  | nil =>
    simp only [registerPriors, List.foldl_nil, List.count_nil,
      List.replicate_zero, List.append_nil]
    cases T.get? q <;> rfl
  | cons p nd' ih =>
    rw [registerPriors, List.foldl_cons]
    rw [show (nd'.foldl (fun acc p2 =>
        updAt acc p2 fun tk => { tk with dependents := tk.dependents ++ [n] })
        (updAt T p fun tk => { tk with dependents := tk.dependents ++ [n] })) =
      registerPriors (updAt T p fun tk =>
        { tk with dependents := tk.dependents ++ [n] }) n nd' from rfl]
    rw [ih]
    by_cases hpq : p = q
    · subst hpq
      rw [List.count_cons_self, updAt_get?_self_total]
      cases hT : T.get? p with
      | none => rfl
      | some tk =>
        simp only [Option.map_some', Option.some.injEq]
        rw [List.replicate_succ, List.append_assoc]
        rfl
    · rw [updAt_get?_ne _ hpq]
      rw [List.count_cons_of_ne (fun h => hpq h.symm)]

theorem foldEnqueue_get? (col : List TaskId) (T : List Task) (q : TaskId) :
    (col.foldl (fun acc c =>
        updAt acc c fun tk => { tk with status := Status.enqueued }) T).get? q =
      if q ∈ col then
        (T.get? q).map fun tk => { tk with status := Status.enqueued }
      else T.get? q := by
  induction col generalizing T with
  | nil => simp
  | cons c col' ih =>
    rw [List.foldl_cons, ih]
    by_cases hqc : q = c
    · subst hqc
      rw [updAt_get?_self_total, if_pos (List.mem_cons_self q col')]
      by_cases hmem : q ∈ col'
      · rw [if_pos hmem]
        cases T.get? q <;> rfl
      · rw [if_neg hmem]
    · rw [updAt_get?_ne _ (fun h => hqc h.symm)]
      by_cases hmem : q ∈ col'
      · rw [if_pos hmem, if_pos (List.mem_cons_of_mem c hmem)]
      · rw [if_neg hmem, if_neg (by simp [List.mem_cons, hqc, hmem])]

theorem taskStatus_lt {s : Sys} {t : TaskId} {st : Status}
    (h : taskStatus s t = some st) : t < s.tasks.length := by
  rw [taskStatus] at h
  cases hg : s.tasks.get? t with
  | none => rw [hg] at h; exact absurd h (by simp)
  | some tk => exact (List.get?_eq_some.mp hg).1

/-- The initial state satisfies the invariant. -/
theorem inv_init : Inv init := by
  refine ⟨?_, ?_, ?_, ?_, ?_, ?_, ?_, ?_, ?_, ?_, ?_, ?_, ?_, ?_⟩ <;>
    simp [init, allFrames, runningTasks, collectedTasks, occCount, actorFrames,
      runningOf, taskStatus, taskPending, taskDependents]

theorem taskStatus_def (s : Sys) (u : TaskId) :
    taskStatus s u = (s.tasks.get? u).map Task.status := rfl

theorem taskPending_def (s : Sys) (u : TaskId) :
    taskPending s u = ((s.tasks.get? u).map Task.pending).getD [] := rfl

theorem taskDependents_def (s : Sys) (u : TaskId) :
    taskDependents s u = ((s.tasks.get? u).map Task.dependents).getD [] := rfl

theorem allFrames_def (s : Sys) :
    allFrames s = s.actors.flatMap actorFrames := rfl

theorem runningTasks_def (s : Sys) :
    runningTasks s = s.actors.flatMap runningOf := rfl

theorem collectedTasks_def (s : Sys) :
    collectedTasks s = (allFrames s).flatMap Frame.collected := rfl

theorem occCount_def (s : Sys) (t : TaskId) :
    occCount s t = s.queue.count t + s.onHold.count t +
      (runningTasks s).count t + (collectedTasks s).count t := rfl

theorem inv_transfer {s s' : Sys} (hinv : Inv s)
    (ht : s'.tasks = s.tasks) (hq : s'.queue = s.queue)
    (hh : s'.onHold = s.onHold)
    (eA : allFrames s' = allFrames s)
    (eR : runningTasks s' = runningTasks s) : Inv s' := by
  have e1 : ∀ u, taskStatus s' u = taskStatus s u := by
    intro u
    rw [taskStatus, taskStatus, ht]
  have e2 : ∀ u, taskPending s' u = taskPending s u := by
    intro u
    rw [taskPending, taskPending, ht]
  have e3 : ∀ u, taskDependents s' u = taskDependents s u := by
    intro u
    rw [taskDependents, taskDependents, ht]
  have eC : collectedTasks s' = collectedTasks s := by
    rw [collectedTasks, collectedTasks, eA]
  have eO : ∀ u, occCount s' u = occCount s u := by
    intro u
    rw [occCount, occCount, hq, hh, eR, eC]
  refine ⟨?_, ?_, ?_, ?_, ?_, ?_, ?_, ?_, ?_, ?_, ?_, ?_, ?_, ?_⟩
  · intro t htm
    rw [e1]
    exact hinv.queueStatus t (hq ▸ htm)
  · intro t htm
    rw [e2]
    exact hinv.queuePending t (hq ▸ htm)
  · intro t htm
    rw [e1]
    exact hinv.holdStatus t (hh ▸ htm)
  · intro t htm
    rw [e1]
    exact hinv.runStatus t (eR ▸ htm)
  · intro c hcm
    rw [e1]
    exact hinv.collectedStatus c (eC ▸ hcm)
  · intro c hcm
    rw [e2]
    exact hinv.collectedPending c (eC ▸ hcm)
  · intro f hf
    rw [e1]
    exact hinv.ownerDone f (eA ▸ hf)
  · rw [eA]
    exact hinv.ownersNodup
  · intro f hf t
    rw [e2]
    exact hinv.remainingPending f (eA ▸ hf) t
  · intro p hp t
    rw [e3, e2]
    exact hinv.dependentsPending p (by rw [e1] at hp; exact hp) t
  · intro tk htk
    exact hinv.counterPending tk (ht ▸ htk)
  · intro tk htk p hp
    rcases hinv.priorsDone tk (ht ▸ htk) p hp with h | h
    · exact Or.inl h
    · exact Or.inr (by rw [e1]; exact h)
  · intro tk htk
    exact hinv.statusPending tk (ht ▸ htk)
  · intro t
    rw [eO]
    exact hinv.occUnique t

theorem inv_transfer2 {s s' : Sys} (hinv : Inv s)
    (e1 : ∀ u, taskStatus s' u = taskStatus s u)
    (e2 : ∀ u, taskPending s' u = taskPending s u)
    (e3 : ∀ u, taskDependents s' u = taskDependents s u)
    (e4 : ∀ tk', tk' ∈ s'.tasks → ∃ tk, tk ∈ s.tasks ∧
        tk'.counter = tk.counter ∧ tk'.pending = tk.pending ∧
        tk'.priors = tk.priors ∧ tk'.status = tk.status)
    (hq : s'.queue = s.queue) (hh : s'.onHold = s.onHold)
    (eA : allFrames s' = allFrames s)
    (eR : runningTasks s' = runningTasks s) : Inv s' := by
  have eC : collectedTasks s' = collectedTasks s := by
    rw [collectedTasks_def, collectedTasks_def, eA]
  have eO : ∀ u, occCount s' u = occCount s u := by
    intro u
    rw [occCount_def, occCount_def, hq, hh, eR, eC]
  refine ⟨?_, ?_, ?_, ?_, ?_, ?_, ?_, ?_, ?_, ?_, ?_, ?_, ?_, ?_⟩
  · intro t htm
    rw [e1]
    exact hinv.queueStatus t (hq ▸ htm)
  · intro t htm
    rw [e2]
    exact hinv.queuePending t (hq ▸ htm)
  · intro t htm
    rw [e1]
    exact hinv.holdStatus t (hh ▸ htm)
  · intro t htm
    rw [e1]
    exact hinv.runStatus t (eR ▸ htm)
  · intro c hcm
    rw [e1]
    exact hinv.collectedStatus c (eC ▸ hcm)
  · intro c hcm
    rw [e2]
    exact hinv.collectedPending c (eC ▸ hcm)
  · intro f hf
    rw [e1]
    exact hinv.ownerDone f (eA ▸ hf)
  · rw [eA]
    exact hinv.ownersNodup
  · intro f hf t
    rw [e2]
    exact hinv.remainingPending f (eA ▸ hf) t
  · intro p hp t
    rw [e3, e2]
    exact hinv.dependentsPending p (by rw [e1] at hp; exact hp) t
  · intro tk' htk'
    obtain ⟨tk, htk, hc, hp, _, _⟩ := e4 tk' htk'
    rw [hc, hp]
    exact hinv.counterPending tk htk
  · intro tk' htk' p hp
    obtain ⟨tk, htk, _, hpd, hpr, _⟩ := e4 tk' htk'
    rw [hpr] at hp
    rcases hinv.priorsDone tk htk p hp with h | h
    · exact Or.inl (by rw [hpd]; exact h)
    · exact Or.inr (by rw [e1]; exact h)
  · intro tk' htk' hst
    obtain ⟨tk, htk, _, hpd, _, hstq⟩ := e4 tk' htk'
    rw [hstq] at hst
    rw [hpd]
    exact hinv.statusPending tk htk hst
  · intro t
    rw [eO]
    exact hinv.occUnique t

theorem inv_step_markHigh {s s' : Sys} {t : TaskId} (hinv : Inv s)
    (hstep : step s (Act.markHighPriority t) = some s') : Inv s' := by
  rw [step] at hstep
  split at hstep
  case h_2 => exact absurd hstep (by simp)
  rename_i tk hget
  split at hstep
  case isFalse => exact absurd hstep (by simp)
  rename_i htk
  have hs := (Option.some.inj hstep).symm
  subst hs
  have eg : ∀ u, (s.tasks.set t { tk with highPriority := true }).get? u =
      if u = t then some { tk with highPriority := true }
      else s.tasks.get? u := by
    intro u
    by_cases hu : u = t
    · subst hu
      rw [if_pos rfl, get?_set_self' _ hget]
    · rw [if_neg hu, get?_set_ne' _ (fun h => hu h.symm)]
  refine inv_transfer2 hinv ?_ ?_ ?_ ?_ rfl rfl rfl rfl
  · intro u
    rw [taskStatus_def, taskStatus_def]
    show ((s.tasks.set t _).get? u).map _ = _
    rw [eg u]
    by_cases hu : u = t
    · subst hu
      rw [if_pos rfl, hget]
      rfl
    · rw [if_neg hu]
  · intro u
    rw [taskPending_def, taskPending_def]
    show (((s.tasks.set t _).get? u).map _).getD [] = _
    rw [eg u]
    by_cases hu : u = t
    · subst hu
      rw [if_pos rfl, hget]
      rfl
    · rw [if_neg hu]
  · intro u
    rw [taskDependents_def, taskDependents_def]
    show (((s.tasks.set t _).get? u).map _).getD [] = _
    rw [eg u]
    by_cases hu : u = t
    · subst hu
      rw [if_pos rfl, hget]
      rfl
    · rw [if_neg hu]
  · intro tk' htk'
    rcases List.mem_or_eq_of_mem_set htk' with h | h
    · exact ⟨tk', h, rfl, rfl, rfl, rfl⟩
    · subst h
      exact ⟨tk, List.get?_mem hget, rfl, rfl, rfl, rfl⟩

theorem get?_concat {α : Type} {l : List α} (x : α) (u : Nat) :
    (l ++ [x]).get? u = if u = l.length then some x else l.get? u := by
  by_cases hu : u = l.length
  · subst hu
    rw [if_pos rfl]
    exact List.get?_concat_length l x
  · rw [if_neg hu]
    by_cases hlt : u < l.length
    · exact List.get?_append hlt
    · have h1 : l.get? u = none := List.get?_eq_none.mpr (by omega)
      have h2 : (l ++ [x]).get? u = none := List.get?_eq_none.mpr (by
        simp only [List.length_append, List.length_cons, List.length_nil]
        omega)
      rw [h1, h2]

theorem fresh_not_mem {s : Sys} (hinv : Inv s) :
    s.tasks.length ∉ s.queue ∧ s.tasks.length ∉ s.onHold ∧
    s.tasks.length ∉ runningTasks s ∧ s.tasks.length ∉ collectedTasks s := by
  refine ⟨?_, ?_, ?_, ?_⟩ <;> intro hmem
  · exact absurd (taskStatus_lt (hinv.queueStatus _ hmem)) (lt_irrefl _)
  · exact absurd (taskStatus_lt (hinv.holdStatus _ hmem)) (lt_irrefl _)
  · exact absurd (taskStatus_lt (hinv.runStatus _ hmem)) (lt_irrefl _)
  · exact absurd (taskStatus_lt (hinv.collectedStatus _ hmem)) (lt_irrefl _)

theorem inv_step_push {s s' : Sys} (hinv : Inv s)
    (hstep : step s Act.push = some s') : Inv s' := by
  rw [step] at hstep
  have hs := (Option.some.inj hstep).symm
  subst hs
  obtain ⟨hfq, hfh, hfr, hfc⟩ := fresh_not_mem hinv
  have hgq : ∀ u, (s.tasks ++
      [(⟨Status.enqueued, 0, [], false, [], []⟩ : Task)]).get? u =
      if u = s.tasks.length then
        some (⟨Status.enqueued, 0, [], false, [], []⟩ : Task)
      else s.tasks.get? u := fun u => get?_concat _ u
  have hnone : s.tasks.get? s.tasks.length = none :=
    List.get?_eq_none.mpr (le_refl _)
  have eS : ∀ u, u ≠ s.tasks.length →
      ((s.tasks ++ [(⟨Status.enqueued, 0, [], false, [], []⟩ : Task)]).get?
        u).map Task.status = taskStatus s u := by
    intro u hu
    rw [hgq u, if_neg hu, taskStatus_def]
  have eP : ∀ u,
      (((s.tasks ++ [(⟨Status.enqueued, 0, [], false, [], []⟩ : Task)]).get?
        u).map Task.pending).getD [] = taskPending s u := by
    intro u
    rw [hgq u, taskPending_def]
    by_cases hu : u = s.tasks.length
    · rw [if_pos hu, hu, hnone]
      rfl
    · rw [if_neg hu]
  have eD : ∀ u,
      (((s.tasks ++ [(⟨Status.enqueued, 0, [], false, [], []⟩ : Task)]).get?
        u).map Task.dependents).getD [] = taskDependents s u := by
    intro u
    rw [hgq u, taskDependents_def]
    by_cases hu : u = s.tasks.length
    · rw [if_pos hu, hu, hnone]
      rfl
    · rw [if_neg hu]
  refine ⟨?_, ?_, ?_, ?_, ?_, ?_, ?_, ?_, ?_, ?_, ?_, ?_, ?_, ?_⟩
  · intro t htm
    rcases List.mem_append.mp htm with h | h
    · have hst := hinv.queueStatus t h
      have hlt := taskStatus_lt hst
      rw [taskStatus_def]
      show ((s.tasks ++ _).get? t).map _ = _
      rw [eS t (Nat.ne_of_lt hlt)]
      exact hst
    · have ht : t = s.tasks.length := by simpa using h
      subst ht
      rw [taskStatus_def]
      show ((s.tasks ++ _).get? _).map _ = _
      rw [hgq, if_pos rfl]
      rfl
  · intro t htm
    rcases List.mem_append.mp htm with h | h
    · rw [taskPending_def]
      show (((s.tasks ++ _).get? t).map _).getD [] = _
      rw [eP t]
      exact hinv.queuePending t h
    · have ht : t = s.tasks.length := by simpa using h
      subst ht
      rw [taskPending_def]
      show (((s.tasks ++ _).get? _).map _).getD [] = _
      rw [hgq, if_pos rfl]
      rfl
  · intro t htm
    have hst := hinv.holdStatus t htm
    have hlt := taskStatus_lt hst
    rw [taskStatus_def]
    show ((s.tasks ++ _).get? t).map _ = _
    rw [eS t (Nat.ne_of_lt hlt)]
    exact hst
  · intro t htm
    have hst := hinv.runStatus t htm
    have hlt := taskStatus_lt hst
    rw [taskStatus_def]
    show ((s.tasks ++ _).get? t).map _ = _
    rw [eS t (Nat.ne_of_lt hlt)]
    exact hst
  · intro c hcm
    have hst := hinv.collectedStatus c hcm
    have hlt := taskStatus_lt hst
    rw [taskStatus_def]
    show ((s.tasks ++ _).get? c).map _ = _
    rw [eS c (Nat.ne_of_lt hlt)]
    exact hst
  · intro c hcm
    rw [taskPending_def]
    show (((s.tasks ++ _).get? c).map _).getD [] = _
    rw [eP c]
    exact hinv.collectedPending c hcm
  · intro f hf
    have hst := hinv.ownerDone f hf
    have hlt := taskStatus_lt hst
    rw [taskStatus_def]
    show ((s.tasks ++ _).get? f.owner).map _ = _
    rw [eS f.owner (Nat.ne_of_lt hlt)]
    exact hst
  · exact hinv.ownersNodup
  · intro f hf t
    rw [taskPending_def]
    show _ ≤ ((((s.tasks ++ _).get? t).map _).getD []).count f.owner
    rw [eP t]
    exact hinv.remainingPending f hf t
  · intro p hp t
    rw [taskDependents_def, taskPending_def]
    show (((((s.tasks ++ _).get? p).map _).getD []).count t) ≤
      ((((s.tasks ++ _).get? t).map _).getD []).count p
    rw [eD p, eP t]
    by_cases hplen : p = s.tasks.length
    · subst hplen
      rw [taskDependents_def, hnone]
      simp
    · refine hinv.dependentsPending p ?_ t
      rw [taskStatus_def] at hp ⊢
      intro hc
      apply hp
      show ((s.tasks ++ _).get? p).map _ = _
      rw [eS p hplen]
      exact hc
  · intro tk htk
    rcases List.mem_append.mp htk with h | h
    · exact hinv.counterPending tk h
    · have : tk = ⟨Status.enqueued, 0, [], false, [], []⟩ := by simpa using h
      subst this
      rfl
  · intro tk htk p hp
    rcases List.mem_append.mp htk with h | h
    · rcases hinv.priorsDone tk h p hp with h2 | h2
      · exact Or.inl h2
      · refine Or.inr ?_
        have hlt := taskStatus_lt h2
        rw [taskStatus_def]
        show ((s.tasks ++ _).get? p).map _ = _
        rw [eS p (Nat.ne_of_lt hlt)]
        exact h2
    · have : tk = ⟨Status.enqueued, 0, [], false, [], []⟩ := by simpa using h
      subst this
      simp at hp
  · intro tk htk hst
    rcases List.mem_append.mp htk with h | h
    · exact hinv.statusPending tk h hst
    · have : tk = ⟨Status.enqueued, 0, [], false, [], []⟩ := by simpa using h
      subst this
      rfl
  · intro t
    have hocc := hinv.occUnique t
    rw [occCount_def] at hocc ⊢
    show (s.queue ++ [s.tasks.length]).count t + _ + _ + _ ≤ 1
    rw [List.count_append]
    by_cases ht : t = s.tasks.length
    · have h1 : s.queue.count t = 0 :=
        List.count_eq_zero.mpr (by rw [ht]; exact hfq)
      have h2 : s.onHold.count t = 0 :=
        List.count_eq_zero.mpr (by rw [ht]; exact hfh)
      have h3 : (runningTasks s).count t = 0 :=
        List.count_eq_zero.mpr (by rw [ht]; exact hfr)
      have h4 : (collectedTasks s).count t = 0 :=
        List.count_eq_zero.mpr (by rw [ht]; exact hfc)
      show _ + _ + (s.actors.flatMap runningOf).count t +
        ((s.actors.flatMap actorFrames).flatMap Frame.collected).count t ≤ 1
      rw [runningTasks_def] at h3
      rw [collectedTasks_def, allFrames_def] at h4
      rw [h1, h2, h3, h4]
      simp [ht]
    · have h5 : ([s.tasks.length] : List TaskId).count t = 0 :=
        List.count_eq_zero.mpr (by simp [ht])
      rw [h5]
      simpa using hocc

theorem count_replicate_ne {a b : TaskId} (k : Nat) (h : a ≠ b) :
    (List.replicate k b).count a = 0 :=
  List.count_eq_zero.mpr (fun hmem => h (List.eq_of_mem_replicate hmem))

theorem count_replicate_self (a : TaskId) (k : Nat) :
    (List.replicate k a).count a = k := by
  induction k with
  | zero => rfl
  | succ m ih => rw [List.replicate_succ, List.count_cons_self, ih]

theorem inv_step_pushDependent {s s' : Sys} {priors : List TaskId}
    (hinv : Inv s)
    (hstep : step s (Act.pushDependent priors) = some s') : Inv s' := by
  rw [step] at hstep
  split at hstep
  case isFalse => exact absurd hstep (by simp)
  rename_i hall
  have hall2 : ∀ p ∈ priors, p < s.tasks.length := by
    intro p hp
    have := List.all_eq_true.mp hall p hp
    exact of_decide_eq_true this
  obtain ⟨hfq, hfh, hfr, hfc⟩ := fresh_not_mem hinv
  by_cases hempty :
      (priors.filter fun p => taskStatus s p ≠ some Status.done).isEmpty
  · rw [if_pos hempty] at hstep
    have hs := (Option.some.inj hstep).symm
    subst hs
    have hdone : ∀ p ∈ priors, taskStatus s p = some Status.done := by
      intro p hp
      by_contra hne
      have hmem : p ∈ priors.filter
          fun p => taskStatus s p ≠ some Status.done :=
        List.mem_filter.mpr ⟨hp, decide_eq_true hne⟩
      rw [List.isEmpty_iff] at hempty
      rw [hempty] at hmem
      exact absurd hmem (by simp)
    have hgq : ∀ u, (s.tasks ++
        [(⟨Status.enqueued, 0, [], false, priors, []⟩ : Task)]).get? u =
        if u = s.tasks.length then
          some (⟨Status.enqueued, 0, [], false, priors, []⟩ : Task)
        else s.tasks.get? u := fun u => get?_concat _ u
    have hnone : s.tasks.get? s.tasks.length = none :=
      List.get?_eq_none.mpr (le_refl _)
    have eS : ∀ u, u ≠ s.tasks.length →
        ((s.tasks ++ [(⟨Status.enqueued, 0, [], false, priors, []⟩ :
          Task)]).get? u).map Task.status = taskStatus s u := by
      intro u hu
      rw [hgq u, if_neg hu, taskStatus_def]
    have eP : ∀ u,
        (((s.tasks ++ [(⟨Status.enqueued, 0, [], false, priors, []⟩ :
          Task)]).get? u).map Task.pending).getD [] = taskPending s u := by
      intro u
      rw [hgq u, taskPending_def]
      by_cases hu : u = s.tasks.length
      · rw [if_pos hu, hu, hnone]
        rfl
      · rw [if_neg hu]
    have eD : ∀ u,
        (((s.tasks ++ [(⟨Status.enqueued, 0, [], false, priors, []⟩ :
          Task)]).get? u).map Task.dependents).getD [] =
          taskDependents s u := by
      intro u
      rw [hgq u, taskDependents_def]
      by_cases hu : u = s.tasks.length
      · rw [if_pos hu, hu, hnone]
        rfl
      · rw [if_neg hu]
    refine ⟨?_, ?_, ?_, ?_, ?_, ?_, ?_, ?_, ?_, ?_, ?_, ?_, ?_, ?_⟩
    · intro t htm
      rcases List.mem_append.mp htm with h | h
      · have hst := hinv.queueStatus t h
        have hlt := taskStatus_lt hst
        rw [taskStatus_def]
        show ((s.tasks ++ _).get? t).map _ = _
        rw [eS t (Nat.ne_of_lt hlt)]
        exact hst
      · have ht : t = s.tasks.length := by simpa using h
        subst ht
        rw [taskStatus_def]
        show ((s.tasks ++ _).get? _).map _ = _
        rw [hgq, if_pos rfl]
        rfl
    · intro t htm
      rcases List.mem_append.mp htm with h | h
      · rw [taskPending_def]
        show (((s.tasks ++ _).get? t).map _).getD [] = _
        rw [eP t]
        exact hinv.queuePending t h
      · have ht : t = s.tasks.length := by simpa using h
        subst ht
        rw [taskPending_def]
        show (((s.tasks ++ _).get? _).map _).getD [] = _
        rw [hgq, if_pos rfl]
        rfl
    · intro t htm
      have hst := hinv.holdStatus t htm
      have hlt := taskStatus_lt hst
      rw [taskStatus_def]
      show ((s.tasks ++ _).get? t).map _ = _
      rw [eS t (Nat.ne_of_lt hlt)]
      exact hst
    · intro t htm
      have hst := hinv.runStatus t htm
      have hlt := taskStatus_lt hst
      rw [taskStatus_def]
      show ((s.tasks ++ _).get? t).map _ = _
      rw [eS t (Nat.ne_of_lt hlt)]
      exact hst
    · intro c hcm
      have hst := hinv.collectedStatus c hcm
      have hlt := taskStatus_lt hst
      rw [taskStatus_def]
      show ((s.tasks ++ _).get? c).map _ = _
      rw [eS c (Nat.ne_of_lt hlt)]
      exact hst
    · intro c hcm
      rw [taskPending_def]
      show (((s.tasks ++ _).get? c).map _).getD [] = _
      rw [eP c]
      exact hinv.collectedPending c hcm
    · intro f hf
      have hst := hinv.ownerDone f hf
      have hlt := taskStatus_lt hst
      rw [taskStatus_def]
      show ((s.tasks ++ _).get? f.owner).map _ = _
      rw [eS f.owner (Nat.ne_of_lt hlt)]
      exact hst
    · exact hinv.ownersNodup
    · intro f hf t
      rw [taskPending_def]
      show _ ≤ ((((s.tasks ++ _).get? t).map _).getD []).count f.owner
      rw [eP t]
      exact hinv.remainingPending f hf t
    · intro p hp t
      rw [taskDependents_def, taskPending_def]
      show (((((s.tasks ++ _).get? p).map _).getD []).count t) ≤
        ((((s.tasks ++ _).get? t).map _).getD []).count p
      rw [eD p, eP t]
      by_cases hplen : p = s.tasks.length
      · subst hplen
        rw [taskDependents_def, hnone]
        simp
      · refine hinv.dependentsPending p ?_ t
        rw [taskStatus_def] at hp ⊢
        intro hc
        apply hp
        show ((s.tasks ++ _).get? p).map _ = _
        rw [eS p hplen]
        exact hc
    · intro tk htk
      rcases List.mem_append.mp htk with h | h
      · exact hinv.counterPending tk h
      · have : tk = ⟨Status.enqueued, 0, [], false, priors, []⟩ := by
          simpa using h
        subst this
        rfl
    · intro tk htk p hp
      rcases List.mem_append.mp htk with h | h
      · rcases hinv.priorsDone tk h p hp with h2 | h2
        · exact Or.inl h2
        · refine Or.inr ?_
          have hlt := taskStatus_lt h2
          rw [taskStatus_def]
          show ((s.tasks ++ _).get? p).map _ = _
          rw [eS p (Nat.ne_of_lt hlt)]
          exact h2
      · have : tk = ⟨Status.enqueued, 0, [], false, priors, []⟩ := by
          simpa using h
        subst this
        refine Or.inr ?_
        have hp2 : p ∈ priors := hp
        have hst := hdone p hp2
        have hlt := taskStatus_lt hst
        rw [taskStatus_def]
        show ((s.tasks ++ _).get? p).map _ = _
        rw [eS p (Nat.ne_of_lt hlt)]
        exact hst
    · intro tk htk hst
      rcases List.mem_append.mp htk with h | h
      · exact hinv.statusPending tk h hst
      · have : tk = ⟨Status.enqueued, 0, [], false, priors, []⟩ := by
          simpa using h
        subst this
        rfl
    · intro t
      have hocc := hinv.occUnique t
      rw [occCount_def] at hocc ⊢
      show (s.queue ++ [s.tasks.length]).count t + _ + _ + _ ≤ 1
      rw [List.count_append]
      by_cases ht : t = s.tasks.length
      · have h1 : s.queue.count t = 0 :=
          List.count_eq_zero.mpr (by rw [ht]; exact hfq)
        have h2 : s.onHold.count t = 0 :=
          List.count_eq_zero.mpr (by rw [ht]; exact hfh)
        have h3 : (runningTasks s).count t = 0 :=
          List.count_eq_zero.mpr (by rw [ht]; exact hfr)
        have h4 : (collectedTasks s).count t = 0 :=
          List.count_eq_zero.mpr (by rw [ht]; exact hfc)
        show _ + _ + (s.actors.flatMap runningOf).count t +
          ((s.actors.flatMap actorFrames).flatMap Frame.collected).count t ≤ 1
        rw [runningTasks_def] at h3
        rw [collectedTasks_def, allFrames_def] at h4
        rw [h1, h2, h3, h4]
        simp [ht]
      · have h5 : ([s.tasks.length] : List TaskId).count t = 0 :=
          List.count_eq_zero.mpr (by simp [ht])
        rw [h5]
        simpa using hocc
  · rw [if_neg hempty] at hstep
    have hs := (Option.some.inj hstep).symm
    subst hs
    have hndsub : ∀ p ∈ (priors.filter
        fun p => taskStatus s p ≠ some Status.done), p < s.tasks.length :=
      fun p hp => hall2 p (List.mem_of_mem_filter hp)
    have hndst : ∀ p ∈ (priors.filter
        fun p => taskStatus s p ≠ some Status.done),
        taskStatus s p ≠ some Status.done :=
      fun p hp => of_decide_eq_true (List.mem_filter.mp hp).2
    have hndn : ((priors.filter
        fun p => taskStatus s p ≠ some Status.done).count
          s.tasks.length) = 0 := by
      refine List.count_eq_zero.mpr ?_
      intro hmem
      exact absurd (hndsub _ hmem) (lt_irrefl _)
    have hgq : ∀ u, (s.tasks ++ [(⟨Status.onHold,
        (((priors.filter fun p => taskStatus s p ≠ some Status.done)).length :
          Int), [], false, priors,
        priors.filter fun p => taskStatus s p ≠ some Status.done⟩ :
          Task)]).get? u =
        if u = s.tasks.length then
          some (⟨Status.onHold,
            (((priors.filter fun p =>
              taskStatus s p ≠ some Status.done)).length : Int), [], false,
            priors,
            priors.filter fun p => taskStatus s p ≠ some Status.done⟩ : Task)
        else s.tasks.get? u := fun u => get?_concat _ u
    have hnone : s.tasks.get? s.tasks.length = none :=
      List.get?_eq_none.mpr (le_refl _)
    have hg2 : ∀ u, (registerPriors (s.tasks ++ [(⟨Status.onHold,
        (((priors.filter fun p => taskStatus s p ≠ some Status.done)).length :
          Int), [], false, priors,
        priors.filter fun p => taskStatus s p ≠ some Status.done⟩ : Task)])
          s.tasks.length
          (priors.filter fun p => taskStatus s p ≠ some Status.done)).get? u =
        if u = s.tasks.length then
          some (⟨Status.onHold,
            (((priors.filter fun p =>
              taskStatus s p ≠ some Status.done)).length : Int), [], false,
            priors,
            priors.filter fun p => taskStatus s p ≠ some Status.done⟩ : Task)
        else (s.tasks.get? u).map (fun tk => { tk with
          dependents := tk.dependents ++ List.replicate
            ((priors.filter fun p =>
              taskStatus s p ≠ some Status.done).count u)
            s.tasks.length }) := by
      intro u
      rw [registerPriors_get?, hgq u]
      by_cases hu : u = s.tasks.length
      · rw [if_pos hu, if_pos hu, hu, hndn]
        rfl
      · rw [if_neg hu, if_neg hu]
    refine ⟨?_, ?_, ?_, ?_, ?_, ?_, ?_, ?_, ?_, ?_, ?_, ?_, ?_, ?_⟩
    · intro t htm
      have hst := hinv.queueStatus t htm
      have hlt := taskStatus_lt hst
      rw [taskStatus_def]
      show ((registerPriors _ _ _).get? t).map _ = _
      rw [hg2 t, if_neg (Nat.ne_of_lt hlt)]
      rw [taskStatus_def] at hst
      cases hx : s.tasks.get? t with
      | none => rw [hx] at hst; exact absurd hst (by simp)
      | some tk =>
        rw [hx] at hst
        simpa using hst
    · intro t htm
      have hpd := hinv.queuePending t htm
      have hlt := taskStatus_lt (hinv.queueStatus t htm)
      rw [taskPending_def]
      show (((registerPriors _ _ _).get? t).map _).getD [] = _
      rw [hg2 t, if_neg (Nat.ne_of_lt hlt)]
      rw [taskPending_def] at hpd
      cases hx : s.tasks.get? t with
      | none => rw [hx] at hpd; exact hpd
      | some tk =>
        rw [hx] at hpd
        simpa using hpd
    · intro t htm
      rcases List.mem_append.mp htm with h | h
      · have hst := hinv.holdStatus t h
        have hlt := taskStatus_lt hst
        rw [taskStatus_def]
        show ((registerPriors _ _ _).get? t).map _ = _
        rw [hg2 t, if_neg (Nat.ne_of_lt hlt)]
        rw [taskStatus_def] at hst
        cases hx : s.tasks.get? t with
        | none => rw [hx] at hst; exact absurd hst (by simp)
        | some tk =>
          rw [hx] at hst
          simpa using hst
      · have ht : t = s.tasks.length := by simpa using h
        subst ht
        rw [taskStatus_def]
        show ((registerPriors _ _ _).get? _).map _ = _
        rw [hg2, if_pos rfl]
        rfl
    · intro t htm
      have hst := hinv.runStatus t htm
      have hlt := taskStatus_lt hst
      rw [taskStatus_def]
      show ((registerPriors _ _ _).get? t).map _ = _
      rw [hg2 t, if_neg (Nat.ne_of_lt hlt)]
      rw [taskStatus_def] at hst
      cases hx : s.tasks.get? t with
      | none => rw [hx] at hst; exact absurd hst (by simp)
      | some tk =>
        rw [hx] at hst
        simpa using hst
    · intro c hcm
      have hst := hinv.collectedStatus c hcm
      have hlt := taskStatus_lt hst
      rw [taskStatus_def]
      show ((registerPriors _ _ _).get? c).map _ = _
      rw [hg2 c, if_neg (Nat.ne_of_lt hlt)]
      rw [taskStatus_def] at hst
      cases hx : s.tasks.get? c with
      | none => rw [hx] at hst; exact absurd hst (by simp)
      | some tk =>
        rw [hx] at hst
        simpa using hst
    · intro c hcm
      have hpd := hinv.collectedPending c hcm
      have hlt := taskStatus_lt (hinv.collectedStatus c hcm)
      rw [taskPending_def]
      show (((registerPriors _ _ _).get? c).map _).getD [] = _
      rw [hg2 c, if_neg (Nat.ne_of_lt hlt)]
      rw [taskPending_def] at hpd
      cases hx : s.tasks.get? c with
      | none => rw [hx] at hpd; exact hpd
      | some tk =>
        rw [hx] at hpd
        simpa using hpd
    · intro f hf
      have hst := hinv.ownerDone f hf
      have hlt := taskStatus_lt hst
      rw [taskStatus_def]
      show ((registerPriors _ _ _).get? f.owner).map _ = _
      rw [hg2 f.owner, if_neg (Nat.ne_of_lt hlt)]
      rw [taskStatus_def] at hst
      cases hx : s.tasks.get? f.owner with
      | none => rw [hx] at hst; exact absurd hst (by simp)
      | some tk =>
        rw [hx] at hst
        simpa using hst
    · exact hinv.ownersNodup
    · intro f hf t
      have hrp := hinv.remainingPending f hf t
      rw [taskPending_def]
      show _ ≤ ((((registerPriors _ _ _).get? t).map _).getD []).count f.owner
      rw [hg2 t]
      by_cases ht : t = s.tasks.length
      · rw [if_pos ht]
        have h0 : (taskPending s t).count f.owner = 0 := by
          rw [taskPending_def, ht, hnone]
          rfl
        rw [h0] at hrp
        exact le_trans hrp (Nat.zero_le _)
      · rw [if_neg ht]
        rw [taskPending_def] at hrp
        cases hx : s.tasks.get? t with
        | none =>
          rw [hx] at hrp
          exact hrp
        | some tk =>
          rw [hx] at hrp
          exact hrp
    · intro p hp t
      rw [taskDependents_def, taskPending_def]
      show ((((registerPriors _ _ _).get? p).map _).getD []).count t ≤
        ((((registerPriors _ _ _).get? t).map _).getD []).count p
      rw [hg2 p, hg2 t]
      by_cases hple : p = s.tasks.length
      · rw [if_pos hple]
        simp
      · rw [if_neg hple]
        have hsp : taskStatus s p ≠ some Status.done := by
          intro hc
          apply hp
          rw [taskStatus_def]
          show ((registerPriors _ _ _).get? p).map _ = _
          rw [hg2 p, if_neg hple]
          rw [taskStatus_def] at hc
          cases hx : s.tasks.get? p with
          | none => rw [hx] at hc; exact absurd hc (by simp)
          | some tk =>
            rw [hx] at hc
            simpa using hc
        have hdp := hinv.dependentsPending p hsp t
        rw [taskDependents_def, taskPending_def] at hdp
        by_cases ht : t = s.tasks.length
        · rw [if_pos ht]
          have h0 : ((s.tasks.get? t).map Task.pending).getD [] = [] := by
            rw [ht, hnone]
            rfl
          rw [h0] at hdp
          simp only [List.count_nil, Nat.le_zero] at hdp
          cases hx : s.tasks.get? p with
          | none => simp
          | some tk =>
            rw [hx] at hdp
            simp only [Option.map_some', Option.getD_some] at hdp
            simp only [Option.map_some', Option.getD_some]
            rw [ht] at hdp
            rw [ht, List.count_append, hdp, count_replicate_self]
            simp
        · rw [if_neg ht]
          cases hx : s.tasks.get? p with
          | none => simp
          | some tk =>
            rw [hx] at hdp
            simp only [Option.map_some', Option.getD_some] at hdp
            simp only [Option.map_some', Option.getD_some]
            rw [List.count_append, count_replicate_ne _ ht]
            simpa using hdp
    · intro tk' htk'
      obtain ⟨i, hi⟩ := List.mem_iff_get?.mp htk'
      rw [hg2 i] at hi
      by_cases hile : i = s.tasks.length
      · rw [if_pos hile] at hi
        have := Option.some.inj hi
        subst this
        simp
      · rw [if_neg hile] at hi
        cases hx : s.tasks.get? i with
        | none => rw [hx] at hi; exact absurd hi (by simp)
        | some tk =>
          rw [hx] at hi
          have := Option.some.inj hi
          subst this
          exact hinv.counterPending tk (List.get?_mem hx)
    · intro tk' htk' p hp
      obtain ⟨i, hi⟩ := List.mem_iff_get?.mp htk'
      rw [hg2 i] at hi
      by_cases hile : i = s.tasks.length
      · rw [if_pos hile] at hi
        have := Option.some.inj hi
        subst this
        simp only at hp
        by_cases hpdone : taskStatus s p = some Status.done
        · refine Or.inr ?_
          have hlt := taskStatus_lt hpdone
          rw [taskStatus_def]
          show ((registerPriors _ _ _).get? p).map _ = _
          rw [hg2 p, if_neg (Nat.ne_of_lt hlt)]
          rw [taskStatus_def] at hpdone
          cases hx : s.tasks.get? p with
          | none => rw [hx] at hpdone; exact absurd hpdone (by simp)
          | some tk =>
            rw [hx] at hpdone
            simpa using hpdone
        · refine Or.inl ?_
          show p ∈ priors.filter fun p => taskStatus s p ≠ some Status.done
          exact List.mem_filter.mpr ⟨hp, decide_eq_true hpdone⟩
      · rw [if_neg hile] at hi
        cases hx : s.tasks.get? i with
        | none => rw [hx] at hi; exact absurd hi (by simp)
        | some tk =>
          rw [hx] at hi
          have := Option.some.inj hi
          subst this
          simp only at hp
          rcases hinv.priorsDone tk (List.get?_mem hx) p hp with h2 | h2
          · exact Or.inl h2
          · refine Or.inr ?_
            have hlt := taskStatus_lt h2
            rw [taskStatus_def]
            show ((registerPriors _ _ _).get? p).map _ = _
            rw [hg2 p, if_neg (Nat.ne_of_lt hlt)]
            rw [taskStatus_def] at h2
            cases hx2 : s.tasks.get? p with
            | none => rw [hx2] at h2; exact absurd h2 (by simp)
            | some tk2 =>
              rw [hx2] at h2
              simpa using h2
    · intro tk' htk' hst
      obtain ⟨i, hi⟩ := List.mem_iff_get?.mp htk'
      rw [hg2 i] at hi
      by_cases hile : i = s.tasks.length
      · rw [if_pos hile] at hi
        have := Option.some.inj hi
        subst this
        exact absurd rfl hst
      · rw [if_neg hile] at hi
        cases hx : s.tasks.get? i with
        | none => rw [hx] at hi; exact absurd hi (by simp)
        | some tk =>
          rw [hx] at hi
          have := Option.some.inj hi
          subst this
          exact hinv.statusPending tk (List.get?_mem hx) hst
    · intro t
      have hocc := hinv.occUnique t
      rw [occCount_def] at hocc ⊢
      show _ + (s.onHold ++ [s.tasks.length]).count t + _ + _ ≤ 1
      rw [List.count_append]
      by_cases ht : t = s.tasks.length
      · have h1 : s.queue.count t = 0 :=
          List.count_eq_zero.mpr (by rw [ht]; exact hfq)
        have h2 : s.onHold.count t = 0 :=
          List.count_eq_zero.mpr (by rw [ht]; exact hfh)
        have h3 : (runningTasks s).count t = 0 :=
          List.count_eq_zero.mpr (by rw [ht]; exact hfr)
        have h4 : (collectedTasks s).count t = 0 :=
          List.count_eq_zero.mpr (by rw [ht]; exact hfc)
        show s.queue.count t + _ + (s.actors.flatMap runningOf).count t +
          ((s.actors.flatMap actorFrames).flatMap Frame.collected).count t ≤ 1
        rw [runningTasks_def] at h3
        rw [collectedTasks_def, allFrames_def] at h4
        rw [h1, h2, h3, h4]
        simp [ht]
      · have h5 : ([s.tasks.length] : List TaskId).count t = 0 :=
          List.count_eq_zero.mpr (by simp [ht])
        rw [h5]
        simpa using hocc

theorem inv_step_claim {s s' : Sys} {w : Nat} (hinv : Inv s)
    (hstep : step s (Act.claim w) = some s') : Inv s' := by
  rw [step] at hstep
  split at hstep
  case h_2 => exact absurd hstep (by simp)
  rename_i ac hac
  split at hstep
  case isFalse => exact absurd hstep (by simp)
  rename_i hg
  split at hstep
  case h_2 => exact absurd hstep (by simp)
  rename_i t rest hq
  have hs := (Option.some.inj hstep).symm
  subst hs
  have htq : t ∈ s.queue := by rw [hq]; exact List.mem_cons_self t rest
  have hstt := hinv.queueStatus t htq
  have hpdt := hinv.queuePending t htq
  obtain ⟨tk, hgt, htkst⟩ : ∃ tk, s.tasks.get? t = some tk ∧
      tk.status = Status.enqueued := by
    rw [taskStatus_def] at hstt
    cases hx : s.tasks.get? t with
    | none => rw [hx] at hstt; exact absurd hstt (by simp)
    | some tk =>
      rw [hx] at hstt
      exact ⟨tk, rfl, by simpa using hstt⟩
  have htkpd : tk.pending = [] := by
    rw [taskPending_def, hgt] at hpdt
    simpa using hpdt
  have hocc := hinv.occUnique t
  rw [occCount_def, hq, List.count_cons_self] at hocc
  have hrest0 : rest.count t = 0 := by omega
  have hhold0 : s.onHold.count t = 0 := by omega
  have hrun0 : (runningTasks s).count t = 0 := by omega
  have hcol0 : (collectedTasks s).count t = 0 := by omega
  obtain ⟨hFa, hFu⟩ := bind_decomp actorFrames hac
    (fun a2 => { a2 with phase := Phase.running t [] })
  obtain ⟨hRa, hRu⟩ := bind_decomp runningOf hac
    (fun a2 => { a2 with phase := Phase.running t [] })
  have hacF : actorFrames ac = [] := by rw [actorFrames, hg.2.1]
  have hacR : runningOf ac = [] := by rw [runningOf, hg.2.1]
  have eA : (updAt s.actors w
      (fun a2 => { a2 with phase := Phase.running t [] })).flatMap
        actorFrames = allFrames s := by
    rw [allFrames_def, hFa, hFu, hacF]
    rfl
  have eR : (updAt s.actors w
      (fun a2 => { a2 with phase := Phase.running t [] })).flatMap
        runningOf = (List.take w s.actors).flatMap runningOf ++
        ([t] ++ (List.drop (w + 1) s.actors).flatMap runningOf) := by
    rw [hRu]
    rfl
  have hRsplit : runningTasks s = (List.take w s.actors).flatMap runningOf ++
      ([] ++ (List.drop (w + 1) s.actors).flatMap runningOf) := by
    rw [runningTasks_def, hRa, hacR]
  have eS : ∀ u, ((updAt s.tasks t
      (fun tk2 => { tk2 with status := Status.running })).get? u).map
        Task.status =
      if u = t then some Status.running else taskStatus s u := by
    intro u
    by_cases hu : u = t
    · subst hu
      rw [if_pos rfl, updAt_get?_self_total, hgt]
      rfl
    · rw [if_neg hu, updAt_get?_ne _ (fun h => hu h.symm), taskStatus_def]
  have eP : ∀ u, (((updAt s.tasks t
      (fun tk2 => { tk2 with status := Status.running })).get? u).map
        Task.pending).getD [] = taskPending s u := by
    intro u
    by_cases hu : u = t
    · subst hu
      rw [updAt_get?_self_total, hgt, taskPending_def, hgt]
      rfl
    · rw [updAt_get?_ne _ (fun h => hu h.symm), taskPending_def]
  have eD : ∀ u, (((updAt s.tasks t
      (fun tk2 => { tk2 with status := Status.running })).get? u).map
        Task.dependents).getD [] = taskDependents s u := by
    intro u
    by_cases hu : u = t
    · subst hu
      rw [updAt_get?_self_total, hgt, taskDependents_def, hgt]
      rfl
    · rw [updAt_get?_ne _ (fun h => hu h.symm), taskDependents_def]
  have hmemupd : ∀ tk', tk' ∈ updAt s.tasks t
      (fun tk2 => { tk2 with status := Status.running }) →
      tk' ∈ s.tasks ∨ tk' = { tk with status := Status.running } := by
    intro tk' htk'
    rw [updAt, hgt] at htk'
    exact List.mem_or_eq_of_mem_set htk'
  refine ⟨?_, ?_, ?_, ?_, ?_, ?_, ?_, ?_, ?_, ?_, ?_, ?_, ?_, ?_⟩
  · intro u hum
    have humr : u ∈ rest := hum
    have hut : u ≠ t := by
      intro h
      subst h
      rw [← List.count_pos_iff] at humr
      omega
    rw [taskStatus_def]
    show ((updAt s.tasks t _).get? u).map _ = _
    rw [eS u, if_neg hut]
    exact hinv.queueStatus u (by rw [hq]; exact List.mem_cons_of_mem t humr)
  · intro u hum
    rw [taskPending_def]
    show (((updAt s.tasks t _).get? u).map _).getD [] = _
    rw [eP u]
    exact hinv.queuePending u (by rw [hq]; exact List.mem_cons_of_mem t hum)
  · intro u hum
    have humh : u ∈ s.onHold := hum
    have hut : u ≠ t := by
      intro h
      subst h
      rw [← List.count_pos_iff] at humh
      omega
    rw [taskStatus_def]
    show ((updAt s.tasks t _).get? u).map _ = _
    rw [eS u, if_neg hut]
    exact hinv.holdStatus u humh
  · intro u hum
    rw [runningTasks_def] at hum
    rw [eR] at hum
    rw [taskStatus_def]
    show ((updAt s.tasks t _).get? u).map _ = _
    rw [eS u]
    rcases List.mem_append.mp hum with h | h
    · have humem : u ∈ runningTasks s := by
        rw [hRsplit]
        exact List.mem_append.mpr (Or.inl h)
      have hut : u ≠ t := by
        intro he
        subst he
        rw [← List.count_pos_iff] at humem
        omega
      rw [if_neg hut]
      exact hinv.runStatus u humem
    · rcases List.mem_append.mp h with h2 | h2
      · have : u = t := by simpa using h2
        subst this
        rw [if_pos rfl]
      · have humem : u ∈ runningTasks s := by
          rw [hRsplit]
          exact List.mem_append.mpr (Or.inr (List.mem_append.mpr (Or.inr h2)))
        have hut : u ≠ t := by
          intro he
          subst he
          rw [← List.count_pos_iff] at humem
          omega
        rw [if_neg hut]
        exact hinv.runStatus u humem
  · intro c hcm
    rw [collectedTasks_def, allFrames_def, eA] at hcm
    have hcmem : c ∈ collectedTasks s := hcm
    have hct : c ≠ t := by
      intro he
      subst he
      rw [← List.count_pos_iff] at hcmem
      omega
    rw [taskStatus_def]
    show ((updAt s.tasks t _).get? c).map _ = _
    rw [eS c, if_neg hct]
    exact hinv.collectedStatus c hcmem
  · intro c hcm
    rw [collectedTasks_def, allFrames_def, eA] at hcm
    rw [taskPending_def]
    show (((updAt s.tasks t _).get? c).map _).getD [] = _
    rw [eP c]
    exact hinv.collectedPending c hcm
  · intro f hf
    rw [allFrames_def, eA] at hf
    have hod := hinv.ownerDone f hf
    have hot : f.owner ≠ t := by
      intro he
      rw [he, hstt] at hod
      exact absurd (Option.some.inj hod) (by simp)
    rw [taskStatus_def]
    show ((updAt s.tasks t _).get? f.owner).map _ = _
    rw [eS f.owner, if_neg hot]
    exact hod
  · show ((updAt s.actors w _).flatMap actorFrames).map Frame.owner |>.Nodup
    rw [eA]
    exact hinv.ownersNodup
  · intro f hf u
    rw [allFrames_def, eA] at hf
    rw [taskPending_def]
    show _ ≤ ((((updAt s.tasks t _).get? u).map _).getD []).count f.owner
    rw [eP u]
    exact hinv.remainingPending f hf u
  · intro p hp u
    rw [taskDependents_def, taskPending_def]
    show ((((updAt s.tasks t _).get? p).map _).getD []).count u ≤
      ((((updAt s.tasks t _).get? u).map _).getD []).count p
    rw [eD p, eP u]
    refine hinv.dependentsPending p ?_ u
    intro hc
    apply hp
    rw [taskStatus_def]
    show ((updAt s.tasks t _).get? p).map _ = _
    rw [eS p]
    by_cases hpt : p = t
    · subst hpt
      rw [hstt] at hc
      exact absurd (Option.some.inj hc) (by simp)
    · rw [if_neg hpt]
      exact hc
  · intro tk' htk'
    rcases hmemupd tk' htk' with h | h
    · exact hinv.counterPending tk' h
    · subst h
      exact hinv.counterPending tk (List.get?_mem hgt)
  · intro tk' htk' p hp
    have hst2 : ∀ q2, taskStatus s q2 = some Status.done →
        ((updAt s.tasks t (fun tk2 =>
          { tk2 with status := Status.running })).get? q2).map Task.status =
          some Status.done := by
      intro q2 hq2
      have hqt : q2 ≠ t := by
        intro he
        rw [he, hstt] at hq2
        exact absurd (Option.some.inj hq2) (by simp)
      rw [eS q2, if_neg hqt]
      exact hq2
    rcases hmemupd tk' htk' with h | h
    · rcases hinv.priorsDone tk' h p hp with h2 | h2
      · exact Or.inl h2
      · exact Or.inr (by
          rw [taskStatus_def]
          show ((updAt s.tasks t _).get? p).map _ = _
          exact hst2 p h2)
    · subst h
      rcases hinv.priorsDone tk (List.get?_mem hgt) p hp with h2 | h2
      · exact Or.inl h2
      · exact Or.inr (by
          rw [taskStatus_def]
          show ((updAt s.tasks t _).get? p).map _ = _
          exact hst2 p h2)
  · intro tk' htk' hst3
    rcases hmemupd tk' htk' with h | h
    · exact hinv.statusPending tk' h hst3
    · subst h
      exact htkpd
  · intro u
    rw [occCount_def]
    show rest.count u + s.onHold.count u +
      ((updAt s.actors w _).flatMap runningOf).count u +
      (((updAt s.actors w _).flatMap actorFrames).flatMap
        Frame.collected).count u ≤ 1
    have hCT : (((updAt s.actors w (fun a2 =>
        { a2 with phase := Phase.running t [] })).flatMap
          actorFrames).flatMap Frame.collected).count u =
        (collectedTasks s).count u := by
      rw [eA]
      rfl
    rw [hCT, eR]
    rw [List.count_append, List.count_append]
    by_cases hu : u = t
    · subst hu
      have hRtake : ((List.take w s.actors).flatMap runningOf).count u = 0 := by
        have : (runningTasks s).count u = 0 := hrun0
        rw [hRsplit, List.count_append, List.count_append] at this
        omega
      have hRdrop : ((List.drop (w + 1) s.actors).flatMap
          runningOf).count u = 0 := by
        have : (runningTasks s).count u = 0 := hrun0
        rw [hRsplit, List.count_append, List.count_append] at this
        omega
      rw [hrest0, hhold0, hcol0, hRtake, hRdrop]
      simp
    · have h1 : rest.count u = (s.queue).count u := by
        rw [hq, List.count_cons_of_ne hu]
      have h2 : ([t] : List TaskId).count u = 0 :=
        List.count_eq_zero.mpr (by simp [hu])
      rw [h1, h2]
      have hocc2 := hinv.occUnique u
      rw [occCount_def] at hocc2
      rw [hRsplit, List.count_append, List.count_append] at hocc2
      omega

theorem inv_step_tryClaim {s s' : Sys} {w : Nat} {t : TaskId} (hinv : Inv s)
    (hstep : step s (Act.tryClaim w t) = some s') : Inv s' := by
  rw [step] at hstep
  split at hstep
  case h_2 => exact absurd hstep (by simp)
  rename_i ac hac
  split at hstep
  case isFalse => exact absurd hstep (by simp)
  rename_i hg
  have hs := (Option.some.inj hstep).symm
  subst hs
  have htq : t ∈ s.queue := hg.2.2
  have hstt := hg.2.1
  have hpdt := hinv.queuePending t htq
  obtain ⟨tk, hgt, htkst⟩ : ∃ tk, s.tasks.get? t = some tk ∧
      tk.status = Status.enqueued := by
    rw [taskStatus_def] at hstt
    cases hx : s.tasks.get? t with
    | none => rw [hx] at hstt; exact absurd hstt (by simp)
    | some tk =>
      rw [hx] at hstt
      exact ⟨tk, rfl, by simpa using hstt⟩
  have htkpd : tk.pending = [] := by
    rw [taskPending_def, hgt] at hpdt
    simpa using hpdt
  have hocc := hinv.occUnique t
  rw [occCount_def] at hocc
  have hqpos : 0 < s.queue.count t := List.count_pos_iff.mpr htq
  have hq1 : s.queue.count t = 1 := by omega
  have hhold0 : s.onHold.count t = 0 := by omega
  have hrun0 : (runningTasks s).count t = 0 := by omega
  have hcol0 : (collectedTasks s).count t = 0 := by omega
  have herase0 : (s.queue.erase t).count t = 0 := by
    rw [List.count_erase_self, hq1]
  obtain ⟨hFa, hFu⟩ := bind_decomp actorFrames hac
    (fun a2 => { a2 with phase := Phase.running t [] })
  obtain ⟨hRa, hRu⟩ := bind_decomp runningOf hac
    (fun a2 => { a2 with phase := Phase.running t [] })
  have hacF : actorFrames ac = [] := by rw [actorFrames, hg.1]
  have hacR : runningOf ac = [] := by rw [runningOf, hg.1]
  have eA : (updAt s.actors w
      (fun a2 => { a2 with phase := Phase.running t [] })).flatMap
        actorFrames = allFrames s := by
    rw [allFrames_def, hFa, hFu, hacF]
    rfl
  have eR : (updAt s.actors w
      (fun a2 => { a2 with phase := Phase.running t [] })).flatMap
        runningOf = (List.take w s.actors).flatMap runningOf ++
        ([t] ++ (List.drop (w + 1) s.actors).flatMap runningOf) := by
    rw [hRu]
    rfl
  have hRsplit : runningTasks s = (List.take w s.actors).flatMap runningOf ++
      ([] ++ (List.drop (w + 1) s.actors).flatMap runningOf) := by
    rw [runningTasks_def, hRa, hacR]
  have eS : ∀ u, ((updAt s.tasks t
      (fun tk2 => { tk2 with status := Status.running })).get? u).map
        Task.status =
      if u = t then some Status.running else taskStatus s u := by
    intro u
    by_cases hu : u = t
    · subst hu
      rw [if_pos rfl, updAt_get?_self_total, hgt]
      rfl
    · rw [if_neg hu, updAt_get?_ne _ (fun h => hu h.symm), taskStatus_def]
  have eP : ∀ u, (((updAt s.tasks t
      (fun tk2 => { tk2 with status := Status.running })).get? u).map
        Task.pending).getD [] = taskPending s u := by
    intro u
    by_cases hu : u = t
    · subst hu
      rw [updAt_get?_self_total, hgt, taskPending_def, hgt]
      rfl
    · rw [updAt_get?_ne _ (fun h => hu h.symm), taskPending_def]
  have eD : ∀ u, (((updAt s.tasks t
      (fun tk2 => { tk2 with status := Status.running })).get? u).map
        Task.dependents).getD [] = taskDependents s u := by
    intro u
    by_cases hu : u = t
    · subst hu
      rw [updAt_get?_self_total, hgt, taskDependents_def, hgt]
      rfl
    · rw [updAt_get?_ne _ (fun h => hu h.symm), taskDependents_def]
  have hmemupd : ∀ tk', tk' ∈ updAt s.tasks t
      (fun tk2 => { tk2 with status := Status.running }) →
      tk' ∈ s.tasks ∨ tk' = { tk with status := Status.running } := by
    intro tk' htk'
    rw [updAt, hgt] at htk'
    exact List.mem_or_eq_of_mem_set htk'
  refine ⟨?_, ?_, ?_, ?_, ?_, ?_, ?_, ?_, ?_, ?_, ?_, ?_, ?_, ?_⟩
  · intro u hum
    have humr : u ∈ s.queue.erase t := hum
    have hut : u ≠ t := by
      intro h
      subst h
      rw [← List.count_pos_iff] at humr
      omega
    rw [taskStatus_def]
    show ((updAt s.tasks t _).get? u).map _ = _
    rw [eS u, if_neg hut]
    exact hinv.queueStatus u (List.mem_of_mem_erase humr)
  · intro u hum
    have humr : u ∈ s.queue.erase t := hum
    rw [taskPending_def]
    show (((updAt s.tasks t _).get? u).map _).getD [] = _
    rw [eP u]
    exact hinv.queuePending u (List.mem_of_mem_erase humr)
  · intro u hum
    have humh : u ∈ s.onHold := hum
    have hut : u ≠ t := by
      intro h
      subst h
      rw [← List.count_pos_iff] at humh
      omega
    rw [taskStatus_def]
    show ((updAt s.tasks t _).get? u).map _ = _
    rw [eS u, if_neg hut]
    exact hinv.holdStatus u humh
  · intro u hum
    rw [runningTasks_def] at hum
    rw [eR] at hum
    rw [taskStatus_def]
    show ((updAt s.tasks t _).get? u).map _ = _
    rw [eS u]
    rcases List.mem_append.mp hum with h | h
    · have humem : u ∈ runningTasks s := by
        rw [hRsplit]
        exact List.mem_append.mpr (Or.inl h)
      have hut : u ≠ t := by
        intro he
        subst he
        rw [← List.count_pos_iff] at humem
        omega
      rw [if_neg hut]
      exact hinv.runStatus u humem
    · rcases List.mem_append.mp h with h2 | h2
      · have : u = t := by simpa using h2
        subst this
        rw [if_pos rfl]
      · have humem : u ∈ runningTasks s := by
          rw [hRsplit]
          exact List.mem_append.mpr (Or.inr (List.mem_append.mpr (Or.inr h2)))
        have hut : u ≠ t := by
          intro he
          subst he
          rw [← List.count_pos_iff] at humem
          omega
        rw [if_neg hut]
        exact hinv.runStatus u humem
  · intro c hcm
    rw [collectedTasks_def, allFrames_def, eA] at hcm
    have hcmem : c ∈ collectedTasks s := hcm
    have hct : c ≠ t := by
      intro he
      subst he
      rw [← List.count_pos_iff] at hcmem
      omega
    rw [taskStatus_def]
    show ((updAt s.tasks t _).get? c).map _ = _
    rw [eS c, if_neg hct]
    exact hinv.collectedStatus c hcmem
  · intro c hcm
    rw [collectedTasks_def, allFrames_def, eA] at hcm
    rw [taskPending_def]
    show (((updAt s.tasks t _).get? c).map _).getD [] = _
    rw [eP c]
    exact hinv.collectedPending c hcm
  · intro f hf
    rw [allFrames_def, eA] at hf
    have hod := hinv.ownerDone f hf
    have hot : f.owner ≠ t := by
      intro he
      rw [he, hstt] at hod
      exact absurd (Option.some.inj hod) (by simp)
    rw [taskStatus_def]
    show ((updAt s.tasks t _).get? f.owner).map _ = _
    rw [eS f.owner, if_neg hot]
    exact hod
  · show ((updAt s.actors w _).flatMap actorFrames).map Frame.owner |>.Nodup
    rw [eA]
    exact hinv.ownersNodup
  · intro f hf u
    rw [allFrames_def, eA] at hf
    rw [taskPending_def]
    show _ ≤ ((((updAt s.tasks t _).get? u).map _).getD []).count f.owner
    rw [eP u]
    exact hinv.remainingPending f hf u
  · intro p hp u
    rw [taskDependents_def, taskPending_def]
    show ((((updAt s.tasks t _).get? p).map _).getD []).count u ≤
      ((((updAt s.tasks t _).get? u).map _).getD []).count p
    rw [eD p, eP u]
    refine hinv.dependentsPending p ?_ u
    intro hc
    apply hp
    rw [taskStatus_def]
    show ((updAt s.tasks t _).get? p).map _ = _
    rw [eS p]
    by_cases hpt : p = t
    · subst hpt
      rw [hstt] at hc
      exact absurd (Option.some.inj hc) (by simp)
    · rw [if_neg hpt]
      exact hc
  · intro tk' htk'
    rcases hmemupd tk' htk' with h | h
    · exact hinv.counterPending tk' h
    · subst h
      exact hinv.counterPending tk (List.get?_mem hgt)
  · intro tk' htk' p hp
    have hst2 : ∀ q2, taskStatus s q2 = some Status.done →
        ((updAt s.tasks t (fun tk2 =>
          { tk2 with status := Status.running })).get? q2).map Task.status =
          some Status.done := by
      intro q2 hq2
      have hqt : q2 ≠ t := by
        intro he
        rw [he, hstt] at hq2
        exact absurd (Option.some.inj hq2) (by simp)
      rw [eS q2, if_neg hqt]
      exact hq2
    rcases hmemupd tk' htk' with h | h
    · rcases hinv.priorsDone tk' h p hp with h2 | h2
      · exact Or.inl h2
      · exact Or.inr (by
          rw [taskStatus_def]
          show ((updAt s.tasks t _).get? p).map _ = _
          exact hst2 p h2)
    · subst h
      rcases hinv.priorsDone tk (List.get?_mem hgt) p hp with h2 | h2
      · exact Or.inl h2
      · exact Or.inr (by
          rw [taskStatus_def]
          show ((updAt s.tasks t _).get? p).map _ = _
          exact hst2 p h2)
  · intro tk' htk' hst3
    rcases hmemupd tk' htk' with h | h
    · exact hinv.statusPending tk' h hst3
    · subst h
      exact htkpd
  · intro u
    rw [occCount_def]
    show (s.queue.erase t).count u + s.onHold.count u +
      ((updAt s.actors w _).flatMap runningOf).count u +
      (((updAt s.actors w _).flatMap actorFrames).flatMap
        Frame.collected).count u ≤ 1
    have hCT : (((updAt s.actors w (fun a2 =>
        { a2 with phase := Phase.running t [] })).flatMap
          actorFrames).flatMap Frame.collected).count u =
        (collectedTasks s).count u := by
      rw [eA]
      rfl
    rw [hCT, eR]
    rw [List.count_append, List.count_append]
    by_cases hu : u = t
    · subst hu
      have hRtake : ((List.take w s.actors).flatMap runningOf).count u = 0 := by
        have : (runningTasks s).count u = 0 := hrun0
        rw [hRsplit, List.count_append, List.count_append] at this
        omega
      have hRdrop : ((List.drop (w + 1) s.actors).flatMap
          runningOf).count u = 0 := by
        have : (runningTasks s).count u = 0 := hrun0
        rw [hRsplit, List.count_append, List.count_append] at this
        omega
      rw [herase0, hhold0, hcol0, hRtake, hRdrop]
      simp
    · have h1 : (s.queue.erase t).count u = s.queue.count u :=
        List.count_erase_of_ne hu _
      have h2 : ([t] : List TaskId).count u = 0 :=
        List.count_eq_zero.mpr (by simp [hu])
      rw [h1, h2]
      have hocc2 := hinv.occUnique u
      rw [occCount_def] at hocc2
      rw [hRsplit, List.count_append, List.count_append] at hocc2
      omega

theorem inv_step_finishPayload {s s' : Sys} {w : Nat} (hinv : Inv s)
    (hstep : step s (Act.finishPayload w) = some s') : Inv s' := by
  rw [step] at hstep
  split at hstep
  case h_2 => exact absurd hstep (by simp)
  rename_i ac hac
  split at hstep
  case h_2 => exact absurd hstep (by simp)
  rename_i t stk hph
  have hs := (Option.some.inj hstep).symm
  subst hs
  obtain ⟨hFa, hFu⟩ := bind_decomp actorFrames hac (fun a2 =>
    { a2 with phase := Phase.signaling (⟨t, taskDependents s t, []⟩ :: stk) })
  obtain ⟨hRa, hRu⟩ := bind_decomp runningOf hac (fun a2 =>
    { a2 with phase := Phase.signaling (⟨t, taskDependents s t, []⟩ :: stk) })
  have hacF : actorFrames ac = stk := by rw [actorFrames, hph]
  have hacR : runningOf ac = [t] := by rw [runningOf, hph]
  have hRsplit : runningTasks s = (List.take w s.actors).flatMap runningOf ++
      ([t] ++ (List.drop (w + 1) s.actors).flatMap runningOf) := by
    rw [runningTasks_def, hRa, hacR]
  have hFsplit : allFrames s = (List.take w s.actors).flatMap actorFrames ++
      (stk ++ (List.drop (w + 1) s.actors).flatMap actorFrames) := by
    rw [allFrames_def, hFa, hacF]
  have htr : t ∈ runningTasks s := by
    rw [hRsplit]
    exact List.mem_append.mpr (Or.inr (List.mem_append.mpr (Or.inl
      (List.mem_singleton.mpr rfl))))
  have hstt := hinv.runStatus t htr
  obtain ⟨tk, hgt, htkst⟩ : ∃ tk, s.tasks.get? t = some tk ∧
      tk.status = Status.running := by
    rw [taskStatus_def] at hstt
    cases hx : s.tasks.get? t with
    | none => rw [hx] at hstt; exact absurd hstt (by simp)
    | some tk =>
      rw [hx] at hstt
      exact ⟨tk, rfl, by simpa using hstt⟩
  have htkpd : tk.pending = [] :=
    hinv.statusPending tk (List.get?_mem hgt) (by rw [htkst]; simp)
  have hocc := hinv.occUnique t
  rw [occCount_def] at hocc
  have hrpos : 0 < (runningTasks s).count t := List.count_pos_iff.mpr htr
  have hqueue0 : s.queue.count t = 0 := by omega
  have hhold0 : s.onHold.count t = 0 := by omega
  have hcol0 : (collectedTasks s).count t = 0 := by omega
  have hrt1 : (runningTasks s).count t = 1 := by omega
  have eR : (updAt s.actors w (fun a2 =>
      { a2 with phase := (Phase.signaling
        (⟨t, taskDependents s t, []⟩ :: stk)) })).flatMap runningOf =
      (List.take w s.actors).flatMap runningOf ++
        ([] ++ (List.drop (w + 1) s.actors).flatMap runningOf) := by
    rw [hRu]
    rfl
  have eF : (updAt s.actors w (fun a2 =>
      { a2 with phase := (Phase.signaling
        (⟨t, taskDependents s t, []⟩ :: stk)) })).flatMap actorFrames =
      (List.take w s.actors).flatMap actorFrames ++
        (((⟨t, taskDependents s t, []⟩ : Frame) :: stk) ++
          (List.drop (w + 1) s.actors).flatMap actorFrames) := by
    rw [hFu]
    rfl
  have eS : ∀ u, ((updAt s.tasks t
      (fun tk2 => { tk2 with status := Status.done })).get? u).map
        Task.status =
      if u = t then some Status.done else taskStatus s u := by
    intro u
    by_cases hu : u = t
    · subst hu
      rw [if_pos rfl, updAt_get?_self_total, hgt]
      rfl
    · rw [if_neg hu, updAt_get?_ne _ (fun h => hu h.symm), taskStatus_def]
  have eP : ∀ u, (((updAt s.tasks t
      (fun tk2 => { tk2 with status := Status.done })).get? u).map
        Task.pending).getD [] = taskPending s u := by
    intro u
    by_cases hu : u = t
    · subst hu
      rw [updAt_get?_self_total, hgt, taskPending_def, hgt]
      rfl
    · rw [updAt_get?_ne _ (fun h => hu h.symm), taskPending_def]
  have eD : ∀ u, (((updAt s.tasks t
      (fun tk2 => { tk2 with status := Status.done })).get? u).map
        Task.dependents).getD [] = taskDependents s u := by
    intro u
    by_cases hu : u = t
    · subst hu
      rw [updAt_get?_self_total, hgt, taskDependents_def, hgt]
      rfl
    · rw [updAt_get?_ne _ (fun h => hu h.symm), taskDependents_def]
  have hmemupd : ∀ tk', tk' ∈ updAt s.tasks t
      (fun tk2 => { tk2 with status := Status.done }) →
      tk' ∈ s.tasks ∨ tk' = { tk with status := Status.done } := by
    intro tk' htk'
    rw [updAt, hgt] at htk'
    exact List.mem_or_eq_of_mem_set htk'
  have hnotowner : ∀ f, f ∈ allFrames s → f.owner ≠ t := by
    intro f hf he
    have := hinv.ownerDone f hf
    rw [he, hstt] at this
    exact absurd (Option.some.inj this) (by simp)
  have hdone2 : ∀ q2, taskStatus s q2 = some Status.done →
      ((updAt s.tasks t (fun tk2 =>
        { tk2 with status := Status.done })).get? q2).map Task.status =
        some Status.done := by
    intro q2 hq2
    by_cases hqt : q2 = t
    · rw [eS q2, if_pos hqt]
    · rw [eS q2, if_neg hqt]
      exact hq2
  have hCT' : ((updAt s.actors w (fun a2 =>
      { a2 with phase := (Phase.signaling
        (⟨t, taskDependents s t, []⟩ :: stk)) })).flatMap
          actorFrames).flatMap Frame.collected =
      ((List.take w s.actors).flatMap actorFrames).flatMap Frame.collected ++
        ((stk.flatMap Frame.collected) ++
          (((List.drop (w + 1) s.actors).flatMap actorFrames).flatMap
            Frame.collected)) := by
    rw [eF]
    rw [List.flatMap_append, List.flatMap_append, List.flatMap_cons]
    rfl
  have hCTsplit : collectedTasks s =
      ((List.take w s.actors).flatMap actorFrames).flatMap Frame.collected ++
        ((stk.flatMap Frame.collected) ++
          (((List.drop (w + 1) s.actors).flatMap actorFrames).flatMap
            Frame.collected)) := by
    rw [collectedTasks_def, allFrames_def, hFa, hacF]
    rw [List.flatMap_append, List.flatMap_append]
  refine ⟨?_, ?_, ?_, ?_, ?_, ?_, ?_, ?_, ?_, ?_, ?_, ?_, ?_, ?_⟩
  · intro u hum
    have humq : u ∈ s.queue := hum
    have hut : u ≠ t := by
      intro h
      subst h
      rw [← List.count_pos_iff] at humq
      omega
    rw [taskStatus_def]
    show ((updAt s.tasks t _).get? u).map _ = _
    rw [eS u, if_neg hut]
    exact hinv.queueStatus u humq
  · intro u hum
    rw [taskPending_def]
    show (((updAt s.tasks t _).get? u).map _).getD [] = _
    rw [eP u]
    exact hinv.queuePending u hum
  · intro u hum
    have humh : u ∈ s.onHold := hum
    have hut : u ≠ t := by
      intro h
      subst h
      rw [← List.count_pos_iff] at humh
      omega
    rw [taskStatus_def]
    show ((updAt s.tasks t _).get? u).map _ = _
    rw [eS u, if_neg hut]
    exact hinv.holdStatus u humh
  · intro u hum
    rw [runningTasks_def] at hum
    rw [eR] at hum
    have humem : u ∈ runningTasks s := by
      rw [hRsplit]
      rcases List.mem_append.mp hum with h | h
      · exact List.mem_append.mpr (Or.inl h)
      · rcases List.mem_append.mp h with h2 | h2
        · exact absurd h2 (by simp)
        · exact List.mem_append.mpr (Or.inr (List.mem_append.mpr (Or.inr h2)))
    have hut : u ≠ t := by
      intro he
      subst he
      have hcnt : (runningTasks s).count u = 1 := hrt1
      rw [hRsplit] at hcnt
      rw [List.count_append, List.count_append] at hcnt
      have hone : ([u] : List TaskId).count u = 1 := by simp
      rw [hone] at hcnt
      rcases List.mem_append.mp hum with h | h
      · rw [← List.count_pos_iff] at h
        omega
      · rcases List.mem_append.mp h with h2 | h2
        · exact absurd h2 (by simp)
        · rw [← List.count_pos_iff] at h2
          omega
    rw [taskStatus_def]
    show ((updAt s.tasks t _).get? u).map _ = _
    rw [eS u, if_neg hut]
    exact hinv.runStatus u humem
  · intro c hcm
    rw [collectedTasks_def, allFrames_def, hCT', ← hCTsplit] at hcm
    have hct : c ≠ t := by
      intro he
      subst he
      rw [← List.count_pos_iff] at hcm
      omega
    rw [taskStatus_def]
    show ((updAt s.tasks t _).get? c).map _ = _
    rw [eS c, if_neg hct]
    exact hinv.collectedStatus c hcm
  · intro c hcm
    rw [collectedTasks_def, allFrames_def, hCT', ← hCTsplit] at hcm
    rw [taskPending_def]
    show (((updAt s.tasks t _).get? c).map _).getD [] = _
    rw [eP c]
    exact hinv.collectedPending c hcm
  · intro f hf
    rw [allFrames_def, eF] at hf
    rw [taskStatus_def]
    show ((updAt s.tasks t _).get? f.owner).map _ = _
    rcases List.mem_append.mp hf with h | h
    · refine hdone2 f.owner (hinv.ownerDone f ?_)
      rw [hFsplit]
      exact List.mem_append.mpr (Or.inl h)
    · rcases List.mem_append.mp h with h2 | h2
      · rcases List.mem_cons.mp h2 with h3 | h3
        · subst h3
          rw [eS, if_pos rfl]
        · refine hdone2 f.owner (hinv.ownerDone f ?_)
          rw [hFsplit]
          exact List.mem_append.mpr (Or.inr (List.mem_append.mpr (Or.inl h3)))
      · refine hdone2 f.owner (hinv.ownerDone f ?_)
        rw [hFsplit]
        exact List.mem_append.mpr (Or.inr (List.mem_append.mpr (Or.inr h2)))
  · show (((updAt s.actors w _).flatMap actorFrames).map Frame.owner).Nodup
    rw [eF]
    have hperm : ((List.take w s.actors).flatMap actorFrames ++
        (((⟨t, taskDependents s t, []⟩ : Frame) :: stk) ++
          (List.drop (w + 1) s.actors).flatMap actorFrames)).map Frame.owner
        = ((List.take w s.actors).flatMap actorFrames).map Frame.owner ++
          (t :: ((stk ++ (List.drop (w + 1) s.actors).flatMap
            actorFrames)).map Frame.owner) := by
      simp [List.map_append, List.append_assoc]
    rw [hperm]
    have hperm2 : (((List.take w s.actors).flatMap actorFrames).map
        Frame.owner ++ (t :: ((stk ++ (List.drop (w + 1)
          s.actors).flatMap actorFrames)).map Frame.owner)).Perm
        (t :: (((List.take w s.actors).flatMap actorFrames).map Frame.owner ++
          ((stk ++ (List.drop (w + 1) s.actors).flatMap
            actorFrames)).map Frame.owner)) := List.perm_middle
    rw [List.Perm.nodup_iff hperm2]
    rw [List.nodup_cons]
    constructor
    · intro hmem
      have : ∃ f, f ∈ allFrames s ∧ f.owner = t := by
        rcases List.mem_append.mp hmem with h | h
        · obtain ⟨f, hf, hfo⟩ := List.mem_map.mp h
          refine ⟨f, ?_, hfo⟩
          rw [hFsplit]
          exact List.mem_append.mpr (Or.inl hf)
        · obtain ⟨f, hf, hfo⟩ := List.mem_map.mp h
          refine ⟨f, ?_, hfo⟩
          rw [hFsplit]
          rcases List.mem_append.mp hf with h2 | h2
          · exact List.mem_append.mpr (Or.inr (List.mem_append.mpr (Or.inl h2)))
          · exact List.mem_append.mpr (Or.inr (List.mem_append.mpr (Or.inr h2)))
      obtain ⟨f, hf, hfo⟩ := this
      exact hnotowner f hf hfo
    · have := hinv.ownersNodup
      rw [hFsplit] at this
      rw [List.map_append, List.map_append] at this
      rw [List.map_append]
      exact this
  · intro f hf u
    rw [allFrames_def, eF] at hf
    rw [taskPending_def]
    show _ ≤ ((((updAt s.tasks t _).get? u).map _).getD []).count f.owner
    rw [eP u]
    rcases List.mem_append.mp hf with h | h
    · refine hinv.remainingPending f ?_ u
      rw [hFsplit]
      exact List.mem_append.mpr (Or.inl h)
    · rcases List.mem_append.mp h with h2 | h2
      · rcases List.mem_cons.mp h2 with h3 | h3
        · subst h3
          exact hinv.dependentsPending t (by rw [hstt]; simp) u
        · refine hinv.remainingPending f ?_ u
          rw [hFsplit]
          exact List.mem_append.mpr (Or.inr (List.mem_append.mpr (Or.inl h3)))
      · refine hinv.remainingPending f ?_ u
        rw [hFsplit]
        exact List.mem_append.mpr (Or.inr (List.mem_append.mpr (Or.inr h2)))
  · intro p hp u
    rw [taskDependents_def, taskPending_def]
    show ((((updAt s.tasks t _).get? p).map _).getD []).count u ≤
      ((((updAt s.tasks t _).get? u).map _).getD []).count p
    rw [eD p, eP u]
    refine hinv.dependentsPending p ?_ u
    intro hc
    apply hp
    rw [taskStatus_def]
    show ((updAt s.tasks t _).get? p).map _ = _
    exact hdone2 p hc
  · intro tk' htk'
    rcases hmemupd tk' htk' with h | h
    · exact hinv.counterPending tk' h
    · subst h
      exact hinv.counterPending tk (List.get?_mem hgt)
  · intro tk' htk' p hp
    rcases hmemupd tk' htk' with h | h
    · rcases hinv.priorsDone tk' h p hp with h2 | h2
      · exact Or.inl h2
      · exact Or.inr (by
          rw [taskStatus_def]
          show ((updAt s.tasks t _).get? p).map _ = _
          exact hdone2 p h2)
    · subst h
      rcases hinv.priorsDone tk (List.get?_mem hgt) p hp with h2 | h2
      · exact Or.inl h2
      · exact Or.inr (by
          rw [taskStatus_def]
          show ((updAt s.tasks t _).get? p).map _ = _
          exact hdone2 p h2)
  · intro tk' htk' hst3
    rcases hmemupd tk' htk' with h | h
    · exact hinv.statusPending tk' h hst3
    · subst h
      exact htkpd
  · intro u
    rw [occCount_def]
    show s.queue.count u + s.onHold.count u +
      ((updAt s.actors w _).flatMap runningOf).count u +
      (((updAt s.actors w _).flatMap actorFrames).flatMap
        Frame.collected).count u ≤ 1
    rw [hCT', ← hCTsplit, eR]
    rw [List.count_append, List.count_append]
    have hocc2 := hinv.occUnique u
    rw [occCount_def] at hocc2
    rw [hRsplit, List.count_append, List.count_append] at hocc2
    simp only [List.count_nil]
    omega

theorem inv_step_signalFinish {s s' : Sys} {w : Nat} (hinv : Inv s)
    (hstep : step s (Act.signalFinish w) = some s') : Inv s' := by
  rw [step] at hstep
  split at hstep
  case h_2 => exact absurd hstep (by simp)
  rename_i ac hac
  split at hstep
  case h_2 => exact absurd hstep (by simp)
  rename_i p0 col stk hph
  have hs := (Option.some.inj hstep).symm
  subst hs
  obtain ⟨hFa, hFu⟩ := bind_decomp actorFrames hac (fun a2 =>
    { a2 with phase := (if stk.isEmpty then Phase.idle
        else Phase.signaling stk) })
  obtain ⟨hRa, hRu⟩ := bind_decomp runningOf hac (fun a2 =>
    { a2 with phase := (if stk.isEmpty then Phase.idle
        else Phase.signaling stk) })
  have hacF : actorFrames ac = (⟨p0, [], col⟩ : Frame) :: stk := by
    rw [actorFrames, hph]
  have hacR : runningOf ac = [] := by rw [runningOf, hph]
  have hacF' : actorFrames { ac with phase := (if stk.isEmpty then Phase.idle
      else Phase.signaling stk) } = stk := by
    cases stk with
    | nil => rfl
    | cons f stk2 => rfl
  have hacR' : runningOf { ac with phase := (if stk.isEmpty then Phase.idle
      else Phase.signaling stk) } = [] := by
    cases stk with
    | nil => rfl
    | cons f stk2 => rfl
  have hFsplit : allFrames s = (List.take w s.actors).flatMap actorFrames ++
      (((⟨p0, [], col⟩ : Frame) :: stk) ++
        (List.drop (w + 1) s.actors).flatMap actorFrames) := by
    rw [allFrames_def, hFa, hacF]
  have hRsplit : runningTasks s = (List.take w s.actors).flatMap runningOf ++
      ([] ++ (List.drop (w + 1) s.actors).flatMap runningOf) := by
    rw [runningTasks_def, hRa, hacR]
  have eF : (updAt s.actors w (fun a2 =>
      { a2 with phase := (if stk.isEmpty then Phase.idle
        else Phase.signaling stk) })).flatMap actorFrames =
      (List.take w s.actors).flatMap actorFrames ++
        (stk ++ (List.drop (w + 1) s.actors).flatMap actorFrames) := by
    rw [hFu, hacF']
  have eR : (updAt s.actors w (fun a2 =>
      { a2 with phase := (if stk.isEmpty then Phase.idle
        else Phase.signaling stk) })).flatMap runningOf =
      (List.take w s.actors).flatMap runningOf ++
        ([] ++ (List.drop (w + 1) s.actors).flatMap runningOf) := by
    rw [hRu, hacR']
  have hCTsplit : collectedTasks s =
      ((List.take w s.actors).flatMap actorFrames).flatMap Frame.collected ++
        ((col ++ stk.flatMap Frame.collected) ++
          ((List.drop (w + 1) s.actors).flatMap actorFrames).flatMap
            Frame.collected) := by
    rw [collectedTasks_def, hFsplit]
    rw [List.flatMap_append, List.flatMap_append, List.flatMap_cons]
  have hCT' : ((updAt s.actors w (fun a2 =>
      { a2 with phase := (if stk.isEmpty then Phase.idle
        else Phase.signaling stk) })).flatMap actorFrames).flatMap
          Frame.collected =
      ((List.take w s.actors).flatMap actorFrames).flatMap Frame.collected ++
        (stk.flatMap Frame.collected ++
          ((List.drop (w + 1) s.actors).flatMap actorFrames).flatMap
            Frame.collected) := by
    rw [eF]
    rw [List.flatMap_append, List.flatMap_append]
  have hcolsub : ∀ c ∈ col, c ∈ collectedTasks s := by
    intro c hc
    rw [hCTsplit]
    exact List.mem_append.mpr (Or.inr (List.mem_append.mpr (Or.inl
      (List.mem_append.mpr (Or.inl hc)))))
  have hgc : ∀ c ∈ col, ∃ tkc, s.tasks.get? c = some tkc ∧
      tkc.status = Status.onHold ∧ tkc.pending = [] := by
    intro c hc
    have h1 := hinv.collectedStatus c (hcolsub c hc)
    have h2 := hinv.collectedPending c (hcolsub c hc)
    rw [taskStatus_def] at h1
    rw [taskPending_def] at h2
    cases hx : s.tasks.get? c with
    | none => rw [hx] at h1; exact absurd h1 (by simp)
    | some tkc =>
      rw [hx] at h1 h2
      exact ⟨tkc, rfl, by simpa using h1, by simpa using h2⟩
  have eSin : ∀ u ∈ col, ((col.foldl (fun acc c =>
      updAt acc c fun tk => { tk with status := Status.enqueued })
        s.tasks).get? u).map Task.status = some Status.enqueued := by
    intro u hu
    rw [foldEnqueue_get?, if_pos hu]
    obtain ⟨tkc, hx, _, _⟩ := hgc u hu
    rw [hx]
    rfl
  have eSout : ∀ u, u ∉ col → ((col.foldl (fun acc c =>
      updAt acc c fun tk => { tk with status := Status.enqueued })
        s.tasks).get? u).map Task.status = taskStatus s u := by
    intro u hu
    rw [foldEnqueue_get?, if_neg hu, taskStatus_def]
  have eP : ∀ u, (((col.foldl (fun acc c =>
      updAt acc c fun tk => { tk with status := Status.enqueued })
        s.tasks).get? u).map Task.pending).getD [] = taskPending s u := by
    intro u
    rw [foldEnqueue_get?]
    by_cases hu : u ∈ col
    · rw [if_pos hu, taskPending_def]
      cases hx : s.tasks.get? u with
      | none => rfl
      | some tk => rfl
    · rw [if_neg hu, taskPending_def]
  have eD : ∀ u, (((col.foldl (fun acc c =>
      updAt acc c fun tk => { tk with status := Status.enqueued })
        s.tasks).get? u).map Task.dependents).getD [] =
        taskDependents s u := by
    intro u
    rw [foldEnqueue_get?]
    by_cases hu : u ∈ col
    · rw [if_pos hu, taskDependents_def]
      cases hx : s.tasks.get? u with
      | none => rfl
      | some tk => rfl
    · rw [if_neg hu, taskDependents_def]
  have hdone2 : ∀ q2, taskStatus s q2 = some Status.done →
      ((col.foldl (fun acc c =>
        updAt acc c fun tk => { tk with status := Status.enqueued })
          s.tasks).get? q2).map Task.status = some Status.done := by
    intro q2 hq2
    have hq2c : q2 ∉ col := by
      intro hc
      obtain ⟨tkc, hx, hst, _⟩ := hgc q2 hc
      rw [taskStatus_def, hx] at hq2
      have := Option.some.inj hq2
      rw [hst] at this
      exact absurd this (by simp)
    rw [eSout q2 hq2c]
    exact hq2
  have hmemupd : ∀ tk', tk' ∈ (col.foldl (fun acc c =>
      updAt acc c fun tk => { tk with status := Status.enqueued })
        s.tasks) → (tk' ∈ s.tasks ∨
      ∃ c ∈ col, ∃ tk, s.tasks.get? c = some tk ∧
        tk' = { tk with status := Status.enqueued }) := by
    intro tk' htk'
    obtain ⟨i, hi⟩ := List.mem_iff_get?.mp htk'
    rw [foldEnqueue_get?] at hi
    by_cases hic : i ∈ col
    · rw [if_pos hic] at hi
      cases hx : s.tasks.get? i with
      | none => rw [hx] at hi; exact absurd hi (by simp)
      | some tk =>
        rw [hx] at hi
        exact Or.inr ⟨i, hic, tk, hx, (Option.some.inj hi).symm⟩
    · rw [if_neg hic] at hi
      exact Or.inl (List.get?_mem hi)
  have hqf : (col.foldl (fun acc c => c :: acc) s.queue) =
      col.reverse ++ s.queue := foldl_cons_rev col s.queue
  refine ⟨?_, ?_, ?_, ?_, ?_, ?_, ?_, ?_, ?_, ?_, ?_, ?_, ?_, ?_⟩
  · intro u hum
    have humq : u ∈ col.foldl (fun acc c => c :: acc) s.queue := hum
    rw [hqf] at humq
    rw [taskStatus_def]
    show ((col.foldl _ s.tasks).get? u).map _ = _
    rcases List.mem_append.mp humq with h | h
    · exact eSin u (List.mem_reverse.mp h)
    · have hunc : u ∉ col := by
        intro hc
        have hocc := hinv.occUnique u
        rw [occCount_def] at hocc
        rw [hCTsplit] at hocc
        rw [List.count_append, List.count_append, List.count_append] at hocc
        have h1 : 0 < s.queue.count u := List.count_pos_iff.mpr h
        have h2 : 0 < col.count u := List.count_pos_iff.mpr hc
        omega
      rw [eSout u hunc]
      exact hinv.queueStatus u h
  · intro u hum
    have humq : u ∈ col.foldl (fun acc c => c :: acc) s.queue := hum
    rw [hqf] at humq
    rw [taskPending_def]
    show (((col.foldl _ s.tasks).get? u).map _).getD [] = _
    rw [eP u]
    rcases List.mem_append.mp humq with h | h
    · exact hinv.collectedPending u (hcolsub u (List.mem_reverse.mp h))
    · exact hinv.queuePending u h
  · intro u hum
    have humh : u ∈ s.onHold := hum
    have hunc : u ∉ col := by
      intro hc
      have hocc := hinv.occUnique u
      rw [occCount_def] at hocc
      rw [hCTsplit] at hocc
      rw [List.count_append, List.count_append, List.count_append] at hocc
      have h1 : 0 < s.onHold.count u := List.count_pos_iff.mpr humh
      have h2 : 0 < col.count u := List.count_pos_iff.mpr hc
      omega
    rw [taskStatus_def]
    show ((col.foldl _ s.tasks).get? u).map _ = _
    rw [eSout u hunc]
    exact hinv.holdStatus u humh
  · intro u hum
    rw [runningTasks_def, eR] at hum
    have humem : u ∈ runningTasks s := by
      rw [hRsplit]
      exact hum
    have hunc : u ∉ col := by
      intro hc
      have hocc := hinv.occUnique u
      rw [occCount_def] at hocc
      rw [hCTsplit] at hocc
      rw [List.count_append, List.count_append, List.count_append] at hocc
      have h1 : 0 < (runningTasks s).count u := List.count_pos_iff.mpr humem
      rw [hRsplit, List.count_append, List.count_append] at h1
      rw [hRsplit, List.count_append, List.count_append] at hocc
      have h2 : 0 < col.count u := List.count_pos_iff.mpr hc
      omega
    rw [taskStatus_def]
    show ((col.foldl _ s.tasks).get? u).map _ = _
    rw [eSout u hunc]
    exact hinv.runStatus u humem
  · intro c hcm
    rw [collectedTasks_def, allFrames_def, hCT'] at hcm
    have hcmem : c ∈ collectedTasks s := by
      rw [hCTsplit]
      rcases List.mem_append.mp hcm with h | h
      · exact List.mem_append.mpr (Or.inl h)
      · rcases List.mem_append.mp h with h2 | h2
        · exact List.mem_append.mpr (Or.inr (List.mem_append.mpr (Or.inl
            (List.mem_append.mpr (Or.inr h2)))))
        · exact List.mem_append.mpr (Or.inr (List.mem_append.mpr (Or.inr h2)))
    have hunc : c ∉ col := by
      intro hc
      have hocc := hinv.occUnique c
      rw [occCount_def] at hocc
      rw [hCTsplit] at hocc
      rw [List.count_append, List.count_append, List.count_append] at hocc
      have h2 : 0 < col.count c := List.count_pos_iff.mpr hc
      rcases List.mem_append.mp hcm with h | h
      · have h3 : 0 < (((List.take w s.actors).flatMap actorFrames).flatMap
            Frame.collected).count c := List.count_pos_iff.mpr h
        omega
      · rcases List.mem_append.mp h with h3 | h3
        · have h4 : 0 < (stk.flatMap Frame.collected).count c :=
            List.count_pos_iff.mpr h3
          omega
        · have h4 : 0 < (((List.drop (w + 1) s.actors).flatMap
              actorFrames).flatMap Frame.collected).count c :=
            List.count_pos_iff.mpr h3
          omega
    rw [taskStatus_def]
    show ((col.foldl _ s.tasks).get? c).map _ = _
    rw [eSout c hunc]
    exact hinv.collectedStatus c hcmem
  · intro c hcm
    rw [collectedTasks_def, allFrames_def, hCT'] at hcm
    have hcmem : c ∈ collectedTasks s := by
      rw [hCTsplit]
      rcases List.mem_append.mp hcm with h | h
      · exact List.mem_append.mpr (Or.inl h)
      · rcases List.mem_append.mp h with h2 | h2
        · exact List.mem_append.mpr (Or.inr (List.mem_append.mpr (Or.inl
            (List.mem_append.mpr (Or.inr h2)))))
        · exact List.mem_append.mpr (Or.inr (List.mem_append.mpr (Or.inr h2)))
    rw [taskPending_def]
    show (((col.foldl _ s.tasks).get? c).map _).getD [] = _
    rw [eP c]
    exact hinv.collectedPending c hcmem
  · intro f hf
    rw [allFrames_def, eF] at hf
    have hfmem : f ∈ allFrames s := by
      rw [hFsplit]
      rcases List.mem_append.mp hf with h | h
      · exact List.mem_append.mpr (Or.inl h)
      · rcases List.mem_append.mp h with h2 | h2
        · exact List.mem_append.mpr (Or.inr (List.mem_append.mpr (Or.inl
            (List.mem_cons_of_mem _ h2))))
        · exact List.mem_append.mpr (Or.inr (List.mem_append.mpr (Or.inr h2)))
    rw [taskStatus_def]
    show ((col.foldl _ s.tasks).get? f.owner).map _ = _
    exact hdone2 f.owner (hinv.ownerDone f hfmem)
  · show (((updAt s.actors w _).flatMap actorFrames).map Frame.owner).Nodup
    rw [eF]
    have hsub : ((List.take w s.actors).flatMap actorFrames ++
        (stk ++ (List.drop (w + 1) s.actors).flatMap actorFrames)).Sublist
        ((List.take w s.actors).flatMap actorFrames ++
          (((⟨p0, [], col⟩ : Frame) :: stk) ++
            (List.drop (w + 1) s.actors).flatMap actorFrames)) := by
      exact List.Sublist.append_left
        ((List.sublist_cons_self _ stk).append_right _) _
    have := hinv.ownersNodup
    rw [hFsplit] at this
    exact List.Nodup.sublist (List.Sublist.map Frame.owner hsub) this
  · intro f hf u
    rw [allFrames_def, eF] at hf
    have hfmem : f ∈ allFrames s := by
      rw [hFsplit]
      rcases List.mem_append.mp hf with h | h
      · exact List.mem_append.mpr (Or.inl h)
      · rcases List.mem_append.mp h with h2 | h2
        · exact List.mem_append.mpr (Or.inr (List.mem_append.mpr (Or.inl
            (List.mem_cons_of_mem _ h2))))
        · exact List.mem_append.mpr (Or.inr (List.mem_append.mpr (Or.inr h2)))
    rw [taskPending_def]
    show _ ≤ ((((col.foldl _ s.tasks).get? u).map _).getD []).count f.owner
    rw [eP u]
    exact hinv.remainingPending f hfmem u
  · intro p hp u
    rw [taskDependents_def, taskPending_def]
    show ((((col.foldl _ s.tasks).get? p).map _).getD []).count u ≤
      ((((col.foldl _ s.tasks).get? u).map _).getD []).count p
    rw [eD p, eP u]
    refine hinv.dependentsPending p ?_ u
    intro hc
    apply hp
    rw [taskStatus_def]
    show ((col.foldl _ s.tasks).get? p).map _ = _
    exact hdone2 p hc
  · intro tk' htk'
    rcases hmemupd tk' htk' with h | h
    · exact hinv.counterPending tk' h
    · obtain ⟨c, hc, tk, hx, he⟩ := h
      subst he
      exact hinv.counterPending tk (List.get?_mem hx)
  · intro tk' htk' p hp
    rcases hmemupd tk' htk' with h | h
    · rcases hinv.priorsDone tk' h p hp with h2 | h2
      · exact Or.inl h2
      · exact Or.inr (by
          rw [taskStatus_def]
          show ((col.foldl _ s.tasks).get? p).map _ = _
          exact hdone2 p h2)
    · obtain ⟨c, hc, tk, hx, he⟩ := h
      subst he
      rcases hinv.priorsDone tk (List.get?_mem hx) p hp with h2 | h2
      · exact Or.inl h2
      · exact Or.inr (by
          rw [taskStatus_def]
          show ((col.foldl _ s.tasks).get? p).map _ = _
          exact hdone2 p h2)
  · intro tk' htk' hst3
    rcases hmemupd tk' htk' with h | h
    · exact hinv.statusPending tk' h hst3
    · obtain ⟨c, hc, tk, hx, he⟩ := h
      subst he
      show tk.pending = []
      have h2 := hinv.collectedPending c (hcolsub c hc)
      rw [taskPending_def, hx] at h2
      simpa using h2
  · intro u
    rw [occCount_def]
    show (col.foldl (fun acc c => c :: acc) s.queue).count u + _ +
      ((updAt s.actors w _).flatMap runningOf).count u +
      (((updAt s.actors w _).flatMap actorFrames).flatMap
        Frame.collected).count u ≤ 1
    rw [hqf, hCT', eR]
    simp only [List.count_append, List.count_reverse]
    have hocc2 := hinv.occUnique u
    rw [occCount_def] at hocc2
    rw [hCTsplit] at hocc2
    rw [hRsplit] at hocc2
    simp only [List.count_append] at hocc2
    simp only [List.count_nil] at hocc2 ⊢
    omega

theorem inv_step_signalStep {s s' : Sys} {w : Nat} (hinv : Inv s)
    (hstep : step s (Act.signalStep w) = some s') : Inv s' := by
  rw [step] at hstep
  split at hstep
  case h_2 => exact absurd hstep (by simp)
  rename_i ac hac
  split at hstep
  case h_2 => exact absurd hstep (by simp)
  rename_i p d rest col stk hph
  split at hstep
  case h_2 => exact absurd hstep (by simp)
  rename_i dt hdt
  -- common facts
  obtain ⟨hFa0, _⟩ := bind_decomp actorFrames hac id
  have hacF : actorFrames ac = (⟨p, d :: rest, col⟩ : Frame) :: stk := by
    rw [actorFrames, hph]
  have hacR : runningOf ac = [] := by rw [runningOf, hph]
  have hFsplit : allFrames s = (List.take w s.actors).flatMap actorFrames ++
      (((⟨p, d :: rest, col⟩ : Frame) :: stk) ++
        (List.drop (w + 1) s.actors).flatMap actorFrames) := by
    rw [allFrames_def, hFa0, hacF]
  have hRa0 := (bind_decomp runningOf hac id).1
  have hRsplit : runningTasks s = (List.take w s.actors).flatMap runningOf ++
      ([] ++ (List.drop (w + 1) s.actors).flatMap runningOf) := by
    rw [runningTasks_def, hRa0, hacR]
  have hF0mem : (⟨p, d :: rest, col⟩ : Frame) ∈ allFrames s := by
    rw [hFsplit]
    exact List.mem_append.mpr (Or.inr (List.mem_append.mpr (Or.inl
      (List.mem_cons_self _ _))))
  have hCTsplit : collectedTasks s =
      ((List.take w s.actors).flatMap actorFrames).flatMap Frame.collected ++
        ((col ++ stk.flatMap Frame.collected) ++
          ((List.drop (w + 1) s.actors).flatMap actorFrames).flatMap
            Frame.collected) := by
    rw [collectedTasks_def, hFsplit]
    rw [List.flatMap_append, List.flatMap_append, List.flatMap_cons]
  have hremp := hinv.remainingPending _ hF0mem
  have hppend : p ∈ dt.pending := by
    have h1 : (d :: rest).count d ≤ (taskPending s d).count p := hremp d
    rw [List.count_cons_self] at h1
    have h2 : 0 < (taskPending s d).count p := by omega
    rw [taskPending_def, hdt] at h2
    simp only [Option.map_some', Option.getD_some] at h2
    exact List.count_pos_iff.mp h2
  have hstOH : dt.status = Status.onHold := by
    by_contra hne
    have := hinv.statusPending dt (List.get?_mem hdt) hne
    rw [this] at hppend
    exact absurd hppend (by simp)
  have hpd : taskStatus s p = some Status.done := hinv.ownerDone _ hF0mem
  have hpnd : p ≠ d := by
    intro he
    rw [he, taskStatus_def, hdt] at hpd
    have := Option.some.inj hpd
    rw [hstOH] at this
    exact absurd this (by simp)
  have hcp : dt.counter = (dt.pending.length : Int) :=
    hinv.counterPending dt (List.get?_mem hdt)
  have hlerase : (dt.pending.erase p).length = dt.pending.length - 1 :=
    List.length_erase_of_mem hppend
  have hdnq : d ∉ s.queue := by
    intro hmem
    have := hinv.queueStatus d hmem
    rw [taskStatus_def, hdt] at this
    have h2 := Option.some.inj this
    rw [hstOH] at h2
    exact absurd h2 (by simp)
  have hdnr : d ∉ runningTasks s := by
    intro hmem
    have := hinv.runStatus d hmem
    rw [taskStatus_def, hdt] at this
    have h2 := Option.some.inj this
    rw [hstOH] at h2
    exact absurd h2 (by simp)
  have hdnc : d ∉ collectedTasks s := by
    intro hmem
    have := hinv.collectedPending d hmem
    rw [taskPending_def, hdt] at this
    simp only [Option.map_some', Option.getD_some] at this
    rw [this] at hppend
    exact absurd hppend (by simp)
  have hOwners := hinv.ownersNodup
  rw [hFsplit] at hOwners
  rw [List.map_append, List.map_append, List.map_cons] at hOwners
  have hOwnersPerm : ((((List.take w s.actors).flatMap actorFrames).map
      Frame.owner) ++ ((p :: stk.map Frame.owner) ++
        (((List.drop (w + 1) s.actors).flatMap actorFrames).map
          Frame.owner))).Perm
      (p :: ((((List.take w s.actors).flatMap actorFrames).map Frame.owner) ++
        (stk.map Frame.owner ++
          (((List.drop (w + 1) s.actors).flatMap actorFrames).map
            Frame.owner)))) := by
    have : (p :: stk.map Frame.owner) ++
        (((List.drop (w + 1) s.actors).flatMap actorFrames).map
          Frame.owner) = p :: (stk.map Frame.owner ++
            (((List.drop (w + 1) s.actors).flatMap actorFrames).map
              Frame.owner)) := rfl
    rw [this]
    exact List.perm_middle
  have hOwnNodup2 := (List.Perm.nodup_iff hOwnersPerm).mp hOwners
  rw [List.nodup_cons] at hOwnNodup2
  have hOwnUnique : ∀ g : Frame,
      (g ∈ (List.take w s.actors).flatMap actorFrames ∨ g ∈ stk ∨
        g ∈ (List.drop (w + 1) s.actors).flatMap actorFrames) →
      g.owner ≠ p := by
    intro g hg he
    apply hOwnNodup2.1
    rcases hg with h | h | h
    · exact List.mem_append.mpr (Or.inl (he ▸ List.mem_map_of_mem _ h))
    · exact List.mem_append.mpr (Or.inr (List.mem_append.mpr (Or.inl
        (he ▸ List.mem_map_of_mem _ h))))
    · exact List.mem_append.mpr (Or.inr (List.mem_append.mpr (Or.inr
        (he ▸ List.mem_map_of_mem _ h))))
  have hdone2 : ∀ dt2 : Task, dt2.status = dt.status ∨
      dt2.status = Status.running → ∀ q2,
      taskStatus s q2 = some Status.done →
      ((s.tasks.set d dt2).get? q2).map Task.status = some Status.done := by
    intro dt2 hdt2 q2 hq2
    have hqd : q2 ≠ d := by
      intro he
      rw [he, taskStatus_def, hdt] at hq2
      have h2 := Option.some.inj hq2
      rw [hstOH] at h2
      exact absurd h2 (by simp)
    rw [get?_set_ne' _ (fun h => hqd h.symm)]
    exact hq2
  -- pointwise task-table equations parameterised by the new record
  have eSgen : ∀ dt2 : Task, ∀ u, ((s.tasks.set d dt2).get? u).map
      Task.status = if u = d then some dt2.status else taskStatus s u := by
    intro dt2 u
    by_cases hu : u = d
    · subst hu
      rw [if_pos rfl, get?_set_self' _ hdt]
      rfl
    · rw [if_neg hu, get?_set_ne' _ (fun h => hu h.symm), taskStatus_def]
  have ePgen : ∀ dt2 : Task, ∀ u, (((s.tasks.set d dt2).get? u).map
      Task.pending).getD [] =
      if u = d then dt2.pending else taskPending s u := by
    intro dt2 u
    by_cases hu : u = d
    · subst hu
      rw [if_pos rfl, get?_set_self' _ hdt]
      rfl
    · rw [if_neg hu, get?_set_ne' _ (fun h => hu h.symm), taskPending_def]
  have eDgen : ∀ dt2 : Task, dt2.dependents = dt.dependents → ∀ u,
      (((s.tasks.set d dt2).get? u).map Task.dependents).getD [] =
      taskDependents s u := by
    intro dt2 hdeps u
    by_cases hu : u = d
    · subst hu
      rw [get?_set_self' _ hdt, taskDependents_def, hdt]
      simpa using hdeps
    · rw [get?_set_ne' _ (fun h => hu h.symm), taskDependents_def]
  have hmemset : ∀ dt2 : Task, ∀ tk', tk' ∈ s.tasks.set d dt2 →
      tk' ∈ s.tasks ∨ tk' = dt2 := fun dt2 tk' h =>
    List.mem_or_eq_of_mem_set h
  -- the remaining-pending facts shared by all branches
  have hRPnew : ∀ u, rest.count u ≤
      (if u = d then dt.pending.erase p else taskPending s u).count p := by
    intro u
    by_cases hu : u = d
    · subst hu
      rw [if_pos rfl]
      have h1 : (u :: rest).count u ≤ (taskPending s u).count p := hremp u
      rw [List.count_cons_self] at h1
      rw [List.count_erase_self]
      rw [taskPending_def, hdt] at h1
      simp only [Option.map_some', Option.getD_some] at h1
      omega
    · rw [if_neg hu]
      have h1 : (d :: rest).count u ≤ (taskPending s u).count p := hremp u
      rw [List.count_cons_of_ne hu] at h1
      exact h1
  -- counter arithmetic for the updated record
  have hcnt' : dt.counter - 1 = ((dt.pending.erase p).length : Int) := by
    rw [hlerase, hcp]
    have : 0 < dt.pending.length := List.length_pos_of_mem hppend
    omega
  -- priorsDone helper for the updated d-record
  have hPDd : ∀ q ∈ dt.priors, q ∈ dt.pending.erase p ∨
      taskStatus s q = some Status.done := by
    intro q hq
    rcases hinv.priorsDone dt (List.get?_mem hdt) q hq with h | h
    · by_cases hqp : q = p
      · subst hqp
        exact Or.inr hpd
      · exact Or.inl ((List.mem_erase_of_ne hqp).mpr h)
    · exact Or.inr h
  split at hstep
  case isTrue hcond =>
    split at hstep
    case isFalse => exact absurd hstep (by simp)
    rename_i hdin
    have hp1 : dt.pending = [p] := by
      have hlen1 : dt.pending.length = 1 := by
        have := hcond.2
        rw [hcp] at this
        omega
      obtain ⟨x, hx⟩ := List.length_eq_one.mp hlen1
      rw [hx] at hppend
      have : p = x := by simpa using hppend
      rw [hx, this]
    have herasenil : dt.pending.erase p = [] := by
      rw [hp1]
      simp
    have hocc := hinv.occUnique d
    rw [occCount_def] at hocc
    have hdh1 : 0 < s.onHold.count d := List.count_pos_iff.mpr hdin
    have hq0 : s.queue.count d = 0 := List.count_eq_zero.mpr hdnq
    have hr0 : (runningTasks s).count d = 0 := List.count_eq_zero.mpr hdnr
    have hc0 : (collectedTasks s).count d = 0 := List.count_eq_zero.mpr hdnc
    have hh1 : s.onHold.count d = 1 := by omega
    have herase0 : (s.onHold.erase d).count d = 0 := by
      rw [List.count_erase_self, hh1]
    split at hstep
    case isTrue hhigh =>
      -- branch (a): high-priority inline invocation
      have hs := (Option.some.inj hstep).symm
      subst hs
      obtain ⟨_, hFu⟩ := bind_decomp actorFrames hac (fun a2 =>
        { a2 with phase := Phase.running d (⟨p, rest, col⟩ :: stk) })
      obtain ⟨_, hRu⟩ := bind_decomp runningOf hac (fun a2 =>
        { a2 with phase := Phase.running d (⟨p, rest, col⟩ :: stk) })
      have eF : (updAt s.actors w (fun a2 =>
          { a2 with phase := Phase.running d (⟨p, rest, col⟩ :: stk) })).flatMap
            actorFrames =
          (List.take w s.actors).flatMap actorFrames ++
            (((⟨p, rest, col⟩ : Frame) :: stk) ++
              (List.drop (w + 1) s.actors).flatMap actorFrames) := by
        rw [hFu]
        rfl
      have eR : (updAt s.actors w (fun a2 =>
          { a2 with phase := Phase.running d (⟨p, rest, col⟩ :: stk) })).flatMap
            runningOf =
          (List.take w s.actors).flatMap runningOf ++
            ([d] ++ (List.drop (w + 1) s.actors).flatMap runningOf) := by
        rw [hRu]
        rfl
      have hCT' : ((updAt s.actors w (fun a2 =>
          { a2 with phase := Phase.running d (⟨p, rest, col⟩ :: stk) })).flatMap
            actorFrames).flatMap Frame.collected = collectedTasks s := by
        rw [eF, hCTsplit]
        rw [List.flatMap_append, List.flatMap_append, List.flatMap_cons]
      set dta : Task := ({ dt with status := Status.running, counter := dt.counter - 1, pending := dt.pending.erase p } : Task) with hdta
      refine ⟨?_, ?_, ?_, ?_, ?_, ?_, ?_, ?_, ?_, ?_, ?_, ?_, ?_, ?_⟩
      · intro u hum
        have humq : u ∈ s.queue := hum
        have hud : u ≠ d := fun he => hdnq (he ▸ humq)
        rw [taskStatus_def]
        show ((s.tasks.set d dta).get? u).map _ = _
        rw [eSgen dta u, if_neg hud]
        exact hinv.queueStatus u humq
      · intro u hum
        have humq : u ∈ s.queue := hum
        have hud : u ≠ d := fun he => hdnq (he ▸ humq)
        rw [taskPending_def]
        show (((s.tasks.set d dta).get? u).map _).getD [] = _
        rw [ePgen dta u, if_neg hud]
        exact hinv.queuePending u humq
      · intro u hum
        have humh : u ∈ s.onHold.erase d := hum
        have hud : u ≠ d := by
          intro he
          subst he
          rw [← List.count_pos_iff] at humh
          omega
        rw [taskStatus_def]
        show ((s.tasks.set d dta).get? u).map _ = _
        rw [eSgen dta u, if_neg hud]
        exact hinv.holdStatus u (List.mem_of_mem_erase humh)
      · intro u hum
        rw [runningTasks_def, eR] at hum
        rw [taskStatus_def]
        show ((s.tasks.set d dta).get? u).map _ = _
        rw [eSgen dta u]
        rcases List.mem_append.mp hum with h | h
        · have humem : u ∈ runningTasks s := by
            rw [hRsplit]
            exact List.mem_append.mpr (Or.inl h)
          have hud : u ≠ d := fun he => hdnr (he ▸ humem)
          rw [if_neg hud]
          exact hinv.runStatus u humem
        · rcases List.mem_append.mp h with h2 | h2
          · have : u = d := by simpa using h2
            subst this
            rw [if_pos rfl]
          · have humem : u ∈ runningTasks s := by
              rw [hRsplit]
              exact List.mem_append.mpr (Or.inr (List.mem_append.mpr
                (Or.inr h2)))
            have hud : u ≠ d := fun he => hdnr (he ▸ humem)
            rw [if_neg hud]
            exact hinv.runStatus u humem
      · intro c hcm
        rw [collectedTasks_def, allFrames_def, hCT'] at hcm
        have hcd : c ≠ d := fun he => hdnc (he ▸ hcm)
        rw [taskStatus_def]
        show ((s.tasks.set d dta).get? c).map _ = _
        rw [eSgen dta c, if_neg hcd]
        exact hinv.collectedStatus c hcm
      · intro c hcm
        rw [collectedTasks_def, allFrames_def, hCT'] at hcm
        have hcd : c ≠ d := fun he => hdnc (he ▸ hcm)
        rw [taskPending_def]
        show (((s.tasks.set d dta).get? c).map _).getD [] = _
        rw [ePgen dta c, if_neg hcd]
        exact hinv.collectedPending c hcm
      · intro f hf
        rw [allFrames_def, eF] at hf
        rw [taskStatus_def]
        show ((s.tasks.set d dta).get? f.owner).map _ = _
        rcases List.mem_append.mp hf with h | h
        · exact hdone2 dta (Or.inr rfl) f.owner (hinv.ownerDone f (by
            rw [hFsplit]
            exact List.mem_append.mpr (Or.inl h)))
        · rcases List.mem_append.mp h with h2 | h2
          · rcases List.mem_cons.mp h2 with h3 | h3
            · subst h3
              exact hdone2 dta (Or.inr rfl) _ hpd
            · exact hdone2 dta (Or.inr rfl) f.owner (hinv.ownerDone f (by
                rw [hFsplit]
                exact List.mem_append.mpr (Or.inr (List.mem_append.mpr
                  (Or.inl (List.mem_cons_of_mem _ h3))))))
          · exact hdone2 dta (Or.inr rfl) f.owner (hinv.ownerDone f (by
              rw [hFsplit]
              exact List.mem_append.mpr (Or.inr (List.mem_append.mpr
                (Or.inr h2)))))
      · show (((updAt s.actors w _).flatMap actorFrames).map
          Frame.owner).Nodup
        rw [eF]
        have : (((List.take w s.actors).flatMap actorFrames) ++
            (((⟨p, rest, col⟩ : Frame) :: stk) ++
              ((List.drop (w + 1) s.actors).flatMap actorFrames))).map
              Frame.owner =
            (((List.take w s.actors).flatMap actorFrames) ++
              (((⟨p, d :: rest, col⟩ : Frame) :: stk) ++
                ((List.drop (w + 1) s.actors).flatMap actorFrames))).map
                Frame.owner := by
          simp [List.map_append]
        rw [this, ← hFsplit]
        exact hinv.ownersNodup
      · intro f hf u
        rw [allFrames_def, eF] at hf
        rw [taskPending_def]
        show _ ≤ ((((s.tasks.set d dta).get? u).map _).getD []).count f.owner
        rw [ePgen dta u]
        rcases List.mem_append.mp hf with h | h
        · have hfo := hOwnUnique f (Or.inl h)
          have hfmem : f ∈ allFrames s := by
            rw [hFsplit]
            exact List.mem_append.mpr (Or.inl h)
          by_cases hu : u = d
          · subst hu
            rw [if_pos rfl]
            have := hinv.remainingPending f hfmem u
            rw [taskPending_def, hdt] at this
            simp only [Option.map_some', Option.getD_some] at this
            rw [List.count_erase_of_ne hfo]
            exact this
          · rw [if_neg hu]
            exact hinv.remainingPending f hfmem u
        · rcases List.mem_append.mp h with h2 | h2
          · rcases List.mem_cons.mp h2 with h3 | h3
            · subst h3
              exact hRPnew u
            · have hfo := hOwnUnique f (Or.inr (Or.inl h3))
              have hfmem : f ∈ allFrames s := by
                rw [hFsplit]
                exact List.mem_append.mpr (Or.inr (List.mem_append.mpr
                  (Or.inl (List.mem_cons_of_mem _ h3))))
              by_cases hu : u = d
              · subst hu
                rw [if_pos rfl]
                have := hinv.remainingPending f hfmem u
                rw [taskPending_def, hdt] at this
                simp only [Option.map_some', Option.getD_some] at this
                rw [List.count_erase_of_ne hfo]
                exact this
              · rw [if_neg hu]
                exact hinv.remainingPending f hfmem u
          · have hfo := hOwnUnique f (Or.inr (Or.inr h2))
            have hfmem : f ∈ allFrames s := by
              rw [hFsplit]
              exact List.mem_append.mpr (Or.inr (List.mem_append.mpr
                (Or.inr h2)))
            by_cases hu : u = d
            · subst hu
              rw [if_pos rfl]
              have := hinv.remainingPending f hfmem u
              rw [taskPending_def, hdt] at this
              simp only [Option.map_some', Option.getD_some] at this
              rw [List.count_erase_of_ne hfo]
              exact this
            · rw [if_neg hu]
              exact hinv.remainingPending f hfmem u
      · intro p2 hp2 u
        rw [taskDependents_def, taskPending_def]
        show ((((s.tasks.set d dta).get? p2).map _).getD []).count u ≤
          ((((s.tasks.set d dta).get? u).map _).getD []).count p2
        rw [eDgen dta rfl p2, ePgen dta u]
        have hsp2 : taskStatus s p2 ≠ some Status.done := by
          intro hc
          apply hp2
          rw [taskStatus_def]
          show ((s.tasks.set d dta).get? p2).map _ = _
          exact hdone2 dta (Or.inr rfl) p2 hc
        have hdp := hinv.dependentsPending p2 hsp2 u
        by_cases hu : u = d
        · subst hu
          rw [if_pos rfl]
          have hp2p : p2 ≠ p := by
            intro he
            rw [he] at hsp2
            exact hsp2 hpd
          rw [List.count_erase_of_ne hp2p]
          rw [taskPending_def, hdt] at hdp
          simpa using hdp
        · rw [if_neg hu]
          exact hdp
      · intro tk' htk'
        rcases hmemset dta tk' htk' with h | h
        · exact hinv.counterPending tk' h
        · subst h
          exact hcnt'
      · intro tk' htk' q hq
        rcases hmemset dta tk' htk' with h | h
        · rcases hinv.priorsDone tk' h q hq with h2 | h2
          · exact Or.inl h2
          · exact Or.inr (by
              rw [taskStatus_def]
              show ((s.tasks.set d dta).get? q).map _ = _
              exact hdone2 dta (Or.inr rfl) q h2)
        · subst h
          rcases hPDd q hq with h2 | h2
          · exact Or.inl h2
          · exact Or.inr (by
              rw [taskStatus_def]
              show ((s.tasks.set d dta).get? q).map _ = _
              exact hdone2 dta (Or.inr rfl) q h2)
      · intro tk' htk' hst3
        rcases hmemset dta tk' htk' with h | h
        · exact hinv.statusPending tk' h hst3
        · subst h
          exact herasenil
      · intro u
        rw [occCount_def]
        show s.queue.count u + (s.onHold.erase d).count u +
          ((updAt s.actors w _).flatMap runningOf).count u +
          (((updAt s.actors w _).flatMap actorFrames).flatMap
            Frame.collected).count u ≤ 1
        rw [hCT', eR]
        rw [List.count_append, List.count_append]
        have hocc2 := hinv.occUnique u
        rw [occCount_def] at hocc2
        rw [hRsplit] at hocc2
        simp only [List.count_append, List.count_nil] at hocc2 ⊢
        by_cases hu : u = d
        · subst hu
          rw [herase0]
          have hone : ([u] : List TaskId).count u = 1 := by simp
          rw [hone]
          omega
        · have h1 : (s.onHold.erase d).count u = s.onHold.count u :=
            List.count_erase_of_ne hu _
          have h2 : ([d] : List TaskId).count u = 0 :=
            List.count_eq_zero.mpr (by simp [hu])
          rw [h1, h2]
          omega
    case isFalse hhigh =>
      -- branch (b): collect for batch reinsertion
      have hs := (Option.some.inj hstep).symm
      subst hs
      obtain ⟨_, hFu⟩ := bind_decomp actorFrames hac (fun a2 =>
        { a2 with phase := (Phase.signaling
          (⟨p, rest, col ++ [d]⟩ :: stk)) })
      obtain ⟨_, hRu⟩ := bind_decomp runningOf hac (fun a2 =>
        { a2 with phase := (Phase.signaling
          (⟨p, rest, col ++ [d]⟩ :: stk)) })
      have eF : (updAt s.actors w (fun a2 =>
          { a2 with phase := (Phase.signaling
            (⟨p, rest, col ++ [d]⟩ :: stk)) })).flatMap actorFrames =
          (List.take w s.actors).flatMap actorFrames ++
            (((⟨p, rest, col ++ [d]⟩ : Frame) :: stk) ++
              (List.drop (w + 1) s.actors).flatMap actorFrames) := by
        rw [hFu]
        rfl
      have eR : (updAt s.actors w (fun a2 =>
          { a2 with phase := (Phase.signaling
            (⟨p, rest, col ++ [d]⟩ :: stk)) })).flatMap runningOf =
          (List.take w s.actors).flatMap runningOf ++
            ([] ++ (List.drop (w + 1) s.actors).flatMap runningOf) := by
        rw [hRu]
        rfl
      have hCT' : ((updAt s.actors w (fun a2 =>
          { a2 with phase := (Phase.signaling
            (⟨p, rest, col ++ [d]⟩ :: stk)) })).flatMap
              actorFrames).flatMap Frame.collected =
          ((List.take w s.actors).flatMap actorFrames).flatMap
            Frame.collected ++
            (((col ++ [d]) ++ stk.flatMap Frame.collected) ++
              ((List.drop (w + 1) s.actors).flatMap actorFrames).flatMap
                Frame.collected) := by
        rw [eF]
        rw [List.flatMap_append, List.flatMap_append, List.flatMap_cons]
      set dtb : Task := ({ dt with counter := dt.counter - 1, pending := dt.pending.erase p } : Task) with hdtb
      have hdtbst : dtb.status = Status.onHold := hstOH
      refine ⟨?_, ?_, ?_, ?_, ?_, ?_, ?_, ?_, ?_, ?_, ?_, ?_, ?_, ?_⟩
      · intro u hum
        have humq : u ∈ s.queue := hum
        have hud : u ≠ d := fun he => hdnq (he ▸ humq)
        rw [taskStatus_def]
        show ((s.tasks.set d dtb).get? u).map _ = _
        rw [eSgen dtb u, if_neg hud]
        exact hinv.queueStatus u humq
      · intro u hum
        have humq : u ∈ s.queue := hum
        have hud : u ≠ d := fun he => hdnq (he ▸ humq)
        rw [taskPending_def]
        show (((s.tasks.set d dtb).get? u).map _).getD [] = _
        rw [ePgen dtb u, if_neg hud]
        exact hinv.queuePending u humq
      · intro u hum
        have humh : u ∈ s.onHold.erase d := hum
        rw [taskStatus_def]
        show ((s.tasks.set d dtb).get? u).map _ = _
        rw [eSgen dtb u]
        by_cases hud : u = d
        · rw [if_pos hud, hdtbst]
        · rw [if_neg hud]
          exact hinv.holdStatus u (List.mem_of_mem_erase humh)
      · intro u hum
        rw [runningTasks_def, eR] at hum
        have humem : u ∈ runningTasks s := by
          rw [hRsplit]
          exact hum
        have hud : u ≠ d := fun he => hdnr (he ▸ humem)
        rw [taskStatus_def]
        show ((s.tasks.set d dtb).get? u).map _ = _
        rw [eSgen dtb u, if_neg hud]
        exact hinv.runStatus u humem
      · intro c hcm
        rw [collectedTasks_def, allFrames_def, hCT'] at hcm
        rw [taskStatus_def]
        show ((s.tasks.set d dtb).get? c).map _ = _
        rw [eSgen dtb c]
        by_cases hcd : c = d
        · rw [if_pos hcd, hdtbst]
        · rw [if_neg hcd]
          have hcmem : c ∈ collectedTasks s := by
            rw [hCTsplit]
            rcases List.mem_append.mp hcm with h | h
            · exact List.mem_append.mpr (Or.inl h)
            · rcases List.mem_append.mp h with h2 | h2
              · rcases List.mem_append.mp h2 with h3 | h3
                · rcases List.mem_append.mp h3 with h4 | h4
                  · exact List.mem_append.mpr (Or.inr (List.mem_append.mpr
                      (Or.inl (List.mem_append.mpr (Or.inl h4)))))
                  · exact absurd (by simpa using h4) hcd
                · exact List.mem_append.mpr (Or.inr (List.mem_append.mpr
                    (Or.inl (List.mem_append.mpr (Or.inr h3)))))
              · exact List.mem_append.mpr (Or.inr (List.mem_append.mpr
                  (Or.inr h2)))
          exact hinv.collectedStatus c hcmem
      · intro c hcm
        rw [collectedTasks_def, allFrames_def, hCT'] at hcm
        rw [taskPending_def]
        show (((s.tasks.set d dtb).get? c).map _).getD [] = _
        rw [ePgen dtb c]
        by_cases hcd : c = d
        · rw [if_pos hcd]
          show dt.pending.erase p = []
          exact herasenil
        · rw [if_neg hcd]
          have hcmem : c ∈ collectedTasks s := by
            rw [hCTsplit]
            rcases List.mem_append.mp hcm with h | h
            · exact List.mem_append.mpr (Or.inl h)
            · rcases List.mem_append.mp h with h2 | h2
              · rcases List.mem_append.mp h2 with h3 | h3
                · rcases List.mem_append.mp h3 with h4 | h4
                  · exact List.mem_append.mpr (Or.inr (List.mem_append.mpr
                      (Or.inl (List.mem_append.mpr (Or.inl h4)))))
                  · exact absurd (by simpa using h4) hcd
                · exact List.mem_append.mpr (Or.inr (List.mem_append.mpr
                    (Or.inl (List.mem_append.mpr (Or.inr h3)))))
              · exact List.mem_append.mpr (Or.inr (List.mem_append.mpr
                  (Or.inr h2)))
          exact hinv.collectedPending c hcmem
      · intro f hf
        rw [allFrames_def, eF] at hf
        rw [taskStatus_def]
        show ((s.tasks.set d dtb).get? f.owner).map _ = _
        rcases List.mem_append.mp hf with h | h
        · exact hdone2 dtb (Or.inl rfl) f.owner (hinv.ownerDone f (by
            rw [hFsplit]
            exact List.mem_append.mpr (Or.inl h)))
        · rcases List.mem_append.mp h with h2 | h2
          · rcases List.mem_cons.mp h2 with h3 | h3
            · subst h3
              exact hdone2 dtb (Or.inl rfl) _ hpd
            · exact hdone2 dtb (Or.inl rfl) f.owner (hinv.ownerDone f (by
                rw [hFsplit]
                exact List.mem_append.mpr (Or.inr (List.mem_append.mpr
                  (Or.inl (List.mem_cons_of_mem _ h3))))))
          · exact hdone2 dtb (Or.inl rfl) f.owner (hinv.ownerDone f (by
              rw [hFsplit]
              exact List.mem_append.mpr (Or.inr (List.mem_append.mpr
                (Or.inr h2)))))
      · show (((updAt s.actors w _).flatMap actorFrames).map
          Frame.owner).Nodup
        rw [eF]
        have : (((List.take w s.actors).flatMap actorFrames) ++
            (((⟨p, rest, col ++ [d]⟩ : Frame) :: stk) ++
              ((List.drop (w + 1) s.actors).flatMap actorFrames))).map
              Frame.owner =
            (((List.take w s.actors).flatMap actorFrames) ++
              (((⟨p, d :: rest, col⟩ : Frame) :: stk) ++
                ((List.drop (w + 1) s.actors).flatMap actorFrames))).map
                Frame.owner := by
          simp [List.map_append]
        rw [this, ← hFsplit]
        exact hinv.ownersNodup
      · intro f hf u
        rw [allFrames_def, eF] at hf
        rw [taskPending_def]
        show _ ≤ ((((s.tasks.set d dtb).get? u).map _).getD []).count f.owner
        rw [ePgen dtb u]
        rcases List.mem_append.mp hf with h | h
        · have hfo := hOwnUnique f (Or.inl h)
          have hfmem : f ∈ allFrames s := by
            rw [hFsplit]
            exact List.mem_append.mpr (Or.inl h)
          by_cases hu : u = d
          · subst hu
            rw [if_pos rfl]
            have := hinv.remainingPending f hfmem u
            rw [taskPending_def, hdt] at this
            simp only [Option.map_some', Option.getD_some] at this
            rw [List.count_erase_of_ne hfo]
            exact this
          · rw [if_neg hu]
            exact hinv.remainingPending f hfmem u
        · rcases List.mem_append.mp h with h2 | h2
          · rcases List.mem_cons.mp h2 with h3 | h3
            · subst h3
              exact hRPnew u
            · have hfo := hOwnUnique f (Or.inr (Or.inl h3))
              have hfmem : f ∈ allFrames s := by
                rw [hFsplit]
                exact List.mem_append.mpr (Or.inr (List.mem_append.mpr
                  (Or.inl (List.mem_cons_of_mem _ h3))))
              by_cases hu : u = d
              · subst hu
                rw [if_pos rfl]
                have := hinv.remainingPending f hfmem u
                rw [taskPending_def, hdt] at this
                simp only [Option.map_some', Option.getD_some] at this
                rw [List.count_erase_of_ne hfo]
                exact this
              · rw [if_neg hu]
                exact hinv.remainingPending f hfmem u
          · have hfo := hOwnUnique f (Or.inr (Or.inr h2))
            have hfmem : f ∈ allFrames s := by
              rw [hFsplit]
              exact List.mem_append.mpr (Or.inr (List.mem_append.mpr
                (Or.inr h2)))
            by_cases hu : u = d
            · subst hu
              rw [if_pos rfl]
              have := hinv.remainingPending f hfmem u
              rw [taskPending_def, hdt] at this
              simp only [Option.map_some', Option.getD_some] at this
              rw [List.count_erase_of_ne hfo]
              exact this
            · rw [if_neg hu]
              exact hinv.remainingPending f hfmem u
      · intro p2 hp2 u
        rw [taskDependents_def, taskPending_def]
        show ((((s.tasks.set d dtb).get? p2).map _).getD []).count u ≤
          ((((s.tasks.set d dtb).get? u).map _).getD []).count p2
        rw [eDgen dtb rfl p2, ePgen dtb u]
        have hsp2 : taskStatus s p2 ≠ some Status.done := by
          intro hc
          apply hp2
          rw [taskStatus_def]
          show ((s.tasks.set d dtb).get? p2).map _ = _
          exact hdone2 dtb (Or.inl rfl) p2 hc
        have hdp := hinv.dependentsPending p2 hsp2 u
        by_cases hu : u = d
        · subst hu
          rw [if_pos rfl]
          have hp2p : p2 ≠ p := by
            intro he
            rw [he] at hsp2
            exact hsp2 hpd
          rw [List.count_erase_of_ne hp2p]
          rw [taskPending_def, hdt] at hdp
          simpa using hdp
        · rw [if_neg hu]
          exact hdp
      · intro tk' htk'
        rcases hmemset dtb tk' htk' with h | h
        · exact hinv.counterPending tk' h
        · subst h
          exact hcnt'
      · intro tk' htk' q hq
        rcases hmemset dtb tk' htk' with h | h
        · rcases hinv.priorsDone tk' h q hq with h2 | h2
          · exact Or.inl h2
          · exact Or.inr (by
              rw [taskStatus_def]
              show ((s.tasks.set d dtb).get? q).map _ = _
              exact hdone2 dtb (Or.inl rfl) q h2)
        · subst h
          rcases hPDd q hq with h2 | h2
          · exact Or.inl h2
          · exact Or.inr (by
              rw [taskStatus_def]
              show ((s.tasks.set d dtb).get? q).map _ = _
              exact hdone2 dtb (Or.inl rfl) q h2)
      · intro tk' htk' hst3
        rcases hmemset dtb tk' htk' with h | h
        · exact hinv.statusPending tk' h hst3
        · subst h
          exact absurd hdtbst hst3
      · intro u
        rw [occCount_def]
        show s.queue.count u + (s.onHold.erase d).count u +
          ((updAt s.actors w _).flatMap runningOf).count u +
          (((updAt s.actors w _).flatMap actorFrames).flatMap
            Frame.collected).count u ≤ 1
        rw [hCT', eR]
        have hocc2 := hinv.occUnique u
        rw [occCount_def] at hocc2
        rw [hRsplit, hCTsplit] at hocc2
        simp only [List.count_append, List.count_nil] at hocc2 ⊢
        by_cases hu : u = d
        · subst hu
          rw [herase0]
          have hone : ([u] : List TaskId).count u = 1 := by simp
          rw [hone]
          have hc1 : col.count u = 0 := by
            have : (collectedTasks s).count u = 0 :=
              List.count_eq_zero.mpr hdnc
            rw [hCTsplit] at this
            simp only [List.count_append] at this
            omega
          have hc2 : (stk.flatMap Frame.collected).count u = 0 := by
            have : (collectedTasks s).count u = 0 :=
              List.count_eq_zero.mpr hdnc
            rw [hCTsplit] at this
            simp only [List.count_append] at this
            omega
          omega
        · have h1 : (s.onHold.erase d).count u = s.onHold.count u :=
            List.count_erase_of_ne hu _
          have h2 : ([d] : List TaskId).count u = 0 :=
            List.count_eq_zero.mpr (by simp [hu])
          rw [h1, h2]
          omega
  case isFalse hcond =>
    -- branch (c): plain decrement
    have hs := (Option.some.inj hstep).symm
    subst hs
    obtain ⟨_, hFu⟩ := bind_decomp actorFrames hac (fun a2 =>
      { a2 with phase := (Phase.signaling (⟨p, rest, col⟩ :: stk)) })
    obtain ⟨_, hRu⟩ := bind_decomp runningOf hac (fun a2 =>
      { a2 with phase := (Phase.signaling (⟨p, rest, col⟩ :: stk)) })
    have eF : (updAt s.actors w (fun a2 =>
        { a2 with phase := (Phase.signaling
          (⟨p, rest, col⟩ :: stk)) })).flatMap actorFrames =
        (List.take w s.actors).flatMap actorFrames ++
          (((⟨p, rest, col⟩ : Frame) :: stk) ++
            (List.drop (w + 1) s.actors).flatMap actorFrames) := by
      rw [hFu]
      rfl
    have eR : (updAt s.actors w (fun a2 =>
        { a2 with phase := (Phase.signaling
          (⟨p, rest, col⟩ :: stk)) })).flatMap runningOf =
        (List.take w s.actors).flatMap runningOf ++
          ([] ++ (List.drop (w + 1) s.actors).flatMap runningOf) := by
      rw [hRu]
      rfl
    have hCT' : ((updAt s.actors w (fun a2 =>
        { a2 with phase := (Phase.signaling
          (⟨p, rest, col⟩ :: stk)) })).flatMap
            actorFrames).flatMap Frame.collected = collectedTasks s := by
      rw [eF, hCTsplit]
      rw [List.flatMap_append, List.flatMap_append, List.flatMap_cons]
    set dtc : Task := ({ dt with counter := dt.counter - 1, pending := dt.pending.erase p } : Task) with hdtc
    have hdtcst : dtc.status = Status.onHold := hstOH
    refine ⟨?_, ?_, ?_, ?_, ?_, ?_, ?_, ?_, ?_, ?_, ?_, ?_, ?_, ?_⟩
    · intro u hum
      have humq : u ∈ s.queue := hum
      have hud : u ≠ d := fun he => hdnq (he ▸ humq)
      rw [taskStatus_def]
      show ((s.tasks.set d dtc).get? u).map _ = _
      rw [eSgen dtc u, if_neg hud]
      exact hinv.queueStatus u humq
    · intro u hum
      have humq : u ∈ s.queue := hum
      have hud : u ≠ d := fun he => hdnq (he ▸ humq)
      rw [taskPending_def]
      show (((s.tasks.set d dtc).get? u).map _).getD [] = _
      rw [ePgen dtc u, if_neg hud]
      exact hinv.queuePending u humq
    · intro u hum
      have humh : u ∈ s.onHold := hum
      rw [taskStatus_def]
      show ((s.tasks.set d dtc).get? u).map _ = _
      rw [eSgen dtc u]
      by_cases hud : u = d
      · rw [if_pos hud, hdtcst]
      · rw [if_neg hud]
        exact hinv.holdStatus u humh
    · intro u hum
      rw [runningTasks_def, eR] at hum
      have humem : u ∈ runningTasks s := by
        rw [hRsplit]
        exact hum
      have hud : u ≠ d := fun he => hdnr (he ▸ humem)
      rw [taskStatus_def]
      show ((s.tasks.set d dtc).get? u).map _ = _
      rw [eSgen dtc u, if_neg hud]
      exact hinv.runStatus u humem
    · intro c hcm
      rw [collectedTasks_def, allFrames_def, hCT'] at hcm
      have hcd : c ≠ d := fun he => hdnc (he ▸ hcm)
      rw [taskStatus_def]
      show ((s.tasks.set d dtc).get? c).map _ = _
      rw [eSgen dtc c, if_neg hcd]
      exact hinv.collectedStatus c hcm
    · intro c hcm
      rw [collectedTasks_def, allFrames_def, hCT'] at hcm
      have hcd : c ≠ d := fun he => hdnc (he ▸ hcm)
      rw [taskPending_def]
      show (((s.tasks.set d dtc).get? c).map _).getD [] = _
      rw [ePgen dtc c, if_neg hcd]
      exact hinv.collectedPending c hcm
    · intro f hf
      rw [allFrames_def, eF] at hf
      rw [taskStatus_def]
      show ((s.tasks.set d dtc).get? f.owner).map _ = _
      rcases List.mem_append.mp hf with h | h
      · exact hdone2 dtc (Or.inl rfl) f.owner (hinv.ownerDone f (by
          rw [hFsplit]
          exact List.mem_append.mpr (Or.inl h)))
      · rcases List.mem_append.mp h with h2 | h2
        · rcases List.mem_cons.mp h2 with h3 | h3
          · subst h3
            exact hdone2 dtc (Or.inl rfl) _ hpd
          · exact hdone2 dtc (Or.inl rfl) f.owner (hinv.ownerDone f (by
              rw [hFsplit]
              exact List.mem_append.mpr (Or.inr (List.mem_append.mpr
                (Or.inl (List.mem_cons_of_mem _ h3))))))
        · exact hdone2 dtc (Or.inl rfl) f.owner (hinv.ownerDone f (by
            rw [hFsplit]
            exact List.mem_append.mpr (Or.inr (List.mem_append.mpr
              (Or.inr h2)))))
    · show (((updAt s.actors w _).flatMap actorFrames).map
        Frame.owner).Nodup
      rw [eF]
      have : (((List.take w s.actors).flatMap actorFrames) ++
          (((⟨p, rest, col⟩ : Frame) :: stk) ++
            ((List.drop (w + 1) s.actors).flatMap actorFrames))).map
            Frame.owner =
          (((List.take w s.actors).flatMap actorFrames) ++
            (((⟨p, d :: rest, col⟩ : Frame) :: stk) ++
              ((List.drop (w + 1) s.actors).flatMap actorFrames))).map
              Frame.owner := by
        simp [List.map_append]
      rw [this, ← hFsplit]
      exact hinv.ownersNodup
    · intro f hf u
      rw [allFrames_def, eF] at hf
      rw [taskPending_def]
      show _ ≤ ((((s.tasks.set d dtc).get? u).map _).getD []).count f.owner
      rw [ePgen dtc u]
      rcases List.mem_append.mp hf with h | h
      · have hfo := hOwnUnique f (Or.inl h)
        have hfmem : f ∈ allFrames s := by
          rw [hFsplit]
          exact List.mem_append.mpr (Or.inl h)
        by_cases hu : u = d
        · subst hu
          rw [if_pos rfl]
          have := hinv.remainingPending f hfmem u
          rw [taskPending_def, hdt] at this
          simp only [Option.map_some', Option.getD_some] at this
          rw [List.count_erase_of_ne hfo]
          exact this
        · rw [if_neg hu]
          exact hinv.remainingPending f hfmem u
      · rcases List.mem_append.mp h with h2 | h2
        · rcases List.mem_cons.mp h2 with h3 | h3
          · subst h3
            exact hRPnew u
          · have hfo := hOwnUnique f (Or.inr (Or.inl h3))
            have hfmem : f ∈ allFrames s := by
              rw [hFsplit]
              exact List.mem_append.mpr (Or.inr (List.mem_append.mpr
                (Or.inl (List.mem_cons_of_mem _ h3))))
            by_cases hu : u = d
            · subst hu
              rw [if_pos rfl]
              have := hinv.remainingPending f hfmem u
              rw [taskPending_def, hdt] at this
              simp only [Option.map_some', Option.getD_some] at this
              rw [List.count_erase_of_ne hfo]
              exact this
            · rw [if_neg hu]
              exact hinv.remainingPending f hfmem u
        · have hfo := hOwnUnique f (Or.inr (Or.inr h2))
          have hfmem : f ∈ allFrames s := by
            rw [hFsplit]
            exact List.mem_append.mpr (Or.inr (List.mem_append.mpr
              (Or.inr h2)))
          by_cases hu : u = d
          · subst hu
            rw [if_pos rfl]
            have := hinv.remainingPending f hfmem u
            rw [taskPending_def, hdt] at this
            simp only [Option.map_some', Option.getD_some] at this
            rw [List.count_erase_of_ne hfo]
            exact this
          · rw [if_neg hu]
            exact hinv.remainingPending f hfmem u
    · intro p2 hp2 u
      rw [taskDependents_def, taskPending_def]
      show ((((s.tasks.set d dtc).get? p2).map _).getD []).count u ≤
        ((((s.tasks.set d dtc).get? u).map _).getD []).count p2
      rw [eDgen dtc rfl p2, ePgen dtc u]
      have hsp2 : taskStatus s p2 ≠ some Status.done := by
        intro hc
        apply hp2
        rw [taskStatus_def]
        show ((s.tasks.set d dtc).get? p2).map _ = _
        exact hdone2 dtc (Or.inl rfl) p2 hc
      have hdp := hinv.dependentsPending p2 hsp2 u
      by_cases hu : u = d
      · subst hu
        rw [if_pos rfl]
        have hp2p : p2 ≠ p := by
          intro he
          rw [he] at hsp2
          exact hsp2 hpd
        rw [List.count_erase_of_ne hp2p]
        rw [taskPending_def, hdt] at hdp
        simpa using hdp
      · rw [if_neg hu]
        exact hdp
    · intro tk' htk'
      rcases hmemset dtc tk' htk' with h | h
      · exact hinv.counterPending tk' h
      · subst h
        exact hcnt'
    · intro tk' htk' q hq
      rcases hmemset dtc tk' htk' with h | h
      · rcases hinv.priorsDone tk' h q hq with h2 | h2
        · exact Or.inl h2
        · exact Or.inr (by
            rw [taskStatus_def]
            show ((s.tasks.set d dtc).get? q).map _ = _
            exact hdone2 dtc (Or.inl rfl) q h2)
      · subst h
        rcases hPDd q hq with h2 | h2
        · exact Or.inl h2
        · exact Or.inr (by
            rw [taskStatus_def]
            show ((s.tasks.set d dtc).get? q).map _ = _
            exact hdone2 dtc (Or.inl rfl) q h2)
    · intro tk' htk' hst3
      rcases hmemset dtc tk' htk' with h | h
      · exact hinv.statusPending tk' h hst3
      · subst h
        exact absurd hdtcst hst3
    · intro u
      rw [occCount_def]
      show s.queue.count u + s.onHold.count u +
        ((updAt s.actors w _).flatMap runningOf).count u +
        (((updAt s.actors w _).flatMap actorFrames).flatMap
          Frame.collected).count u ≤ 1
      rw [hCT', eR]
      have hocc2 := hinv.occUnique u
      rw [occCount_def] at hocc2
      rw [hRsplit] at hocc2
      simp only [List.count_append, List.count_nil] at hocc2 ⊢
      omega

theorem inv_step_setTarget {s s' : Sys} {n : Int} (hinv : Inv s)
    (hstep : step s (Act.setTarget n) = some s') : Inv s' := by
  rw [step] at hstep
  by_cases hd : s.destroying
  · rw [if_pos (by simp [hd])] at hstep
    exact absurd hstep (by simp)
  · rw [if_neg (by simp [hd])] at hstep
    have hs := (Option.some.inj hstep).symm
    subst hs
    exact inv_transfer hinv rfl rfl rfl rfl rfl

theorem inv_step_destroy {s s' : Sys} (hinv : Inv s)
    (hstep : step s Act.destroy = some s') : Inv s' := by
  rw [step] at hstep
  have hs := (Option.some.inj hstep).symm
  subst hs
  exact inv_transfer hinv rfl rfl rfl rfl rfl

theorem inv_step_spawnWorker {s s' : Sys} {i : Int} (hinv : Inv s)
    (hstep : step s (Act.spawnWorker i) = some s') : Inv s' := by
  rw [step] at hstep
  by_cases hd : s.destroying
  · rw [if_pos (by simp [hd])] at hstep
    exact absurd hstep (by simp)
  · rw [if_neg (by simp [hd])] at hstep
    have hs := (Option.some.inj hstep).symm
    subst hs
    refine inv_transfer hinv rfl rfl rfl ?_ ?_
    · rw [allFrames, allFrames]
      simp [List.flatMap_append, actorFrames]
    · rw [runningTasks, runningTasks]
      simp [List.flatMap_append, runningOf]

theorem inv_step_workerExit {s s' : Sys} {w : Nat} (hinv : Inv s)
    (hstep : step s (Act.workerExit w) = some s') : Inv s' := by
  rw [step] at hstep
  split at hstep
  case h_2 => exact absurd hstep (by simp)
  rename_i ac hac
  split at hstep
  case isFalse => exact absurd hstep (by simp)
  rename_i hg
  have hs := (Option.some.inj hstep).symm
  subst hs
  obtain ⟨hFa, hFu⟩ := bind_decomp actorFrames hac
    (fun a2 => { a2 with phase := Phase.exited, registered := false })
  obtain ⟨hRa, hRu⟩ := bind_decomp runningOf hac
    (fun a2 => { a2 with phase := Phase.exited, registered := false })
  have hacF : actorFrames ac = [] := by rw [actorFrames, hg.2.1]
  have hacR : runningOf ac = [] := by rw [runningOf, hg.2.1]
  refine inv_transfer hinv rfl rfl rfl ?_ ?_
  · show (updAt s.actors w _).flatMap actorFrames =
      s.actors.flatMap actorFrames
    rw [hFa, hFu, hacF]
    rfl
  · show (updAt s.actors w _).flatMap runningOf =
      s.actors.flatMap runningOf
    rw [hRa, hRu, hacR]
    rfl

/-- Every enabled transition preserves the invariant. -/
theorem inv_step {s s' : Sys} {a : Act} (hinv : Inv s)
    (hstep : step s a = some s') : Inv s' := by
  cases a with
  | push => exact inv_step_push hinv hstep
  | pushDependent priors => exact inv_step_pushDependent hinv hstep
  | claim w => exact inv_step_claim hinv hstep
  | finishPayload w => exact inv_step_finishPayload hinv hstep
  | signalStep w => exact inv_step_signalStep hinv hstep
  | signalFinish w => exact inv_step_signalFinish hinv hstep
  | tryClaim w t => exact inv_step_tryClaim hinv hstep
  | markHighPriority t => exact inv_step_markHigh hinv hstep
  | workerExit w => exact inv_step_workerExit hinv hstep
  | setTarget n => exact inv_step_setTarget hinv hstep
  | spawnWorker i => exact inv_step_spawnWorker hinv hstep
  | destroy => exact inv_step_destroy hinv hstep

/-- The invariant is preserved along any run of enabled transitions. -/
theorem inv_run {acts : List Act} {s s' : Sys} (hinv : Inv s)
    (hrun : run s acts = some s') : Inv s' := by
  induction acts generalizing s with
  | nil =>
    rw [run] at hrun
    exact (Option.some.inj hrun) ▸ hinv
  | cons a rest ih =>
    rw [run] at hrun
    cases hstep : step s a with
    | none =>
      rw [hstep] at hrun
      exact absurd hrun (by simp)
    | some s1 =>
      rw [hstep] at hrun
      exact ih (inv_step hinv hstep) hrun

/-- Every state reachable from the initial state satisfies the invariant. -/
theorem inv_reach {acts : List Act} {s : Sys}
    (hrun : run init acts = some s) : Inv s :=
  inv_run inv_init hrun

/-! ## Further transition lemmas shared by the claims -/

theorem get?_append_left2 {α : Type} {l1 l2 : List α} {n : Nat} {x : α}
    (h : l1.get? n = some x) : (l1 ++ l2).get? n = some x := by
  rw [List.get?_append (List.get?_eq_some.mp h).1]
  exact h

/-- In an invariant state, the dependent under scrutiny in a signalling
activation is ON_HOLD and not in the ready queue: the activation's owner is
still pending for it (remainingPending), so its pending list is non-empty
and statusPending forces ON_HOLD; ON_HOLD excludes queue membership. -/
theorem signal_target_onHold {s : Sys} {w : Nat} {ac : Actor} {p d : TaskId}
    {rest col : List TaskId} {stk : List Frame} {dt : Task} (hinv : Inv s)
    (hac : s.actors.get? w = some ac)
    (hph : ac.phase = Phase.signaling (⟨p, d :: rest, col⟩ :: stk))
    (hdt : s.tasks.get? d = some dt) :
    dt.status = Status.onHold ∧ d ∉ s.queue := by
  obtain ⟨hFa0, _⟩ := bind_decomp actorFrames hac id
  have hacF : actorFrames ac = (⟨p, d :: rest, col⟩ : Frame) :: stk := by
    rw [actorFrames, hph]
  have hF0mem : (⟨p, d :: rest, col⟩ : Frame) ∈ allFrames s := by
    rw [allFrames_def, hFa0, hacF]
    exact List.mem_append.mpr (Or.inr (List.mem_append.mpr (Or.inl
      (List.mem_cons_self _ _))))
  have hremp := hinv.remainingPending _ hF0mem
  have hppend : p ∈ dt.pending := by
    have h1 : (d :: rest).count d ≤ (taskPending s d).count p := hremp d
    rw [List.count_cons_self] at h1
    have h2 : 0 < (taskPending s d).count p := by omega
    rw [taskPending_def, hdt] at h2
    simp only [Option.map_some', Option.getD_some] at h2
    exact List.count_pos_iff.mp h2
  have hstOH : dt.status = Status.onHold := by
    by_contra hne
    have := hinv.statusPending dt (List.get?_mem hdt) hne
    rw [this] at hppend
    exact absurd hppend (by simp)
  refine ⟨hstOH, ?_⟩
  intro hmem
  have := hinv.queueStatus d hmem
  rw [taskStatus_def, hdt] at this
  have h2 := Option.some.inj this
  rw [hstOH] at h2
  exact absurd h2 (by simp)

/-- An exited actor stays exited across every enabled transition: no action
re-activates a terminated worker (growth spawns fresh threads instead). -/
theorem exited_step {s s' : Sys} {w : Nat} {a : Act}
    (hex : (s.actors.get? w).map Actor.phase = some Phase.exited)
    (hstep : step s a = some s') :
    (s'.actors.get? w).map Actor.phase = some Phase.exited := by
  cases hax : s.actors.get? w with
  | none =>
    rw [hax] at hex
    exact absurd hex (by simp)
  | some ac =>
    have hex0 := hex
    rw [hax] at hex
    have hphx : ac.phase = Phase.exited := by simpa using hex
    cases a with
    | push =>
      rw [step] at hstep
      have hs := (Option.some.inj hstep).symm
      subst hs
      exact hex0
    | pushDependent priors =>
      rw [step] at hstep
      split at hstep
      case isFalse => exact absurd hstep (by simp)
      by_cases hempty :
          (priors.filter fun p => taskStatus s p ≠ some Status.done).isEmpty
      · rw [if_pos hempty] at hstep
        have hs := (Option.some.inj hstep).symm
        subst hs
        exact hex0
      · rw [if_neg hempty] at hstep
        have hs := (Option.some.inj hstep).symm
        subst hs
        exact hex0
    | claim w2 =>
      rw [step] at hstep
      split at hstep
      case h_2 => exact absurd hstep (by simp)
      rename_i ac2 hac2
      split at hstep
      case isFalse => exact absurd hstep (by simp)
      rename_i hcond
      split at hstep
      case h_2 => exact absurd hstep (by simp)
      rename_i t0 rest0 hq0
      have hs := (Option.some.inj hstep).symm
      subst hs
      by_cases hww : w2 = w
      · subst hww
        rw [hax] at hac2
        have he := Option.some.inj hac2
        rw [← he] at hcond
        rw [hphx] at hcond
        exact absurd hcond.2.1 (by simp)
      · show ((updAt s.actors w2 _).get? w).map Actor.phase = _
        rw [updAt_get?_ne _ hww]
        exact hex0
    | finishPayload w2 =>
      rw [step] at hstep
      split at hstep
      case h_2 => exact absurd hstep (by simp)
      rename_i ac2 hac2
      split at hstep
      case h_2 => exact absurd hstep (by simp)
      rename_i t0 stk0 hph2
      have hs := (Option.some.inj hstep).symm
      subst hs
      by_cases hww : w2 = w
      · subst hww
        rw [hax] at hac2
        have he := Option.some.inj hac2
        rw [← he] at hph2
        rw [hphx] at hph2
        exact absurd hph2 (by simp)
      · show ((updAt s.actors w2 _).get? w).map Actor.phase = _
        rw [updAt_get?_ne _ hww]
        exact hex0
    | signalStep w2 =>
      rw [step] at hstep
      split at hstep
      case h_2 => exact absurd hstep (by simp)
      rename_i ac2 hac2
      split at hstep
      case h_2 => exact absurd hstep (by simp)
      rename_i p0 d0 rest0 col0 stk0 hph2
      split at hstep
      case h_2 => exact absurd hstep (by simp)
      rename_i dt0 hdt0
      by_cases hww : w2 = w
      · subst hww
        rw [hax] at hac2
        have he := Option.some.inj hac2
        rw [← he] at hph2
        rw [hphx] at hph2
        exact absurd hph2 (by simp)
      · split at hstep
        · split at hstep
          · split at hstep
            · have hs := (Option.some.inj hstep).symm
              subst hs
              show ((updAt s.actors w2 _).get? w).map Actor.phase = _
              rw [updAt_get?_ne _ hww]
              exact hex0
            · have hs := (Option.some.inj hstep).symm
              subst hs
              show ((updAt s.actors w2 _).get? w).map Actor.phase = _
              rw [updAt_get?_ne _ hww]
              exact hex0
          · exact absurd hstep (by simp)
        · have hs := (Option.some.inj hstep).symm
          subst hs
          show ((updAt s.actors w2 _).get? w).map Actor.phase = _
          rw [updAt_get?_ne _ hww]
          exact hex0
    | signalFinish w2 =>
      rw [step] at hstep
      split at hstep
      case h_2 => exact absurd hstep (by simp)
      rename_i ac2 hac2
      split at hstep
      case h_2 => exact absurd hstep (by simp)
      rename_i p0 col0 stk0 hph2
      have hs := (Option.some.inj hstep).symm
      subst hs
      by_cases hww : w2 = w
      · subst hww
        rw [hax] at hac2
        have he := Option.some.inj hac2
        rw [← he] at hph2
        rw [hphx] at hph2
        exact absurd hph2 (by simp)
      · show ((updAt s.actors w2 _).get? w).map Actor.phase = _
        rw [updAt_get?_ne _ hww]
        exact hex0
    | tryClaim w2 t0 =>
      rw [step] at hstep
      split at hstep
      case h_2 => exact absurd hstep (by simp)
      rename_i ac2 hac2
      split at hstep
      case isFalse => exact absurd hstep (by simp)
      rename_i hcond
      have hs := (Option.some.inj hstep).symm
      subst hs
      by_cases hww : w2 = w
      · subst hww
        rw [hax] at hac2
        have he := Option.some.inj hac2
        rw [← he] at hcond
        rw [hphx] at hcond
        exact absurd hcond.1 (by simp)
      · show ((updAt s.actors w2 _).get? w).map Actor.phase = _
        rw [updAt_get?_ne _ hww]
        exact hex0
    | markHighPriority t0 =>
      rw [step] at hstep
      split at hstep
      case h_2 => exact absurd hstep (by simp)
      split at hstep
      case isFalse => exact absurd hstep (by simp)
      have hs := (Option.some.inj hstep).symm
      subst hs
      exact hex0
    | workerExit w2 =>
      rw [step] at hstep
      split at hstep
      case h_2 => exact absurd hstep (by simp)
      rename_i ac2 hac2
      split at hstep
      case isFalse => exact absurd hstep (by simp)
      rename_i hcond
      have hs := (Option.some.inj hstep).symm
      subst hs
      by_cases hww : w2 = w
      · subst hww
        rw [hax] at hac2
        have he := Option.some.inj hac2
        rw [← he] at hcond
        rw [hphx] at hcond
        exact absurd hcond.2.1 (by simp)
      · show ((updAt s.actors w2 _).get? w).map Actor.phase = _
        rw [updAt_get?_ne _ hww]
        exact hex0
    | setTarget n =>
      rw [step] at hstep
      split at hstep
      case isTrue => exact absurd hstep (by simp)
      have hs := (Option.some.inj hstep).symm
      subst hs
      exact hex0
    | spawnWorker i =>
      rw [step] at hstep
      split at hstep
      case isTrue => exact absurd hstep (by simp)
      have hs := (Option.some.inj hstep).symm
      subst hs
      show ((s.actors ++ _).get? w).map Actor.phase = _
      rw [get?_append_left2 hax]
      simpa using hphx
    | destroy =>
      rw [step] at hstep
      have hs := (Option.some.inj hstep).symm
      subst hs
      exact hex0

/-- An exited actor stays exited along any run. -/
theorem exited_run {acts : List Act} {s s' : Sys} {w : Nat}
    (hex : (s.actors.get? w).map Actor.phase = some Phase.exited)
    (hrun : run s acts = some s') :
    (s'.actors.get? w).map Actor.phase = some Phase.exited := by
  induction acts generalizing s with
  | nil =>
    rw [run] at hrun
    exact (Option.some.inj hrun) ▸ hex
  | cons a rest ih =>
    rw [run] at hrun
    cases hstep : step s a with
    | none =>
      rw [hstep] at hrun
      exact absurd hrun (by simp)
    | some s1 =>
      rw [hstep] at hrun
      exact ih (exited_step hex hstep) hrun

/-- A worker whose phase is not idle cannot claim from the queue. -/
theorem claim_not_idle {s : Sys} {w : Nat} {ac : Actor}
    (hac : s.actors.get? w = some ac) (hph : ac.phase ≠ Phase.idle) :
    step s (Act.claim w) = none := by
  cases hq : step s (Act.claim w) with
  | none => rfl
  | some s1 =>
    exfalso
    rw [step] at hq
    split at hq
    case h_2 => exact absurd hq (by simp)
    rename_i ac2 hac2
    split at hq
    case isFalse => exact absurd hq (by simp)
    rename_i hcond
    rw [hac] at hac2
    have he := Option.some.inj hac2
    exact hph (by rw [he]; exact hcond.2.1)

/-- A worker whose index is at or above `NumberOfThreads` cannot claim from
the queue (the `Continue` check of lines 99–102). -/
theorem claim_out_of_bounds {s : Sys} {w : Nat} {ac : Actor}
    (hac : s.actors.get? w = some ac)
    (hidx : s.numberOfThreads ≤ ac.idx) :
    step s (Act.claim w) = none := by
  cases hq : step s (Act.claim w) with
  | none => rfl
  | some s1 =>
    exfalso
    rw [step] at hq
    split at hq
    case h_2 => exact absurd hq (by simp)
    rename_i ac2 hac2
    split at hq
    case isFalse => exact absurd hq (by simp)
    rename_i hcond
    rw [hac] at hac2
    have he := Option.some.inj hac2
    have hlt : ac.idx < s.numberOfThreads := by
      rw [he]
      exact hcond.2.2
    exact absurd hlt (not_lt.mpr hidx)

/-! ## Claim C1 : dependency ordering -/

/-- Claim C1: for every task T submitted with prior futures P1..Pk, T's
status never becomes RUNNING before every Pi has reached DONE.  In every
reachable state, a RUNNING task's priors are all DONE: a dependent leaves
the on-hold store only when its outstanding-dependency counter reaches zero
inside the signalling loop, and workers only claim invokers from the ready
queue.  (`Push`/`PushDependent` and the RUNNING→DONE completion live in the
header; those steps of the model are Modelled from the spec, §4.1–4.2.) -/
theorem C1_dependency_ordering {acts : List Act} {s : Sys} {t : TaskId}
    (hrun : run init acts = some s)
    (hrunning : taskStatus s t = some Status.running) :
    ∀ p ∈ taskPriors s t, taskStatus s p = some Status.done := by
  have hinv := inv_run inv_init hrun
  intro p hp
  rw [taskPriors] at hp
  cases hx : s.tasks.get? t with
  | none =>
    rw [taskStatus_def, hx] at hrunning
    exact absurd hrunning (by simp)
  | some tk =>
    rw [hx] at hp
    simp only [Option.map_some', Option.getD_some] at hp
    have hst : tk.status = Status.running := by
      rw [taskStatus_def, hx] at hrunning
      simpa using hrunning
    have hpend : tk.pending = [] :=
      hinv.statusPending tk (List.get?_mem hx) (by rw [hst]; simp)
    rcases hinv.priorsDone tk (List.get?_mem hx) p hp with h | h
    · rw [hpend] at h
      exact absurd h (by simp)
    · exact h

/-- Claim C1 witness: a run in which task 1 (submitted with prior 0) is
RUNNING; its prior 0 is DONE. -/
theorem C1_witness :
    taskStatus (⟨[⟨Status.done, 0, [1], false, [], []⟩,
      ⟨Status.running, 0, [], false, [0], []⟩], [], [],
      [⟨true, 0, true, Phase.running 1 []⟩], 1, false⟩ : Sys) 0 =
      some Status.done :=
  @C1_dependency_ordering [Act.push, Act.pushDependent [0],
    Act.claim 0, Act.finishPayload 0, Act.signalStep 0, Act.signalFinish 0,
    Act.claim 0]
    ⟨[⟨Status.done, 0, [1], false, [], []⟩,
      ⟨Status.running, 0, [], false, [0], []⟩], [], [],
      [⟨true, 0, true, Phase.running 1 []⟩], 1, false⟩
    1 (by rfl) (by rfl) 0 (by decide)

/-! ## Claim C2 : status transitions -/

/-- Claim C2 counterexample: the claim says a state that was ON_HOLD must
pass through ENQUEUED before becoming RUNNING.  On the high-priority inline
path (lines 258–262 calling `Invoke`, which sets RUNNING at line 216) the
dependent moves ON_HOLD → RUNNING in one transition, never being ENQUEUED:
after `Push; PushDependent [0]; Wait-mark 1; claim; finish payload`, task 1
is ON_HOLD, and the next signalling iteration makes it RUNNING. -/
theorem C2_counterexample :
    (run init [Act.push, Act.pushDependent [0], Act.markHighPriority 1,
        Act.claim 0, Act.finishPayload 0]).map (fun s => taskStatus s 1) =
      some (some Status.onHold) ∧
    (run init [Act.push, Act.pushDependent [0], Act.markHighPriority 1,
        Act.claim 0, Act.finishPayload 0, Act.signalStep 0]).map
          (fun s => taskStatus s 1) = some (some Status.running) := by
  constructor
  · rfl
  · rfl

/-- Claim C2 (amended): across every enabled transition from an
invariant-satisfying state, the status of an existing task either stays
unchanged or moves strictly forward along ON_HOLD → ENQUEUED → RUNNING →
DONE — no operation ever sets an earlier status — but the high-priority
inline path of `SignalDependentSharedFutures` (lines 258–262 with `Invoke`,
line 216) may skip ENQUEUED, moving ON_HOLD → RUNNING directly.  The
original no-skip claim is refuted by `C2_counterexample`. -/
theorem C2_status_forward {s s' : Sys} {a : Act} {t : TaskId}
    {st st' : Status} (hinv : Inv s) (hstep : step s a = some s')
    (hb : taskStatus s t = some st) (ha : taskStatus s' t = some st') :
    st = st' ∨ (st = Status.onHold ∧ st' = Status.enqueued) ∨
      (st = Status.enqueued ∧ st' = Status.running) ∨
      (st = Status.running ∧ st' = Status.done) ∨
      (st = Status.onHold ∧ st' = Status.running) := by
  cases hx : s.tasks.get? t with
  | none =>
    rw [taskStatus_def, hx] at hb
    exact absurd hb (by simp)
  | some tk =>
    have hbs : tk.status = st := by
      rw [taskStatus_def, hx] at hb
      simpa using hb
    cases a with
    | push =>
      rw [step] at hstep
      have hs := (Option.some.inj hstep).symm
      subst hs
      left
      have ha2 : ((s.tasks ++
          [(⟨Status.enqueued, 0, [], false, [], []⟩ : Task)]).get? t).map
            Task.status = some st' := ha
      rw [get?_append_left2 hx] at ha2
      rw [← hbs]
      exact (by simpa using ha2)
    | pushDependent priors =>
      rw [step] at hstep
      split at hstep
      case isFalse => exact absurd hstep (by simp)
      rename_i hall
      by_cases hempty :
          (priors.filter fun p => taskStatus s p ≠ some Status.done).isEmpty
      · rw [if_pos hempty] at hstep
        have hs := (Option.some.inj hstep).symm
        subst hs
        left
        have ha2 : ((s.tasks ++
            [(⟨Status.enqueued, 0, [], false, priors, []⟩ : Task)]).get?
              t).map Task.status = some st' := ha
        rw [get?_append_left2 hx] at ha2
        rw [← hbs]
        exact (by simpa using ha2)
      · rw [if_neg hempty] at hstep
        have hs := (Option.some.inj hstep).symm
        subst hs
        left
        have ha2 : ((registerPriors (s.tasks ++
            [(⟨Status.onHold,
              (((priors.filter fun p =>
                taskStatus s p ≠ some Status.done)).length : Int), [],
              false, priors,
              priors.filter fun p =>
                taskStatus s p ≠ some Status.done⟩ : Task)])
            s.tasks.length
            (priors.filter fun p => taskStatus s p ≠ some Status.done)).get?
              t).map Task.status = some st' := ha
        rw [registerPriors_get?, get?_append_left2 hx] at ha2
        rw [← hbs]
        exact (by simpa using ha2)
    | claim w2 =>
      rw [step] at hstep
      split at hstep
      case h_2 => exact absurd hstep (by simp)
      rename_i ac2 hac2
      split at hstep
      case isFalse => exact absurd hstep (by simp)
      rename_i hcond
      split at hstep
      case h_2 => exact absurd hstep (by simp)
      rename_i t0 rest0 hq0
      have hs := (Option.some.inj hstep).symm
      subst hs
      have ha2 : ((updAt s.tasks t0 fun tk2 =>
          { tk2 with status := Status.running }).get? t).map Task.status =
            some st' := ha
      by_cases htt : t0 = t
      · subst htt
        rw [updAt_get?_self _ hx] at ha2
        have h2 : Status.running = st' := by simpa using ha2
        have hqm : t0 ∈ s.queue := by
          rw [hq0]
          exact List.mem_cons_self _ _
        have hst := hinv.queueStatus t0 hqm
        rw [taskStatus_def, hx] at hst
        have h1 : tk.status = Status.enqueued := by simpa using hst
        exact Or.inr (Or.inr (Or.inl ⟨by rw [← hbs]; exact h1, h2.symm⟩))
      · rw [updAt_get?_ne _ htt, hx] at ha2
        left
        rw [← hbs]
        exact (by simpa using ha2)
    | finishPayload w2 =>
      rw [step] at hstep
      split at hstep
      case h_2 => exact absurd hstep (by simp)
      rename_i ac2 hac2
      split at hstep
      case h_2 => exact absurd hstep (by simp)
      rename_i t0 stk0 hph2
      have hs := (Option.some.inj hstep).symm
      subst hs
      have ha2 : ((updAt s.tasks t0 fun tk2 =>
          { tk2 with status := Status.done }).get? t).map Task.status =
            some st' := ha
      by_cases htt : t0 = t
      · subst htt
        rw [updAt_get?_self _ hx] at ha2
        have h2 : Status.done = st' := by simpa using ha2
        have hacR : runningOf ac2 = [t0] := by rw [runningOf, hph2]
        have hr : t0 ∈ runningTasks s := by
          obtain ⟨hRa, -⟩ := bind_decomp runningOf hac2 id
          rw [runningTasks_def, hRa]
          refine List.mem_append.mpr (Or.inr (List.mem_append.mpr
            (Or.inl ?_)))
          rw [hacR]
          exact List.mem_cons_self _ _
        have hst := hinv.runStatus t0 hr
        rw [taskStatus_def, hx] at hst
        have h1 : tk.status = Status.running := by simpa using hst
        exact Or.inr (Or.inr (Or.inr (Or.inl
          ⟨by rw [← hbs]; exact h1, h2.symm⟩)))
      · rw [updAt_get?_ne _ htt, hx] at ha2
        left
        rw [← hbs]
        exact (by simpa using ha2)
    | signalStep w2 =>
      rw [step] at hstep
      split at hstep
      case h_2 => exact absurd hstep (by simp)
      rename_i ac2 hac2
      split at hstep
      case h_2 => exact absurd hstep (by simp)
      rename_i p0 d0 rest0 col0 stk0 hph2
      split at hstep
      case h_2 => exact absurd hstep (by simp)
      rename_i dt0 hdt0
      obtain ⟨hstOH, -⟩ := signal_target_onHold hinv hac2 hph2 hdt0
      split at hstep
      case isTrue =>
        split at hstep
        case isFalse => exact absurd hstep (by simp)
        rename_i hdin
        split at hstep
        case isTrue =>
          have hs := (Option.some.inj hstep).symm
          subst hs
          have ha2 : ((s.tasks.set d0 { dt0 with status := Status.running, counter := dt0.counter - 1, pending := dt0.pending.erase p0 }).get? t).map Task.status = some st' := ha
          by_cases htt : d0 = t
          · subst htt
            rw [get?_set_self' _ hdt0] at ha2
            have h2 : Status.running = st' := by simpa using ha2
            rw [hx] at hdt0
            have he := Option.some.inj hdt0
            have h1 : tk.status = Status.onHold := by
              rw [he]
              exact hstOH
            exact Or.inr (Or.inr (Or.inr (Or.inr
              ⟨by rw [← hbs]; exact h1, h2.symm⟩)))
          · rw [get?_set_ne' _ htt, hx] at ha2
            left
            rw [← hbs]
            exact (by simpa using ha2)
        case isFalse =>
          have hs := (Option.some.inj hstep).symm
          subst hs
          have ha2 : ((s.tasks.set d0 { dt0 with counter := dt0.counter - 1, pending := dt0.pending.erase p0 }).get? t).map Task.status = some st' := ha
          left
          rw [← hbs]
          by_cases htt : d0 = t
          · subst htt
            rw [get?_set_self' _ hdt0] at ha2
            have h2 : dt0.status = st' := by simpa using ha2
            rw [hx] at hdt0
            rw [Option.some.inj hdt0]
            exact h2
          · rw [get?_set_ne' _ htt, hx] at ha2
            exact (by simpa using ha2)
      case isFalse =>
        have hs := (Option.some.inj hstep).symm
        subst hs
        have ha2 : ((s.tasks.set d0 { dt0 with counter := dt0.counter - 1, pending := dt0.pending.erase p0 }).get? t).map Task.status = some st' := ha
        left
        rw [← hbs]
        by_cases htt : d0 = t
        · subst htt
          rw [get?_set_self' _ hdt0] at ha2
          have h2 : dt0.status = st' := by simpa using ha2
          rw [hx] at hdt0
          rw [Option.some.inj hdt0]
          exact h2
        · rw [get?_set_ne' _ htt, hx] at ha2
          exact (by simpa using ha2)
    | signalFinish w2 =>
      rw [step] at hstep
      split at hstep
      case h_2 => exact absurd hstep (by simp)
      rename_i ac2 hac2
      split at hstep
      case h_2 => exact absurd hstep (by simp)
      rename_i p0 col0 stk0 hph2
      have hs := (Option.some.inj hstep).symm
      subst hs
      have ha2 : ((col0.foldl (fun acc c =>
          updAt acc c fun tk2 => { tk2 with status := Status.enqueued })
            s.tasks).get? t).map Task.status = some st' := ha
      rw [foldEnqueue_get?] at ha2
      by_cases htc : t ∈ col0
      · rw [if_pos htc, hx] at ha2
        have h2 : Status.enqueued = st' := by simpa using ha2
        have hacF : actorFrames ac2 = (⟨p0, [], col0⟩ : Frame) :: stk0 := by
          rw [actorFrames, hph2]
        have hmem : t ∈ collectedTasks s := by
          obtain ⟨hFa, -⟩ := bind_decomp actorFrames hac2 id
          rw [collectedTasks_def, allFrames_def, hFa]
          refine List.mem_flatMap.mpr ⟨⟨p0, [], col0⟩, ?_, htc⟩
          refine List.mem_append.mpr (Or.inr (List.mem_append.mpr
            (Or.inl ?_)))
          rw [hacF]
          exact List.mem_cons_self _ _
        have hst := hinv.collectedStatus t hmem
        rw [taskStatus_def, hx] at hst
        have h1 : tk.status = Status.onHold := by simpa using hst
        exact Or.inr (Or.inl ⟨by rw [← hbs]; exact h1, h2.symm⟩)
      · rw [if_neg htc, hx] at ha2
        left
        rw [← hbs]
        exact (by simpa using ha2)
    | tryClaim w2 t0 =>
      rw [step] at hstep
      split at hstep
      case h_2 => exact absurd hstep (by simp)
      rename_i ac2 hac2
      split at hstep
      case isFalse => exact absurd hstep (by simp)
      rename_i hcond
      have hs := (Option.some.inj hstep).symm
      subst hs
      have ha2 : ((updAt s.tasks t0 fun tk2 =>
          { tk2 with status := Status.running }).get? t).map Task.status =
            some st' := ha
      by_cases htt : t0 = t
      · subst htt
        rw [updAt_get?_self _ hx] at ha2
        have h2 : Status.running = st' := by simpa using ha2
        have hst := hcond.2.1
        rw [taskStatus_def, hx] at hst
        have h1 : tk.status = Status.enqueued := by simpa using hst
        exact Or.inr (Or.inr (Or.inl ⟨by rw [← hbs]; exact h1, h2.symm⟩))
      · rw [updAt_get?_ne _ htt, hx] at ha2
        left
        rw [← hbs]
        exact (by simpa using ha2)
    | markHighPriority t0 =>
      rw [step] at hstep
      split at hstep
      case h_2 => exact absurd hstep (by simp)
      rename_i tk0 htk0
      split at hstep
      case isFalse => exact absurd hstep (by simp)
      have hs := (Option.some.inj hstep).symm
      subst hs
      have ha2 : ((s.tasks.set t0
          { tk0 with highPriority := true }).get? t).map Task.status =
            some st' := ha
      left
      rw [← hbs]
      by_cases htt : t0 = t
      · subst htt
        rw [get?_set_self' _ htk0] at ha2
        have h2 : tk0.status = st' := by simpa using ha2
        rw [hx] at htk0
        rw [Option.some.inj htk0]
        exact h2
      · rw [get?_set_ne' _ htt, hx] at ha2
        exact (by simpa using ha2)
    | workerExit w2 =>
      rw [step] at hstep
      split at hstep
      case h_2 => exact absurd hstep (by simp)
      rename_i ac2 hac2
      split at hstep
      case isFalse => exact absurd hstep (by simp)
      have hs := (Option.some.inj hstep).symm
      subst hs
      left
      rw [← hbs]
      have ha2 : (s.tasks.get? t).map Task.status = some st' := ha
      rw [hx] at ha2
      exact (by simpa using ha2)
    | setTarget n =>
      rw [step] at hstep
      split at hstep
      case isTrue => exact absurd hstep (by simp)
      have hs := (Option.some.inj hstep).symm
      subst hs
      left
      rw [← hbs]
      have ha2 : (s.tasks.get? t).map Task.status = some st' := ha
      rw [hx] at ha2
      exact (by simpa using ha2)
    | spawnWorker i =>
      rw [step] at hstep
      split at hstep
      case isTrue => exact absurd hstep (by simp)
      have hs := (Option.some.inj hstep).symm
      subst hs
      left
      rw [← hbs]
      have ha2 : (s.tasks.get? t).map Task.status = some st' := ha
      rw [hx] at ha2
      exact (by simpa using ha2)
    | destroy =>
      rw [step] at hstep
      have hs := (Option.some.inj hstep).symm
      subst hs
      left
      rw [← hbs]
      have ha2 : (s.tasks.get? t).map Task.status = some st' := ha
      rw [hx] at ha2
      exact (by simpa using ha2)

/-- Claim C2 witness (amended theorem): a worker claiming the front of the
queue moves task 0 from ENQUEUED to RUNNING, one of the allowed forward
transitions. -/
theorem C2_witness :
    Status.enqueued = Status.running ∨
      (Status.enqueued = Status.onHold ∧
        Status.running = Status.enqueued) ∨
      (Status.enqueued = Status.enqueued ∧
        Status.running = Status.running) ∨
      (Status.enqueued = Status.running ∧ Status.running = Status.done) ∨
      (Status.enqueued = Status.onHold ∧
        Status.running = Status.running) :=
  @C2_status_forward
    ⟨[⟨Status.enqueued, 0, [], false, [], []⟩], [0], [],
      [⟨true, 0, true, Phase.idle⟩], 1, false⟩
    ⟨[⟨Status.running, 0, [], false, [], []⟩], [], [],
      [⟨true, 0, true, Phase.running 0 []⟩], 1, false⟩
    (Act.claim 0) 0 Status.enqueued Status.running
    (@inv_run [Act.push] init
      ⟨[⟨Status.enqueued, 0, [], false, [], []⟩], [0], [],
        [⟨true, 0, true, Phase.idle⟩], 1, false⟩ inv_init (by rfl))
    (by rfl) (by rfl) (by rfl)

/-! ## Claim C4 : high-priority inline execution -/

/-- Claim C4: when a dependent's outstanding-dependency counter reaches
zero while its status is ON_HOLD (ON_HOLD is forced by the invariant, since
the signalling owner is still pending for it) and its invoker is marked
`IsHighPriority`, the invoker is removed from the on-hold store and
executed immediately on the thread performing the signalling — that actor
moves to the running phase for the dependent — and the ready queue is
untouched and never contains the dependent. -/
theorem C4_high_priority_inline {s s' : Sys} {w : Nat} {ac : Actor}
    {p d : TaskId} {rest col : List TaskId} {stk : List Frame} {dt : Task}
    (hinv : Inv s) (hac : s.actors.get? w = some ac)
    (hph : ac.phase = Phase.signaling (⟨p, d :: rest, col⟩ :: stk))
    (hdt : s.tasks.get? d = some dt) (hone : dt.counter = 1)
    (hhigh : dt.highPriority = true)
    (hstep : step s (Act.signalStep w) = some s') :
    s'.onHold = s.onHold.erase d ∧
    (s'.actors.get? w).map Actor.phase =
      some (Phase.running d (⟨p, rest, col⟩ :: stk)) ∧
    taskStatus s' d = some Status.running ∧
    s'.queue = s.queue ∧ d ∉ s'.queue := by
  obtain ⟨hstOH, hdnq⟩ := signal_target_onHold hinv hac hph hdt
  rw [step] at hstep
  split at hstep
  case h_2 => exact absurd hstep (by simp)
  rename_i ac2 hac2
  rw [hac] at hac2
  have he := Option.some.inj hac2
  subst he
  split at hstep
  case h_2 => exact absurd hstep (by simp)
  rename_i p2 d2 rest2 col2 stk2 hph2
  rw [hph] at hph2
  simp only [Phase.signaling.injEq, List.cons.injEq, Frame.mk.injEq]
    at hph2
  obtain ⟨⟨hp2, ⟨hd2, hrest2⟩, hcol2⟩, hstk2⟩ := hph2
  subst hp2
  subst hd2
  subst hrest2
  subst hcol2
  subst hstk2
  split at hstep
  case h_2 => exact absurd hstep (by simp)
  rename_i dt2 hdt2
  rw [hdt] at hdt2
  have he2 := Option.some.inj hdt2
  subst he2
  have hcondT : dt.status = Status.onHold ∧ dt.counter - 1 = 0 :=
    ⟨hstOH, by omega⟩
  rw [if_pos hcondT] at hstep
  by_cases hdin : d ∈ s.onHold
  · rw [if_pos hdin, if_pos hhigh] at hstep
    have hs := (Option.some.inj hstep).symm
    subst hs
    refine ⟨rfl, ?_, ?_, rfl, hdnq⟩
    · show ((updAt s.actors w _).get? w).map Actor.phase = _
      rw [updAt_get?_self_total, hac]
      rfl
    · rw [taskStatus_def]
      show ((s.tasks.set d _).get? d).map Task.status = _
      rw [get?_set_self' _ hdt]
      rfl
  · rw [if_neg hdin] at hstep
    exact absurd hstep (by simp)

/-- Claim C4 witness: after `Push; PushDependent [0]; Wait-mark 1; claim;
finish payload`, the signalling iteration over dependent 1 (high priority,
counter 1) removes it from the on-hold store and runs it inline on worker
0, leaving the ready queue untouched. -/
theorem C4_witness :
    (⟨[⟨Status.done, 0, [1], false, [], []⟩,
        ⟨Status.running, 0, [], true, [0], []⟩], [], [],
      [⟨true, 0, true, Phase.running 1 [⟨0, [], []⟩]⟩], 1,
      false⟩ : Sys).onHold =
      (⟨[⟨Status.done, 0, [1], false, [], []⟩,
          ⟨Status.onHold, 1, [], true, [0], [0]⟩], [], [1],
        [⟨true, 0, true, Phase.signaling [⟨0, [1], []⟩]⟩], 1,
        false⟩ : Sys).onHold.erase 1 ∧
    ((⟨[⟨Status.done, 0, [1], false, [], []⟩,
        ⟨Status.running, 0, [], true, [0], []⟩], [], [],
      [⟨true, 0, true, Phase.running 1 [⟨0, [], []⟩]⟩], 1,
      false⟩ : Sys).actors.get? 0).map Actor.phase =
      some (Phase.running 1 [(⟨0, [], []⟩ : Frame)]) ∧
    taskStatus (⟨[⟨Status.done, 0, [1], false, [], []⟩,
        ⟨Status.running, 0, [], true, [0], []⟩], [], [],
      [⟨true, 0, true, Phase.running 1 [⟨0, [], []⟩]⟩], 1,
      false⟩ : Sys) 1 = some Status.running ∧
    (⟨[⟨Status.done, 0, [1], false, [], []⟩,
        ⟨Status.running, 0, [], true, [0], []⟩], [], [],
      [⟨true, 0, true, Phase.running 1 [⟨0, [], []⟩]⟩], 1,
      false⟩ : Sys).queue =
      (⟨[⟨Status.done, 0, [1], false, [], []⟩,
          ⟨Status.onHold, 1, [], true, [0], [0]⟩], [], [1],
        [⟨true, 0, true, Phase.signaling [⟨0, [1], []⟩]⟩], 1,
        false⟩ : Sys).queue ∧
    1 ∉ (⟨[⟨Status.done, 0, [1], false, [], []⟩,
        ⟨Status.running, 0, [], true, [0], []⟩], [], [],
      [⟨true, 0, true, Phase.running 1 [⟨0, [], []⟩]⟩], 1,
      false⟩ : Sys).queue :=
  @C4_high_priority_inline
    ⟨[⟨Status.done, 0, [1], false, [], []⟩,
        ⟨Status.onHold, 1, [], true, [0], [0]⟩], [], [1],
      [⟨true, 0, true, Phase.signaling [⟨0, [1], []⟩]⟩], 1, false⟩
    ⟨[⟨Status.done, 0, [1], false, [], []⟩,
        ⟨Status.running, 0, [], true, [0], []⟩], [], [],
      [⟨true, 0, true, Phase.running 1 [⟨0, [], []⟩]⟩], 1, false⟩
    0 ⟨true, 0, true, Phase.signaling [⟨0, [1], []⟩]⟩ 0 1 [] [] []
    ⟨Status.onHold, 1, [], true, [0], [0]⟩
    (@inv_run [Act.push, Act.pushDependent [0],
      Act.markHighPriority 1, Act.claim 0, Act.finishPayload 0] init
      ⟨[⟨Status.done, 0, [1], false, [], []⟩,
          ⟨Status.onHold, 1, [], true, [0], [0]⟩], [], [1],
        [⟨true, 0, true, Phase.signaling [⟨0, [1], []⟩]⟩], 1, false⟩
      inv_init (by rfl))
    (by rfl) (by rfl) (by rfl) (by rfl) (by rfl) (by rfl)

/-! ## Claim C7 : demoted workers -/

/-- Claim C7: a worker whose index is at or above the current
`NumberOfThreads` target never claims another invoker (`Continue` fails),
may exit — deregistering its thread identity and terminating — and once
exited never resumes claiming work along any continuation of the run, even
if `NumberOfThreads` later grows again. -/
theorem C7_demoted_worker {s : Sys} {w : Nat} {ac : Actor}
    (hac : s.actors.get? w = some ac) (hworker : ac.isWorker = true)
    (hidle : ac.phase = Phase.idle)
    (hidx : s.numberOfThreads ≤ ac.idx) :
    step s (Act.claim w) = none ∧
    ∃ s', step s (Act.workerExit w) = some s' ∧
      (s'.actors.get? w).map Actor.registered = some false ∧
      (s'.actors.get? w).map Actor.phase = some Phase.exited ∧
      ∀ acts s'', run s' acts = some s'' →
        (s''.actors.get? w).map Actor.phase = some Phase.exited ∧
        step s'' (Act.claim w) = none := by
  refine ⟨claim_out_of_bounds hac hidx, ?_⟩
  refine ⟨{ s with actors := updAt s.actors w fun a2 =>
    { a2 with phase := Phase.exited, registered := false } }, ?_, ?_, ?_,
    ?_⟩
  · rw [step, hac]
    show (if ac.isWorker ∧ ac.phase = Phase.idle ∧
        (s.numberOfThreads ≤ ac.idx ∨ (s.destroying ∧ s.queue = [])) then
      some { s with actors := updAt s.actors w fun a2 =>
        { a2 with phase := Phase.exited, registered := false } }
      else none) = _
    rw [if_pos ⟨hworker, hidle, Or.inl hidx⟩]
  · show ((updAt s.actors w _).get? w).map Actor.registered = some false
    rw [updAt_get?_self_total, hac]
    rfl
  · show ((updAt s.actors w _).get? w).map Actor.phase = some Phase.exited
    rw [updAt_get?_self_total, hac]
    rfl
  · intro acts s'' hrun2
    have hex0 : (((updAt s.actors w fun a2 =>
        { a2 with phase := Phase.exited, registered := false }) :
          List Actor).get? w).map Actor.phase = some Phase.exited := by
      rw [updAt_get?_self_total, hac]
      rfl
    have hex := exited_run hex0 hrun2
    refine ⟨hex, ?_⟩
    cases hax : s''.actors.get? w with
    | none =>
      rw [hax] at hex
      exact absurd hex (by simp)
    | some ac2 =>
      have hph2 : ac2.phase = Phase.exited := by
        rw [hax] at hex
        simpa using hex
      exact claim_not_idle hax (by rw [hph2]; simp)

/-- Claim C7 witness: with the target set to 0 threads, worker 0 (index 0)
cannot claim. -/
theorem C7_witness :
    step (⟨[], [], [], [⟨true, 0, true, Phase.idle⟩], 0, false⟩ : Sys)
      (Act.claim 0) = none :=
  (@C7_demoted_worker ⟨[], [], [], [⟨true, 0, true, Phase.idle⟩], 0, false⟩
    0 ⟨true, 0, true, Phase.idle⟩ (by rfl) rfl rfl (by decide)).1

/-! ## Claim C9 : collected invokers stay ON_HOLD -/

/-- Claim C9: every invoker collected for batch reinsertion in some
signalling activation still has status ON_HOLD (so the `assert` of
line 281 never fires) — no other operation can change its status before
reinsertion, because collected tasks are in no queue, no on-hold store and
no running slot — and its pending-priors list is already empty. -/
theorem C9_collected_on_hold {acts : List Act} {s : Sys} {c : TaskId}
    (hrun : run init acts = some s) (hc : c ∈ collectedTasks s) :
    taskStatus s c = some Status.onHold ∧ taskPending s c = [] := by
  have hinv := inv_run inv_init hrun
  exact ⟨hinv.collectedStatus c hc, hinv.collectedPending c hc⟩

/-- Claim C9 witness: after `Push; PushDependent [0]; claim; finish
payload; one signalling iteration`, task 1 is collected for reinsertion
and is ON_HOLD with no pending priors. -/
theorem C9_witness :
    taskStatus (⟨[⟨Status.done, 0, [1], false, [], []⟩,
        ⟨Status.onHold, 0, [], false, [0], []⟩], [], [],
      [⟨true, 0, true, Phase.signaling [⟨0, [], [1]⟩]⟩], 1,
      false⟩ : Sys) 1 = some Status.onHold ∧
    taskPending (⟨[⟨Status.done, 0, [1], false, [], []⟩,
        ⟨Status.onHold, 0, [], false, [0], []⟩], [], [],
      [⟨true, 0, true, Phase.signaling [⟨0, [], [1]⟩]⟩], 1,
      false⟩ : Sys) 1 = [] :=
  @C9_collected_on_hold [Act.push, Act.pushDependent [0],
    Act.claim 0, Act.finishPayload 0, Act.signalStep 0]
    ⟨[⟨Status.done, 0, [1], false, [], []⟩,
        ⟨Status.onHold, 0, [], false, [0], []⟩], [], [],
      [⟨true, 0, true, Phase.signaling [⟨0, [], [1]⟩]⟩], 1, false⟩
    1 (by rfl) (by decide)

end VTKQueue
